import Mathlib

/-!
# Latino lexer: a shallow embedding of `lib/Lex/Lexer.cpp`

Conventions of the embedding.

* A character is a byte, held as a `Nat` (`'a'` is `97`, the backslash is `92`).
* The immutable buffer `[BufferStart, BufferEnd)` is a `List Nat`; a pointer into it is
  its offset from `BufferStart`, so `BufferStart = 0` and `BufferEnd = buf.length`.
* `rd buf i` is `*(BufferStart + i)`.  The byte at `BufferEnd` is the sentinel NUL that
  `InitLexer` asserts.
* `LangOptions` is never consulted by the code that is embedded here (the trigraph code is
  commented out in the source), so it is dropped.
* A loop of the source whose exit is forced by the sentinel is a recursion on a bound taken
  from the buffer length; a loop or `goto` whose exit is not forced takes explicit fuel and
  returns `none` when the fuel is spent.
-/

namespace Latino

/-- The byte at offset `i` of the buffer; the sentinel NUL at `BufferEnd`. -/
def rd (buf : List Nat) (i : Nat) : Nat := (buf[i]?).getD 0

/-! ## Character classes (`latino/Basic/CharInfo.h`) -/

/-- Modelled from the spec: `CharInfo.h` is not among the sources; a byte is ASCII when it
is at most 127. -/
def isASCII (c : Nat) : Bool := decide (c ≤ 127)

/-- Modelled from the spec: `CharInfo.h` is not among the sources; horizontal whitespace is
space, tab, form feed and vertical tab (the four bytes of the whitespace case of
`LexTokenInternal`). -/
def isHorizontalWhitespace (c : Nat) : Bool := c == 32 || c == 9 || c == 12 || c == 11

/-- Modelled from the spec: `CharInfo.h` is not among the sources; the newline characters
are line feed and carriage return. -/
def isVerticalWhitespace (c : Nat) : Bool := c == 10 || c == 13

/-- Modelled from the spec: `CharInfo.h` is not among the sources; whitespace is horizontal
or vertical whitespace. -/
def isWhitespace (c : Nat) : Bool := isHorizontalWhitespace c || isVerticalWhitespace c

/-- Decimal digit, `'0'` to `'9'`. -/
def isDigit (c : Nat) : Bool := decide (48 ≤ c) && decide (c ≤ 57)

/-- ASCII letter. -/
def isLetter (c : Nat) : Bool :=
  (decide (65 ≤ c) && decide (c ≤ 90)) || (decide (97 ≤ c) && decide (c ≤ 122))

/-- Modelled from the spec: `CharInfo.h` is not among the sources; an identifier-body
character is a letter, a digit or the underscore. -/
def isIdentifierBody (c : Nat) : Bool := isLetter c || isDigit c || c == 95

/-- Modelled from the spec: `CharInfo.h` is not among the sources; a preprocessing-number
body character is a letter, a digit, the underscore or the period. -/
def isPreprocessingNumberBody (c : Nat) : Bool :=
  isLetter c || isDigit c || c == 95 || c == 46

/-! ## Tokens (`latino/Lex/Token.h`, `latino/Basic/TokenKinds.h`) -/

/-- The token kinds that `Lexer.cpp` names. -/
inductive TokenKind
  | unknown | eof | raw_identifier | numeric_constant | char_constant | string_literal
  | question | l_square | r_square | l_paren | r_paren | l_brace | r_brace
  | period | periodperiod | ellipsis | ampamp | star | starequal
  | plus | plusplus | plusequal | minus | minusminus | minusequal
  | tildeequal | exclaim | exclaimequal | slash | slashequal
  | percent | percentequal | less | lessequal | greater | greaterequal
  | pipepipe | colon | semi | equal | equalequal | comma
  deriving DecidableEq, Repr

/-- Modelled from the spec: `Token.h` is not among the sources; a token is a kind, a start
offset (`none` for the invalid location), a length, the four flags and the pointer payload
set by `setRawIdentifierData`, `setLiteralData` and `setIdentifierInfo`. -/
structure Token where
  Kind : TokenKind
  Loc : Option Nat
  Length : Nat
  StartOfLine : Bool
  LeadingSpace : Bool
  NeedsCleaning : Bool
  LeadingEmptyMacro : Bool
  PtrData : Option Nat
  deriving DecidableEq, Repr

/-- Modelled from the spec: `Token::startToken` resets a token to the default-constructed
state the caller hands in (kind unknown, no flags, no payload, invalid location). -/
def Token.startToken : Token :=
  { Kind := TokenKind.unknown, Loc := none, Length := 0, StartOfLine := false,
    LeadingSpace := false, NeedsCleaning := false, LeadingEmptyMacro := false,
    PtrData := none }

/-- Modelled from the spec: `tok::isStringLiteral` of `TokenKinds.h`; of the kinds this
lexer forms only `string_literal` is a string literal. -/
def isStringLiteral (k : TokenKind) : Bool := decide (k = TokenKind.string_literal)

/-! ## Lexer state -/

/-- The mutable members of `Lexer`. `BufferStart`, `BufferEnd` and the bytes are the
immutable `buf`; `FileLoc` is the origin of the offsets. -/
structure Lexer where
  BufferPtr : Nat
  IsAtStartOfLine : Bool
  IsAtPhysicalStartOfLine : Bool
  HasLeadingSpace : Bool
  HasLeadingEmptyMacro : Bool
  deriving DecidableEq, Repr

/-- What `LexTokenInternal` takes from outside the buffer: the value its local `Kind`
holds before any assignment, and `llvm::convertUTF8Sequence` in strict mode, which at a
position either decodes a code point and returns it with the position after the sequence
(`conversionOK`) or fails and leaves the position where it was. -/
structure LexEnv where
  KindInit : TokenKind
  convertUTF8Sequence : List Nat → Nat → Option (Nat × Nat)

/-- `Lexer::InitLexer`, with `BuffStart = 0` and `BuffEnd = buf.length`. The member
`HasLeadingEmptyMacro` is not assigned by `InitLexer`; its prior value is `hlem`. -/
def InitLexer (buf : List Nat) (BuffPtr : Nat) (hlem : Bool) : Lexer :=
  let BOMLength : Nat :=
    if rd buf 0 == 239 && rd buf 1 == 187 && rd buf 2 == 191 && decide (3 ≤ buf.length)
    then 3 else 0
  { BufferPtr := if BuffPtr == 0 then BuffPtr + BOMLength else BuffPtr,
    IsAtStartOfLine := true,
    IsAtPhysicalStartOfLine := true,
    HasLeadingSpace := false,
    HasLeadingEmptyMacro := hlem }

/-- `Lexer::SetByteOffset`. -/
def SetByteOffset (buf : List Nat) (L : Lexer) (Offset : Nat) (StartOfLine : Bool) : Lexer :=
  { L with BufferPtr := if Offset > buf.length then buf.length else Offset,
           IsAtStartOfLine := StartOfLine,
           IsAtPhysicalStartOfLine := StartOfLine }

/-- Modelled from the spec: `Lexer::FormTokenWithChars` of `Lexer.h` finalizes kind, end
cursor, and length, and commits `BufferPtr`: the token starts at the old `BufferPtr`, ends
at `TokEnd`, and `BufferPtr` becomes `TokEnd`. -/
def FormTokenWithChars (L : Lexer) (Result : Token) (TokEnd : Nat) (Kind : TokenKind) :
    Token × Lexer :=
  ({ Result with Length := TokEnd - L.BufferPtr, Loc := some L.BufferPtr, Kind := Kind },
   { L with BufferPtr := TokEnd })

/-! ## Escaped newlines and the character primitives -/

/-- The `while` loop of `Lexer::getEscapedNewLineSize`; `n` bounds the iterations by the
bytes left in the buffer (whitespace is never the sentinel). -/
def getEscapedNewLineSizeLoop (buf : List Nat) (Ptr : Nat) : Nat → Nat → Nat
  | 0, Size => Size
  | n + 1, Size =>
    if isWhitespace (rd buf (Ptr + Size)) then
      let Size1 := Size + 1
      if rd buf (Ptr + Size1 - 1) != 10 && rd buf (Ptr + Size1) != 13 then
        getEscapedNewLineSizeLoop buf Ptr n Size1
      else if (rd buf (Ptr + Size1) == 10 || rd buf (Ptr + Size1) == 13)
              && rd buf (Ptr + Size1 - 1) != rd buf (Ptr + Size1) then
        Size1 + 1
      else
        Size1
    else
      Size

/-- `Lexer::getEscapedNewLineSize`. -/
def getEscapedNewLineSize (buf : List Nat) (Ptr : Nat) : Nat :=
  getEscapedNewLineSizeLoop buf Ptr (buf.length + 1 - Ptr) 0

/-- `Token::setFlag(Token::NeedsCleaning)` through a possibly null `Token *`. -/
def setNeedsCleaning (Tok : Option Token) : Option Token :=
  Tok.map fun t => { t with NeedsCleaning := true }

/-- The recursion of `Lexer::getCharAndSizeSlow`; every recursive call is at a later byte
of the buffer, which bounds the depth by `n`. Returns the character, the updated `Size`
and the updated token. -/
def getCharAndSizeSlowRec (buf : List Nat) :
    Nat → Nat → Nat → Option Token → Nat × Nat × Option Token
  | 0, Ptr, Size, Tok => (rd buf Ptr, Size + 1, Tok)
  | n + 1, Ptr, Size, Tok =>
    if rd buf Ptr == 92 then
      let Size1 := Size + 1
      let Ptr1 := Ptr + 1
      if !isWhitespace (rd buf Ptr1) then (92, Size1, Tok)
      else
        let EscapedNewLineSize := getEscapedNewLineSize buf Ptr1
        if EscapedNewLineSize != 0 then
          getCharAndSizeSlowRec buf n (Ptr1 + EscapedNewLineSize)
            (Size1 + EscapedNewLineSize) (setNeedsCleaning Tok)
        else (92, Size1, Tok)
    else (rd buf Ptr, Size + 1, Tok)

/-- `Lexer::getCharAndSizeSlow`. -/
def getCharAndSizeSlow (buf : List Nat) (Ptr Size : Nat) (Tok : Option Token) :
    Nat × Nat × Option Token :=
  getCharAndSizeSlowRec buf (buf.length + 1 - Ptr) Ptr Size Tok

/-- The recursion of `Lexer::getCharAndSizeSlowNoWarn`. -/
def getCharAndSizeSlowNoWarnRec (buf : List Nat) : Nat → Nat → Nat → Nat × Nat
  | 0, Ptr, Size => (rd buf Ptr, Size + 1)
  | n + 1, Ptr, Size =>
    if rd buf Ptr == 92 then
      let Size1 := Size + 1
      let Ptr1 := Ptr + 1
      if !isWhitespace (rd buf Ptr1) then (92, Size1)
      else
        let EscapedNewLineSize := getEscapedNewLineSize buf Ptr1
        if EscapedNewLineSize != 0 then
          getCharAndSizeSlowNoWarnRec buf n (Ptr1 + EscapedNewLineSize)
            (Size1 + EscapedNewLineSize)
        else (92, Size1)
    else (rd buf Ptr, Size + 1)

/-- `Lexer::getCharAndSizeSlowNoWarn`. -/
def getCharAndSizeSlowNoWarn (buf : List Nat) (Ptr Size : Nat) : Nat × Nat :=
  getCharAndSizeSlowNoWarnRec buf (buf.length + 1 - Ptr) Ptr Size

/-- Modelled from the spec: `isObviouslySimpleCharacter` of `Lexer.h`; a character that
starts neither a trigraph nor an escaped newline. -/
def isObviouslySimpleCharacter (C : Nat) : Bool := C != 63 && C != 92

/-- Modelled from the spec: the get-char-and-advance primitive of `Lexer.h` (spelled
`getAndAdvancedChar` in this repository): a simple character is returned and stepped over,
anything else goes through `getCharAndSizeSlow` with the token, so that an escaped newline
is skipped and flags the token `NeedsCleaning`. Returns the character, the advanced pointer
and the token. -/
def getAndAdvancedChar (buf : List Nat) (Ptr : Nat) (Tok : Token) : Nat × Nat × Token :=
  if isObviouslySimpleCharacter (rd buf Ptr) then (rd buf Ptr, Ptr + 1, Tok)
  else
    let r := getCharAndSizeSlow buf Ptr 0 (some Tok)
    (r.1, Ptr + r.2.1, r.2.2.getD Tok)

/-- Modelled from the spec: `getCharAndSize` of `Lexer.h`, the peeking form of the
primitive: the character at `Ptr` and the number of bytes it occupies, no token touched. -/
def getCharAndSize (buf : List Nat) (Ptr : Nat) : Nat × Nat :=
  if isObviouslySimpleCharacter (rd buf Ptr) then (rd buf Ptr, 1)
  else
    let r := getCharAndSizeSlow buf Ptr 0 none
    (r.1, r.2.1)

/-- Modelled from the spec: `ConsumeChar` of `Lexer.h`: step over a character that
`getCharAndSize` measured; a character of more than one byte is re-read through
`getCharAndSizeSlow` with the token, which flags it `NeedsCleaning`. -/
def ConsumeChar (buf : List Nat) (Ptr Size : Nat) (Tok : Token) : Nat × Token :=
  if Size == 1 then (Ptr + Size, Tok)
  else
    let r := getCharAndSizeSlow buf Ptr 0 (some Tok)
    (Ptr + r.2.1, r.2.2.getD Tok)

/-- Modelled from the spec: `getCharAndSizeNoWarn` of `Lexer.h`, the static peeking
primitive used by spelling reconstruction. -/
def getCharAndSizeNoWarn (buf : List Nat) (Ptr : Nat) : Nat × Nat :=
  if isObviouslySimpleCharacter (rd buf Ptr) then (rd buf Ptr, 1)
  else getCharAndSizeSlowNoWarn buf Ptr 0

/-- A loop `while (P(*p)) ++p;` that the sentinel stops; `n` bounds it by the bytes left. -/
def advanceWhile (P : Nat → Bool) (buf : List Nat) : Nat → Nat → Nat
  | 0, p => p
  | n + 1, p => if P (rd buf p) then advanceWhile P buf n (p + 1) else p

/-! ## The token scanners -/

/-- `Lexer::LexIdentifier`. `CurPtr` is just past the first character of the identifier;
the loop `C = *CurPtr++` followed by `--CurPtr` leaves `CurPtr` at the first byte that is
not an identifier-body character. -/
def LexIdentifier (buf : List Nat) (L : Lexer) (Result : Token) (CurPtr : Nat) :
    Bool × Token × Lexer :=
  let CurPtr1 := advanceWhile isIdentifierBody buf (buf.length + 1 - CurPtr) CurPtr
  let C := rd buf CurPtr1
  if !isASCII C then
    let IdStart := L.BufferPtr
    let r := FormTokenWithChars L Result CurPtr1 TokenKind.raw_identifier
    (true, { r.1 with PtrData := some IdStart }, r.2)
  else
    (false, Result, L)

/-- The `while` loop of `Lexer::LexCharConstant`, which runs up to a single quote, and the
one of `Lexer::LexStringLiteral`, which runs up to a double quote, with the code after the
loop: the two differ in the closing quote `Q` only. Every iteration reads at least one byte
and the sentinel ends the loop, which bounds it by `n`. -/
def LexQuotedLoop (buf : List Nat) (L : Lexer) (Q : Nat) (Kind : TokenKind) :
    Nat → Nat → Nat → Token → Option (Bool × Token × Lexer)
  | 0, _, _, _ => none
  | n + 1, C, CurPtr, Result =>
    if C != Q then
      let e := if C == 92 then getAndAdvancedChar buf CurPtr Result else (C, CurPtr, Result)
      let C1 := e.1
      let CurPtr1 := e.2.1
      let Result1 := e.2.2
      if C1 == 10 || C1 == 13 || (C1 == 0 && CurPtr1 - 1 == buf.length) then
        let r := FormTokenWithChars L Result1 (CurPtr1 - 1) TokenKind.unknown
        some (true, r.1, r.2)
      else
        let g := getAndAdvancedChar buf CurPtr1 Result1
        LexQuotedLoop buf L Q Kind n g.1 g.2.1 g.2.2
    else
      let TokStart := L.BufferPtr
      let r := FormTokenWithChars L Result CurPtr Kind
      some (true, { r.1 with PtrData := some TokStart }, r.2)

/-- `Lexer::LexCharConstant`. -/
def LexCharConstant (buf : List Nat) (L : Lexer) (Result : Token) (CurPtr : Nat)
    (Kind : TokenKind) : Option (Bool × Token × Lexer) :=
  let g := getAndAdvancedChar buf CurPtr Result
  if g.1 == 39 then
    let r := FormTokenWithChars L g.2.2 g.2.1 TokenKind.unknown
    some (true, r.1, r.2)
  else
    LexQuotedLoop buf L 39 Kind (buf.length + 2 - CurPtr) g.1 g.2.1 g.2.2

/-- `Lexer::LexStringLiteral`. -/
def LexStringLiteral (buf : List Nat) (L : Lexer) (Result : Token) (CurPtr : Nat)
    (Kind : TokenKind) : Option (Bool × Token × Lexer) :=
  let g := getAndAdvancedChar buf CurPtr Result
  LexQuotedLoop buf L 34 Kind (buf.length + 2 - CurPtr) g.1 g.2.1 g.2.2

/-- `Lexer::isHexaLiteral`. -/
def isHexaLiteral (buf : List Nat) (Start : Nat) : Bool :=
  let r1 := getCharAndSizeNoWarn buf Start
  if r1.1 != 48 then false
  else
    let r2 := getCharAndSizeNoWarn buf (Start + r1.2)
    r2.1 == 120 || r2.1 == 88

/-- The `while (isPreprocessingNumberBody(C))` loop of `Lexer::LexNumericConstant`, on the
state `(C, Size, PrevCh, CurPtr, Result)`; the sentinel is not a body character, which
bounds the loop by `n`. -/
def LexNumericConstantLoop (buf : List Nat) :
    Nat → Nat → Nat → Nat → Nat → Token → Nat × Nat × Nat × Nat × Token
  | 0, C, Size, PrevCh, CurPtr, Result => (C, Size, PrevCh, CurPtr, Result)
  | n + 1, C, Size, PrevCh, CurPtr, Result =>
    if isPreprocessingNumberBody C then
      let c := ConsumeChar buf CurPtr Size Result
      let g := getCharAndSize buf c.1
      LexNumericConstantLoop buf n g.1 g.2 C c.1 c.2
    else (C, Size, PrevCh, CurPtr, Result)

/-- The recursion of `Lexer::LexNumericConstant`: every recursive call is past a sign
byte of the buffer, which bounds the depth by `n`. -/
def LexNumericConstantRec (buf : List Nat) (L : Lexer) :
    Nat → Token → Nat → Option (Bool × Token × Lexer)
  | 0, _, _ => none
  | n + 1, Result, CurPtr =>
    let g := getCharAndSize buf CurPtr
    let s := LexNumericConstantLoop buf (buf.length + 1 - CurPtr) g.1 g.2 0 CurPtr Result
    let C := s.1
    let Size := s.2.1
    let PrevCh := s.2.2.1
    let CurPtr1 := s.2.2.2.1
    let Result1 := s.2.2.2.2
    if (C == 45 || C == 43) && (PrevCh == 69 || PrevCh == 101)
        && !isHexaLiteral buf L.BufferPtr then
      let c := ConsumeChar buf CurPtr1 Size Result1
      LexNumericConstantRec buf L n c.2 c.1
    else
      let TokStart := L.BufferPtr
      let r := FormTokenWithChars L Result1 CurPtr1 TokenKind.numeric_constant
      some (true, { r.1 with PtrData := some TokStart }, r.2)

/-- `Lexer::LexNumericConstant`. -/
def LexNumericConstant (buf : List Nat) (L : Lexer) (Result : Token) (CurPtr : Nat) :
    Option (Bool × Token × Lexer) :=
  LexNumericConstantRec buf L (buf.length + 2 - CurPtr) Result CurPtr

/-- `Lexer::SkipLineComment`. The inner loop stops at a NUL or a newline; the outer
`while (true)` has no exit, so every iteration spends fuel and no amount of fuel yields a
result. -/
def SkipLineComment (buf : List Nat) :
    Nat → Token → Nat → Bool → Lexer → Option (Bool × Token × Bool × Lexer)
  | 0, _, _, _, _ => none
  | n + 1, Result, CurPtr, TokAtPhysicalStartOfLine, L =>
    let CurPtr1 := advanceWhile (fun C => C != 0 && C != 10 && C != 13) buf
      (buf.length + 1 - CurPtr) CurPtr
    SkipLineComment buf n Result CurPtr1 TokAtPhysicalStartOfLine L

/-- `Lexer::SkipBlockComment`. It touches neither `Result` nor
`TokAtPhysicalStartOfLine`; the trailing `if (C == '/') C = *CurPtr++;` changes locals
only. Returns the result and the lexer. -/
def SkipBlockComment (buf : List Nat) (L : Lexer) (CurPtr : Nat) : Bool × Lexer :=
  let g := getCharAndSize buf CurPtr
  let C := g.1
  let CurPtr1 := CurPtr + g.2
  if C == 0 && CurPtr1 == buf.length + 1 then
    (false, { L with BufferPtr := CurPtr1 - 1 })
  else
    (false, L)

/-- The scan of `SkipWhitespace`: past horizontal whitespace and newlines, remembering
whether a newline was passed. -/
def SkipWhitespaceLoop (buf : List Nat) : Nat → Nat → Bool → Nat × Bool
  | 0, p, saw => (p, saw)
  | n + 1, p, saw =>
    if isHorizontalWhitespace (rd buf p) then SkipWhitespaceLoop buf n (p + 1) saw
    else if isVerticalWhitespace (rd buf p) then SkipWhitespaceLoop buf n (p + 1) true
    else (p, saw)

/-- Modelled from the spec: `Lexer::SkipWhitespace` is called by `LexTokenInternal` but
defined in none of the sources. Whitespace is skipped and never emitted as a token: the
cursor moves past the run of whitespace that starts at `CurPtr`, `LeadingSpace` records
whether the byte before the new cursor is not a newline, a newline passed on the way sets
`StartOfLine` and the physical start-of-line flag, `BufferPtr` is committed, and the
result is false (no token was formed). Returns the result, the token, the physical
start-of-line flag and the lexer. -/
def SkipWhitespace (buf : List Nat) (L : Lexer) (Result : Token) (CurPtr : Nat)
    (TokAtPhysicalStartOfLine : Bool) : Bool × Token × Bool × Lexer :=
  let s := SkipWhitespaceLoop buf (buf.length + 1 - CurPtr) CurPtr
    (isVerticalWhitespace (rd buf (CurPtr - 1)))
  let CurPtr1 := s.1
  let SawNewline := s.2
  let Result1 := { Result with LeadingSpace := !isVerticalWhitespace (rd buf (CurPtr1 - 1)) }
  let Result2 := if SawNewline then { Result1 with StartOfLine := true } else Result1
  (false, Result2, SawNewline || TokAtPhysicalStartOfLine, { L with BufferPtr := CurPtr1 })

/-- Modelled from the spec: `Lexer::LexEndOfFile` is called by `LexTokenInternal` but
defined in none of the sources. At the sentinel NUL the lexer emits end-of-file: the
token of kind `eof` is formed up to `CurPtr`, which is `BufferEnd`, and the result is
true. -/
def LexEndOfFile (L : Lexer) (Result : Token) (CurPtr : Nat) : Bool × Token × Lexer :=
  let r := FormTokenWithChars L Result CurPtr TokenKind.eof
  (true, r.1, r.2)

/-- `Lexer::CheckUnicodeWhitespace`: its only test is commented out in the source. -/
def CheckUnicodeWhitespace (_Result : Token) (_C : Nat) (_CurPtr : Nat) : Bool := false

/-- `Lexer::LexUnicode`. -/
def LexUnicode (L : Lexer) (Result : Token) (_C : Nat) (CurPtr : Nat) :
    Bool × Token × Lexer :=
  let r := FormTokenWithChars L Result CurPtr TokenKind.unknown
  (true, r.1, r.2)

/-! ## `LexTokenInternal` and `Lex` -/

/-- The labels of `Lexer::LexTokenInternal`. At `SkipHorizontalWhitespace` the local
`CurPtr` is live; the two other labels reload it from `BufferPtr`. -/
inductive Label
  | LexNextToken
  | SkipHorizontalWhitespace (CurPtr : Nat)
  | SkipIgnoreUnits
  deriving DecidableEq, Repr

/-- What the straight-line code that starts at a label ends in: a `return`, a `goto`, or
a call of `SkipLineComment` at `CurPtr` that is followed, when it returns false, by a
`goto`. -/
inductive Step
  | done (r : Option (Bool × Token × Lexer))
  | jump (l : Label) (Result : Token) (TokAtPhysicalStartOfLine : Bool) (L : Lexer)
  | lineComment (CurPtr : Nat) (l : Label) (Result : Token)
      (TokAtPhysicalStartOfLine : Bool) (L : Lexer)

/-- The tail `FormTokenWithChars(Result, CurPtr, Kind); return true;` of
`LexTokenInternal`, reached by every `break` of the switch. -/
def formAndReturn (L : Lexer) (Result : Token) (CurPtr : Nat) (Kind : TokenKind) : Step :=
  let r := FormTokenWithChars L Result CurPtr Kind
  Step.done (some (true, r.1, r.2))

/-- A call `if (SkipWhitespace(...)) return true; goto l;` of `LexTokenInternal`. -/
def skipWhitespaceThen (buf : List Nat) (L : Lexer) (Result : Token) (CurPtr : Nat)
    (TokAtPhysicalStartOfLine : Bool) (l : Label) : Step :=
  let w := SkipWhitespace buf L Result CurPtr TokAtPhysicalStartOfLine
  if w.1 then Step.done (some (true, w.2.1, w.2.2.2))
  else Step.jump l w.2.1 w.2.2.1 w.2.2.2

/-- An operator case of the switch of the shape
`if (getCharAndSize(CurPtr, SizeTmp) == c) { Kind = two; CurPtr = ConsumeChar(...); }
else { Kind = one; }`. -/
def opWithSuffix (buf : List Nat) (L : Lexer) (Result : Token) (CurPtr : Nat)
    (c : Nat) (two one : TokenKind) : Step :=
  let g := getCharAndSize buf CurPtr
  if g.1 == c then
    let k := ConsumeChar buf CurPtr g.2 Result
    formAndReturn L k.2 k.1 two
  else formAndReturn L Result CurPtr one

/-- An operator case of the shape of `'+'` and `'-'`: a doubled character, the character
followed by `'='`, or the character alone. -/
def opDoubledOrEqual (buf : List Nat) (L : Lexer) (Result : Token) (CurPtr : Nat)
    (c : Nat) (doubled withEqual one : TokenKind) : Step :=
  let g := getCharAndSize buf CurPtr
  if g.1 == c then
    let k := ConsumeChar buf CurPtr g.2 Result
    formAndReturn L k.2 k.1 doubled
  else if g.1 == 61 then
    let k := ConsumeChar buf CurPtr g.2 Result
    formAndReturn L k.2 k.1 withEqual
  else formAndReturn L Result CurPtr one

/-- The `switch (Char)` of `Lexer::LexTokenInternal`, entered with the character `Char`
that `getAndAdvancedChar` returned and `CurPtr` past it. -/
def LexSwitch (env : LexEnv) (buf : List Nat) (Char CurPtr : Nat) (Result : Token)
    (TokAtPhysicalStartOfLine : Bool) (L : Lexer) : Step :=
  if Char == 0 then
    if CurPtr - 1 == buf.length then Step.done (some (LexEndOfFile L Result (CurPtr - 1)))
    else
      skipWhitespaceThen buf L { Result with LeadingSpace := true } CurPtr
        TokAtPhysicalStartOfLine Label.LexNextToken
  else if Char == 13 then
    let g := if rd buf CurPtr == 10 then getAndAdvancedChar buf CurPtr Result
             else (Char, CurPtr, Result)
    skipWhitespaceThen buf L { g.2.2 with LeadingSpace := false } g.2.1
      TokAtPhysicalStartOfLine Label.LexNextToken
  else if Char == 10 then
    skipWhitespaceThen buf L { Result with LeadingSpace := false } CurPtr
      TokAtPhysicalStartOfLine Label.LexNextToken
  else if Char == 32 || Char == 9 || Char == 12 || Char == 11 then
    Step.jump (Label.SkipHorizontalWhitespace CurPtr) Result TokAtPhysicalStartOfLine L
  else if isDigit Char then Step.done (LexNumericConstant buf L Result CurPtr)
  else if isLetter Char || Char == 95 then Step.done (some (LexIdentifier buf L Result CurPtr))
  else if Char == 39 then
    Step.done (LexCharConstant buf L Result CurPtr TokenKind.char_constant)
  else if Char == 34 then
    Step.done (LexStringLiteral buf L Result CurPtr TokenKind.string_literal)
  else if Char == 63 then formAndReturn L Result CurPtr TokenKind.question
  else if Char == 91 then formAndReturn L Result CurPtr TokenKind.l_square
  else if Char == 93 then formAndReturn L Result CurPtr TokenKind.r_square
  else if Char == 40 then formAndReturn L Result CurPtr TokenKind.l_paren
  else if Char == 41 then formAndReturn L Result CurPtr TokenKind.r_paren
  else if Char == 123 then formAndReturn L Result CurPtr TokenKind.l_brace
  else if Char == 125 then formAndReturn L Result CurPtr TokenKind.r_brace
  else if Char == 46 then
    let g := getCharAndSize buf CurPtr
    if decide (48 ≤ g.1) && decide (g.1 ≤ 57) then
      let k := ConsumeChar buf CurPtr g.2 Result
      Step.done (LexNumericConstant buf L k.2 k.1)
    else if g.1 == 46 && (getCharAndSize buf (CurPtr + g.2)).1 == 46 then
      let k1 := ConsumeChar buf CurPtr g.2 Result
      let k2 := ConsumeChar buf k1.1 (getCharAndSize buf (CurPtr + g.2)).2 k1.2
      formAndReturn L k2.2 k2.1 TokenKind.ellipsis
    else if g.1 == 46 then
      let k := ConsumeChar buf CurPtr g.2 Result
      formAndReturn L k.2 k.1 TokenKind.periodperiod
    else formAndReturn L Result CurPtr TokenKind.period
  else if Char == 38 then
    opWithSuffix buf L Result CurPtr 38 TokenKind.ampamp env.KindInit
  else if Char == 42 then
    opWithSuffix buf L Result CurPtr 61 TokenKind.starequal TokenKind.star
  else if Char == 43 then
    opDoubledOrEqual buf L Result CurPtr 43 TokenKind.plusplus TokenKind.plusequal
      TokenKind.plus
  else if Char == 45 then
    opDoubledOrEqual buf L Result CurPtr 45 TokenKind.minusminus TokenKind.minusequal
      TokenKind.minus
  else if Char == 126 then
    opWithSuffix buf L Result CurPtr 61 TokenKind.tildeequal env.KindInit
  else if Char == 33 then
    opWithSuffix buf L Result CurPtr 61 TokenKind.exclaimequal TokenKind.exclaim
  else if Char == 47 then
    let g := getCharAndSize buf CurPtr
    if g.1 == 47 then
      let k := ConsumeChar buf CurPtr g.2 Result
      Step.lineComment k.1 Label.SkipIgnoreUnits k.2 TokAtPhysicalStartOfLine L
    else if g.1 == 42 then
      let k := ConsumeChar buf CurPtr g.2 Result
      let b := SkipBlockComment buf L k.1
      if b.1 then Step.done (some (true, k.2, b.2))
      else Step.jump Label.LexNextToken k.2 TokAtPhysicalStartOfLine b.2
    else if g.1 == 61 then
      let k := ConsumeChar buf CurPtr g.2 Result
      formAndReturn L k.2 k.1 TokenKind.slashequal
    else formAndReturn L Result CurPtr TokenKind.slash
  else if Char == 37 then
    opWithSuffix buf L Result CurPtr 61 TokenKind.percentequal TokenKind.percent
  else if Char == 60 then
    opWithSuffix buf L Result CurPtr 61 TokenKind.lessequal TokenKind.less
  else if Char == 62 then
    opWithSuffix buf L Result CurPtr 61 TokenKind.greaterequal TokenKind.greater
  else if Char == 124 then
    opWithSuffix buf L Result CurPtr 124 TokenKind.pipepipe env.KindInit
  else if Char == 58 then formAndReturn L Result CurPtr TokenKind.colon
  else if Char == 59 then formAndReturn L Result CurPtr TokenKind.semi
  else if Char == 61 then
    opWithSuffix buf L Result CurPtr 61 TokenKind.equalequal TokenKind.equal
  else if Char == 44 then formAndReturn L Result CurPtr TokenKind.comma
  else if isASCII Char then formAndReturn L Result CurPtr TokenKind.unknown
  else
    match env.convertUTF8Sequence buf (CurPtr - 1) with
    | some (CodePoint, CurPtr1) =>
      if CheckUnicodeWhitespace Result CodePoint CurPtr1 then
        skipWhitespaceThen buf L Result CurPtr1 TokAtPhysicalStartOfLine Label.LexNextToken
      else Step.done (some (LexUnicode L Result CodePoint CurPtr1))
    | none =>
      Step.jump Label.LexNextToken Result TokAtPhysicalStartOfLine
        { L with BufferPtr := CurPtr - 1 + 1 }

/-- The code of `Lexer::LexTokenInternal` from one label to the next `return` or `goto`. -/
def LexTokenInternalStep (env : LexEnv) (buf : List Nat) (l : Label) (Result : Token)
    (TokAtPhysicalStartOfLine : Bool) (L : Lexer) : Step :=
  match l with
  | Label.LexNextToken =>
    let Result1 := { Result with NeedsCleaning := false, PtrData := none }
    let CurPtr := L.BufferPtr
    if rd buf CurPtr == 32 || rd buf CurPtr == 9 then
      let CurPtr1 := advanceWhile (fun C => C == 32 || C == 9) buf
        (buf.length + 1 - (CurPtr + 1)) (CurPtr + 1)
      let g := getAndAdvancedChar buf CurPtr1 { Result1 with LeadingSpace := true }
      LexSwitch env buf g.1 g.2.1 g.2.2 TokAtPhysicalStartOfLine { L with BufferPtr := CurPtr1 }
    else
      let g := getAndAdvancedChar buf CurPtr Result1
      LexSwitch env buf g.1 g.2.1 g.2.2 TokAtPhysicalStartOfLine L
  | Label.SkipHorizontalWhitespace CurPtr =>
    skipWhitespaceThen buf L { Result with LeadingSpace := true } CurPtr
      TokAtPhysicalStartOfLine Label.SkipIgnoreUnits
  | Label.SkipIgnoreUnits =>
    let CurPtr := L.BufferPtr
    if rd buf CurPtr == 35 then
      Step.lineComment (CurPtr + 1) Label.LexNextToken Result TokAtPhysicalStartOfLine L
    else if rd buf CurPtr == 47 && rd buf (CurPtr + 1) == 47 then
      Step.lineComment (CurPtr + 2) Label.SkipIgnoreUnits Result TokAtPhysicalStartOfLine L
    else if rd buf CurPtr == 47 && rd buf (CurPtr + 1) == 42 then
      let b := SkipBlockComment buf L (CurPtr + 2)
      if b.1 then Step.done (some (true, Result, b.2))
      else Step.jump Label.SkipIgnoreUnits Result TokAtPhysicalStartOfLine b.2
    else if isHorizontalWhitespace (rd buf CurPtr) then
      Step.jump (Label.SkipHorizontalWhitespace CurPtr) Result TokAtPhysicalStartOfLine L
    else Step.jump Label.LexNextToken Result TokAtPhysicalStartOfLine L

/-- `Lexer::LexTokenInternal`, entered at a label: every entry of a label spends one unit
of fuel, and `none` is the answer when the fuel is spent before a `return` is reached. -/
def LexTokenInternal (env : LexEnv) (buf : List Nat) :
    Nat → Label → Token → Bool → Lexer → Option (Bool × Token × Lexer)
  | 0, _, _, _, _ => none
  | fuel + 1, l, Result, TokAtPhysicalStartOfLine, L =>
    match LexTokenInternalStep env buf l Result TokAtPhysicalStartOfLine L with
    | Step.done r => r
    | Step.jump l1 Result1 t1 L1 => LexTokenInternal env buf fuel l1 Result1 t1 L1
    | Step.lineComment CurPtr l1 Result1 t1 L1 =>
      match SkipLineComment buf fuel Result1 CurPtr t1 L1 with
      | none => none
      | some (true, Result2, _, L2) => some (true, Result2, L2)
      | some (false, Result2, t2, L2) => LexTokenInternal env buf fuel l1 Result2 t2 L2

/-- `Lexer::Lex`: the token is reset, takes the pending flags of the lexer, and
`LexTokenInternal` is entered at its first label. -/
def Lex (env : LexEnv) (buf : List Nat) (fuel : Nat) (L : Lexer) :
    Option (Bool × Token × Lexer) :=
  let Result0 := Token.startToken
  let Result1 := if L.IsAtStartOfLine then { Result0 with StartOfLine := true } else Result0
  let Result2 := if L.HasLeadingSpace then { Result1 with LeadingSpace := true } else Result1
  let Result3 :=
    if L.HasLeadingEmptyMacro then { Result2 with LeadingEmptyMacro := true } else Result2
  let atPhysicalStartOfLine := L.IsAtPhysicalStartOfLine
  let L1 := { L with IsAtStartOfLine := false, HasLeadingSpace := false,
                     HasLeadingEmptyMacro := false, IsAtPhysicalStartOfLine := false }
  LexTokenInternal env buf fuel Label.LexNextToken Result3 atPhysicalStartOfLine L1

/-! ## Spelling -/

/-- The first loop of `getSpellingSlow` (string literals): cleaned characters are appended
until `BufEnd` is reached or a double quote has been appended. Returns `BufPtr` and
`Spelling`. -/
def getSpellingSlowQuote (buf : List Nat) (BufEnd : Nat) :
    Nat → Nat → List Nat → Nat × List Nat
  | 0, BufPtr, Spelling => (BufPtr, Spelling)
  | n + 1, BufPtr, Spelling =>
    if BufPtr < BufEnd then
      let g := getCharAndSizeNoWarn buf BufPtr
      if g.1 == 34 then (BufPtr + g.2, Spelling ++ [g.1])
      else getSpellingSlowQuote buf BufEnd n (BufPtr + g.2) (Spelling ++ [g.1])
    else (BufPtr, Spelling)

/-- The `do --RawEnd; while (...)` loop of `getSpellingSlow`, which steps `RawEnd` back to
the last double quote. -/
def getSpellingSlowRawEnd (buf : List Nat) : Nat → Nat → Nat
  | 0, RawEnd => RawEnd
  | n + 1, RawEnd =>
    if rd buf (RawEnd - 1) != 34 then getSpellingSlowRawEnd buf n (RawEnd - 1)
    else RawEnd - 1

/-- The last loop of `getSpellingSlow`: cleaned characters are appended up to `BufEnd`. -/
def getSpellingSlowRest (buf : List Nat) (BufEnd : Nat) : Nat → Nat → List Nat → List Nat
  | 0, _, Spelling => Spelling
  | n + 1, BufPtr, Spelling =>
    if BufPtr < BufEnd then
      let g := getCharAndSizeNoWarn buf BufPtr
      getSpellingSlowRest buf BufEnd n (BufPtr + g.2) (Spelling ++ [g.1])
    else Spelling

/-- The bytes `[from, from + len)` of the buffer, as `memcpy` and the range constructor
of `std::string` read them. -/
def rawBytes (buf : List Nat) (start len : Nat) : List Nat :=
  (List.range len).map fun i => rd buf (start + i)

/-- The static `getSpellingSlow`: the bytes written to `Spelling`, whose number is the
result of the function. `RawLength` is `RawEnd - BufPtr + 1` in pointer arithmetic, which is
0 when `RawEnd` is the byte just before `BufPtr`. -/
def getSpellingSlow (buf : List Nat) (Tok : Token) (BufPtr : Nat) : List Nat :=
  let BufEnd := BufPtr + Tok.Length
  let s :=
    if isStringLiteral Tok.Kind then
      let q := getSpellingSlowQuote buf BufEnd Tok.Length BufPtr []
      if decide (q.2.length ≥ 2) && q.2.getLast? == some 34 then
        let RawEnd := getSpellingSlowRawEnd buf BufEnd BufEnd
        let RawLength := RawEnd + 1 - q.1
        (q.1 + RawLength, q.2 ++ rawBytes buf q.1 RawLength)
      else q
    else (BufPtr, [])
  getSpellingSlowRest buf BufEnd (BufEnd - s.1) s.1 s.2

/-- `Lexer::getSpelling`. `SourceMgr.getCharacterData(Tok.getLocation(), &Invalid)` is the
pointer to the token's first byte and the flag `CharDataInvalid`. -/
def getSpelling (buf : List Nat) (Tok : Token) (CharDataInvalid : Bool) : List Nat :=
  let TokStart := Tok.Loc.getD 0
  if CharDataInvalid then []
  else if !Tok.NeedsCleaning then rawBytes buf TokStart Tok.Length
  else getSpellingSlow buf Tok TokStart

/-! ## Definitions used to state the properties -/

/-- The driver that calls `Lex` again and again: `n` calls in a row from the state `L`, each
with `fuel` units of fuel, collecting the result and the token of every call. -/
def LexRepeat (env : LexEnv) (buf : List Nat) (fuel : Nat) :
    Nat → Lexer → Option (List (Bool × Token) × Lexer)
  | 0, L => some ([], L)
  | n + 1, L =>
    match Lex env buf fuel L with
    | none => none
    | some r =>
      match LexRepeat env buf fuel n r.2.2 with
      | none => none
      | some rs => some ((r.1, r.2.1) :: rs.1, rs.2)

/-- The token begins with 0x or 0X: the byte at `s` is the digit zero and the next one is
the letter x in either case. -/
def beginsWithHex (buf : List Nat) (s : Nat) : Bool :=
  rd buf s == 48 && (rd buf (s + 1) == 120 || rd buf (s + 1) == 88)

/-- The byte at `i` continues a numeric constant: it is a preprocessing-number body
character, or it is a `'+'` or `'-'` whose preceding byte is `'e'` or `'E'` in a token
that does not begin with 0x or 0X (`hex` false). -/
def numericContinues (buf : List Nat) (hex : Bool) (i : Nat) : Bool :=
  isPreprocessingNumberBody (rd buf i) ||
    ((rd buf i == 43 || rd buf i == 45) && (rd buf (i - 1) == 101 || rd buf (i - 1) == 69)
      && !hex)

/-- The bytes between the quotes of a literal closed by the quote `Q`: a sequence of
ordinary bytes, none of them `Q`, a backslash or a newline, and of escape pairs, a
backslash with the byte it escapes. The first quote after such a sequence is the first
quote that no backslash escapes, and no newline stands before it unescaped. -/
def isQuotedBody (Q : Nat) : List Nat → Bool
  | [] => true
  | c :: rest =>
    if c == 92 then
      match rest with
      | [] => false
      | _ :: rest1 => isQuotedBody Q rest1
    else c != Q && c != 10 && c != 13 && isQuotedBody Q rest

/-- The token that `Lex` hands to `LexTokenInternal`: the reset token with the pending
flags of the lexer. -/
def LexStartToken (L : Lexer) : Token :=
  { Token.startToken with StartOfLine := L.IsAtStartOfLine,
                          LeadingSpace := L.HasLeadingSpace,
                          LeadingEmptyMacro := L.HasLeadingEmptyMacro }

/-- The lexer state in which `Lex` enters `LexTokenInternal`: the pending flags are
cleared, the cursor is where it was. -/
def LexStartState (L : Lexer) : Lexer :=
  { L with IsAtStartOfLine := false, HasLeadingSpace := false,
           HasLeadingEmptyMacro := false, IsAtPhysicalStartOfLine := false }

/-- The operators of the maximal-munch rule, each with the kind of its token:
`+ ++ += - -- -= * *= / /= % %= < <= > >= = == ! != && || ~=`. -/
def operators : List (List Nat × TokenKind) :=
  [([43], TokenKind.plus), ([43, 43], TokenKind.plusplus), ([43, 61], TokenKind.plusequal),
   ([45], TokenKind.minus), ([45, 45], TokenKind.minusminus),
   ([45, 61], TokenKind.minusequal),
   ([42], TokenKind.star), ([42, 61], TokenKind.starequal),
   ([47], TokenKind.slash), ([47, 61], TokenKind.slashequal),
   ([37], TokenKind.percent), ([37, 61], TokenKind.percentequal),
   ([60], TokenKind.less), ([60, 61], TokenKind.lessequal),
   ([62], TokenKind.greater), ([62, 61], TokenKind.greaterequal),
   ([61], TokenKind.equal), ([61, 61], TokenKind.equalequal),
   ([33], TokenKind.exclaim), ([33, 61], TokenKind.exclaimequal),
   ([38, 38], TokenKind.ampamp), ([124, 124], TokenKind.pipepipe),
   ([126, 61], TokenKind.tildeequal)]

/-- The bytes of a stack of escaped newlines: for every entry `w` of the list a backslash,
the horizontal whitespace `w`, and one line feed. -/
def escapedNewLines : List (List Nat) → List Nat
  | [] => []
  | w :: ws => 92 :: (w ++ 10 :: escapedNewLines ws)

/-- A decoder for the examples, standing for `llvm::convertUTF8Sequence`: of all UTF-8
sequences it knows the two bytes `C2 A0` of the no-break space U+00A0, a Unicode whitespace
character, and it fails everywhere else. -/
def decodeNBSP (buf : List Nat) (p : Nat) : Option (Nat × Nat) :=
  if rd buf p == 194 && rd buf (p + 1) == 160 then some (160, p + 2) else none

/-- A decoder for the examples, standing for `llvm::convertUTF8Sequence`: of all UTF-8
sequences it knows those of two bytes, a lead byte from `C2` to `DF` and a continuation
byte from `80` to `BF`, and it fails everywhere else. -/
def decodeTwoBytes (buf : List Nat) (p : Nat) : Option (Nat × Nat) :=
  if decide (194 ≤ rd buf p) && decide (rd buf p ≤ 223) &&
      decide (128 ≤ rd buf (p + 1)) && decide (rd buf (p + 1) ≤ 191) then
    some ((rd buf p - 192) * 64 + (rd buf (p + 1) - 128), p + 2)
  else none

/-- A set of Unicode whitespace code points for the examples, standing for the table
`UnicodeWhitespaceCharRanges` that `CheckUnicodeWhitespace` names, which is not among the
sources: next line, no-break space, the spaces U+2000 to U+200A, the line and paragraph
separators and the ideographic space. -/
def exampleUnicodeWhitespace (C : Nat) : Bool :=
  C == 0x85 || C == 0xA0 || (decide (0x2000 ≤ C) && decide (C ≤ 0x200A)) ||
    C == 0x2028 || C == 0x2029 || C == 0x3000

/-! ## The dependence engine (`lib/AST/ComputeDependence.cpp`)

An expression node is the record of what `computeDependence` reads from it: the getters of
the node, each returning an expression whose dependence was computed when it was built. A
getter that may return a null pointer returns an `Option`. The overloads of
`computeDependence` are told apart by the namespace of the node. -/

/-- Modelled from the spec: `latino/AST/DependenceFlags.h` is not among the sources.
`ExprDependence` is a set of independent boolean axes, UnexpandedPack, Instantiation, Type,
Value and Error, kept here as one field per bit. -/
structure ExprDependence where
  hasUnexpandedPack : Bool
  hasInstantiation : Bool
  hasType : Bool
  hasValue : Bool
  hasError : Bool
  deriving DecidableEq, Repr

/-- `ExprDependence::None`, no bit. -/
def ExprDependence.None : ExprDependence := ⟨false, false, false, false, false⟩

/-- `ExprDependence::UnexpandedPack`. -/
def ExprDependence.UnexpandedPack : ExprDependence := ⟨true, false, false, false, false⟩

/-- `ExprDependence::Instantiation`. -/
def ExprDependence.Instantiation : ExprDependence := ⟨false, true, false, false, false⟩

/-- `ExprDependence::Type` (`Type` is a keyword of Lean, hence the underscore). -/
def ExprDependence.Type_ : ExprDependence := ⟨false, false, true, false, false⟩

/-- `ExprDependence::Value`. -/
def ExprDependence.Value : ExprDependence := ⟨false, false, false, true, false⟩

/-- `ExprDependence::Error`. -/
def ExprDependence.Error : ExprDependence := ⟨false, false, false, false, true⟩

/-- `ExprDependence::TypeValue`, Type and Value. -/
def ExprDependence.TypeValue : ExprDependence := ⟨false, false, true, true, false⟩

/-- `ExprDependence::ValueInstantiation`, Value and Instantiation. -/
def ExprDependence.ValueInstantiation : ExprDependence := ⟨false, true, false, true, false⟩

/-- `ExprDependence::TypeValueInstantiation`, Type, Value and Instantiation. -/
def ExprDependence.TypeValueInstantiation : ExprDependence :=
  ⟨false, true, true, true, false⟩

/-- The operator `|` of the bitmask enumeration: bitwise union. -/
def ExprDependence.union (a b : ExprDependence) : ExprDependence :=
  ⟨a.hasUnexpandedPack || b.hasUnexpandedPack, a.hasInstantiation || b.hasInstantiation,
   a.hasType || b.hasType, a.hasValue || b.hasValue, a.hasError || b.hasError⟩

/-- The operator `&` of the bitmask enumeration: bitwise intersection. -/
def ExprDependence.inter (a b : ExprDependence) : ExprDependence :=
  ⟨a.hasUnexpandedPack && b.hasUnexpandedPack, a.hasInstantiation && b.hasInstantiation,
   a.hasType && b.hasType, a.hasValue && b.hasValue, a.hasError && b.hasError⟩

/-- The operator `~` of the bitmask enumeration: the complement within the five bits. -/
def ExprDependence.compl (a : ExprDependence) : ExprDependence :=
  ⟨!a.hasUnexpandedPack, !a.hasInstantiation, !a.hasType, !a.hasValue, !a.hasError⟩

instance : OrOp ExprDependence := ⟨ExprDependence.union⟩

instance : AndOp ExprDependence := ⟨ExprDependence.inter⟩

instance : Complement ExprDependence := ⟨ExprDependence.compl⟩

/-- Modelled from the spec: `latino/AST/Expr.h` is not among the sources. Of a constructed
expression the engine reads the dependence bits that were stored on the node when it was
built (`Expr::getDependence`). -/
structure Expr where
  getDependence : ExprDependence
  deriving DecidableEq, Repr

/-- Modelled from the spec: `ParenExpr` of `Expr.h`, a parenthesized expression, with its
one sub-expression. -/
structure ParenExpr where
  getSubExpr : Expr
  deriving DecidableEq, Repr

/-- Modelled from the spec: `ArraySubscriptExpr` of `Expr.h`, with its two
sub-expressions. -/
structure ArraySubscriptExpr where
  getLHS : Expr
  getRHS : Expr
  deriving DecidableEq, Repr

/-- Modelled from the spec: `BinaryOperator` of `Expr.h`, with its two operands. -/
structure BinaryOperator where
  getLHS : Expr
  getRHS : Expr
  deriving DecidableEq, Repr

/-- Modelled from the spec: `PackExpansionExpr` of `ExprCXX.h`, the pack expansion wrapper,
with its pattern. -/
structure PackExpansionExpr where
  getPattern : Expr
  deriving DecidableEq, Repr

/-- `OMPArraySectionExpr` of `ExprOpenMP.h`: the four slots `BASE`, `LOWER_BOUND`, `LENGTH`
and `STRIDE` of `SubExprs`, read through their getters; the base is never null, the three
others may be. -/
structure OMPArraySectionExpr where
  getBase : Expr
  getLowerBound : Option Expr
  getLength : Option Expr
  getStride : Option Expr
  deriving DecidableEq, Repr

/-- `OMPArraySectionExpr::children`: the four slots of `SubExprs`, from `BASE` up to
`END_EXPR`. -/
def OMPArraySectionExpr.children (E : OMPArraySectionExpr) : List (Option Expr) :=
  [some E.getBase, E.getLowerBound, E.getLength, E.getStride]

/-- `computeDependence(ParenExpr *)`. -/
def ParenExpr.computeDependence (E : ParenExpr) : ExprDependence :=
  E.getSubExpr.getDependence

/-- `computeDependence(ArraySubscriptExpr *)`. -/
def ArraySubscriptExpr.computeDependence (E : ArraySubscriptExpr) : ExprDependence :=
  E.getLHS.getDependence ||| E.getRHS.getDependence

/-- `computeDependence(BinaryOperator *)`. -/
def BinaryOperator.computeDependence (E : BinaryOperator) : ExprDependence :=
  E.getLHS.getDependence ||| E.getRHS.getDependence

/-- `computeDependence(PackExpansionExpr *)`. -/
def PackExpansionExpr.computeDependence (E : PackExpansionExpr) : ExprDependence :=
  (E.getPattern.getDependence &&& ~~~ExprDependence.UnexpandedPack) |||
    ExprDependence.TypeValueInstantiation

/-- `computeDependence(OMPArraySectionExpr *)`. -/
def OMPArraySectionExpr.computeDependence (E : OMPArraySectionExpr) : ExprDependence :=
  let D := E.getBase.getDependence
  let D1 := match E.getLowerBound with
    | some LB => D ||| LB.getDependence
    | none => D
  let D2 := match E.getLength with
    | some Len => D1 ||| Len.getDependence
    | none => D1
  D2

/-- The structural-propagation rule in the words of the specification: the union of the
dependence bits of the direct sub-expressions that are present. -/
def unionOfSubExprs (cs : List (Option Expr)) : ExprDependence :=
  cs.foldl (fun D c => match c with
    | some e => D ||| e.getDependence
    | none => D) ExprDependence.None

/-- A result of `Lex` or of one of its scanners that leaves the cursor between `lo` and
`BufferEnd`. -/
def CursorWithin (buf : List Nat) (lo : Nat) (r : Option (Bool × Token × Lexer)) : Prop :=
  ∀ b tok L1, r = some (b, tok, L1) → lo ≤ L1.BufferPtr ∧ L1.BufferPtr ≤ buf.length

/-- The local `CurPtr` that is live at a label lies between the cursor and `BufferEnd`. -/
def LabelWithin (buf : List Nat) (L : Lexer) : Label → Prop
  | Label.SkipHorizontalWhitespace CurPtr => L.BufferPtr ≤ CurPtr ∧ CurPtr ≤ buf.length
  | _ => True

/-- A step of `LexTokenInternal` that leaves the cursor between `lo` and `BufferEnd`,
whether it returns or jumps. -/
def StepWithin (buf : List Nat) (lo : Nat) : Step → Prop
  | Step.done r => CursorWithin buf lo r
  | Step.jump l _ _ L1 =>
    lo ≤ L1.BufferPtr ∧ L1.BufferPtr ≤ buf.length ∧ LabelWithin buf L1 l
  | Step.lineComment _ _ _ _ L1 => lo ≤ L1.BufferPtr ∧ L1.BufferPtr ≤ buf.length

/-! ## The dependence engine: types, declarations and the nodes that read them

What `computeDependence` reads of a type, of a declaration or of a name is a getter of a
record, as for the expression nodes; a `dyn_cast` or `isa` is a match on the class of the
declaration or statement. -/

/-- Modelled from the spec: `latino/AST/DependenceFlags.h` is not among the sources.
`TypeDependence` is kept as the bits that `ComputeDependence.cpp` reads of a type:
UnexpandedPack, Instantiation (`isInstantiationDependentType`), Dependent
(`isDependentType`) and Error. -/
structure TypeDependence where
  hasUnexpandedPack : Bool
  hasInstantiation : Bool
  hasDependent : Bool
  hasError : Bool
  deriving DecidableEq, Repr

/-- `TypeDependence::None`, no bit. -/
def TypeDependence.None : TypeDependence := ⟨false, false, false, false⟩

/-- `TypeDependence::Dependent`. -/
def TypeDependence.Dependent : TypeDependence := ⟨false, false, true, false⟩

/-- `TypeDependence::DependentInstantiation`, Dependent and Instantiation. -/
def TypeDependence.DependentInstantiation : TypeDependence := ⟨false, true, true, false⟩

/-- Modelled from the spec: `toExprDependence(TypeDependence)` of `DependenceFlags.h`. The
bits UnexpandedPack, Instantiation and Error of the type become the bits of the same name of
the expression, and a dependent type makes the expression type-dependent and
value-dependent, as the comments of `computeDependence(CastExpr *)` have it. -/
def TypeDependence.toExprDependence (D : TypeDependence) : ExprDependence :=
  ⟨D.hasUnexpandedPack, D.hasInstantiation, D.hasDependent, D.hasDependent, D.hasError⟩

/-- Modelled from the spec: `NestedNameSpecifierDependence` of `DependenceFlags.h`, with the
bits UnexpandedPack, Instantiation, Dependent and Error. -/
structure NestedNameSpecifierDependence where
  hasUnexpandedPack : Bool
  hasInstantiation : Bool
  hasDependent : Bool
  hasError : Bool
  deriving DecidableEq, Repr

/-- `NestedNameSpecifierDependence::Dependent`. -/
def NestedNameSpecifierDependence.Dependent : NestedNameSpecifierDependence :=
  ⟨false, false, true, false⟩

/-- The operator `&` of the bitmask enumeration. -/
def NestedNameSpecifierDependence.inter (a b : NestedNameSpecifierDependence) :
    NestedNameSpecifierDependence :=
  ⟨a.hasUnexpandedPack && b.hasUnexpandedPack, a.hasInstantiation && b.hasInstantiation,
   a.hasDependent && b.hasDependent, a.hasError && b.hasError⟩

/-- The operator `~` of the bitmask enumeration. -/
def NestedNameSpecifierDependence.compl (a : NestedNameSpecifierDependence) :
    NestedNameSpecifierDependence :=
  ⟨!a.hasUnexpandedPack, !a.hasInstantiation, !a.hasDependent, !a.hasError⟩

instance : AndOp NestedNameSpecifierDependence := ⟨NestedNameSpecifierDependence.inter⟩

instance : Complement NestedNameSpecifierDependence := ⟨NestedNameSpecifierDependence.compl⟩

/-- Modelled from the spec: `toExprDependence(NestedNameSpecifierDependence)` of
`DependenceFlags.h`, the same translation as for a type. -/
def NestedNameSpecifierDependence.toExprDependence (D : NestedNameSpecifierDependence) :
    ExprDependence :=
  ⟨D.hasUnexpandedPack, D.hasInstantiation, D.hasDependent, D.hasDependent, D.hasError⟩

/-- Modelled from the spec: `TemplateArgumentDependence` of `DependenceFlags.h`, with the
bits UnexpandedPack, Instantiation, Dependent and Error. -/
structure TemplateArgumentDependence where
  hasUnexpandedPack : Bool
  hasInstantiation : Bool
  hasDependent : Bool
  hasError : Bool
  deriving DecidableEq, Repr

/-- Modelled from the spec: `toExprDependence(TemplateArgumentDependence)` of
`DependenceFlags.h`, the same translation as for a type. -/
def TemplateArgumentDependence.toExprDependence (D : TemplateArgumentDependence) :
    ExprDependence :=
  ⟨D.hasUnexpandedPack, D.hasInstantiation, D.hasDependent, D.hasDependent, D.hasError⟩

/-- Modelled from the spec: `turnTypeToValueDependence` of `DependenceFlags.h`, the
reusable transform of the value/type cross-promotion rule: type-dependence of a sub-part is
turned into value-dependence of the whole, so the Type bit is cleared and the Value bit is
set when the Type bit was set; the other bits stay. -/
def turnTypeToValueDependence (D : ExprDependence) : ExprDependence :=
  { D with hasType := false, hasValue := D.hasValue || D.hasType }

/-- Modelled from the spec: `Expr::isValueDependent` of `Expr.h`, the Value bit of the
dependence stored on the node. -/
def Expr.isValueDependent (E : Expr) : Bool := E.getDependence.hasValue

/-- Modelled from the spec: `QualType` and `Type` of `Type.h`, as what is read of the type
of a node or of a declaration: its dependence and the answers of the predicates
`isLiteralType`, `isIntegralOrEnumerationType`, `isConstQualified`, `isReferenceType` and
`isIncompleteArrayType`. -/
structure QualType where
  getDependence : TypeDependence
  isLiteralType : Bool
  isIntegralOrEnumerationType : Bool
  isConstQualified : Bool
  isReferenceType : Bool
  isIncompleteArrayType : Bool
  deriving DecidableEq, Repr

/-- Modelled from the spec: `Type::isDependentType` of `Type.h`, the Dependent bit of the
dependence of the type. -/
def QualType.isDependentType (T : QualType) : Bool := T.getDependence.hasDependent

/-- Modelled from the spec: `Type::isInstantiationDependentType` of `Type.h`, the
Instantiation bit of the dependence of the type. -/
def QualType.isInstantiationDependentType (T : QualType) : Bool :=
  T.getDependence.hasInstantiation

/-- Modelled from the spec: `TypeSourceInfo` of `Type.h`, with its type. -/
structure TypeSourceInfo where
  getType : QualType
  deriving DecidableEq, Repr

/-- Modelled from the spec: the statement classes of the cast expressions, of
`Stmt::StmtClass`. -/
inductive StmtClass
  | ImplicitCastExprClass
  | CStyleCastExprClass
  | CXXFunctionalCastExprClass
  | CXXStaticCastExprClass
  | CXXDynamicCastExprClass
  | CXXReinterpretCastExprClass
  | CXXConstCastExprClass
  deriving DecidableEq, Repr

/-- Modelled from the spec: `CompoundLiteralExpr` of `Expr.h`, with the type as written
and the initializer. -/
structure CompoundLiteralExpr where
  getTypeSourceInfo : TypeSourceInfo
  getInitializer : Expr
  deriving DecidableEq, Repr

/-- Modelled from the spec: `CastExpr` of `Expr.h`, with its type, its statement class and
its sub-expression, which may be null. -/
structure CastExpr where
  getType : QualType
  getStmtClass : StmtClass
  getSubExpr : Option Expr
  deriving DecidableEq, Repr

/-- Modelled from the spec: a statement as `computeDependence(StmtExpr *)` looks at it: a
`ValueStmt` with its expression, which may be null, or a statement of another class. -/
inductive Stmt
  | ValueStmt (getExprStmt : Option Expr)
  | Other
  deriving DecidableEq, Repr

/-- Modelled from the spec: `CompoundStmt` of `Stmt.h`, with the statement that gives the
statement-expression its value, which may be null. -/
structure CompoundStmt where
  getStmtExprResult : Option Stmt
  deriving DecidableEq, Repr

/-- Modelled from the spec: `StmtExpr` of `Expr.h`, with its type and its compound
statement. -/
structure StmtExpr where
  getType : QualType
  getSubStmt : CompoundStmt
  deriving DecidableEq, Repr

/-- Modelled from the spec: `ChooseExpr` of `Expr.h`, with its three sub-expressions and
the answers of `isConditionDependent` and `isConditionTrue`. -/
structure ChooseExpr where
  isConditionDependent : Bool
  isConditionTrue : Bool
  getCond : Expr
  getLHS : Expr
  getRHS : Expr
  deriving DecidableEq, Repr

/-- Modelled from the spec: `DeclContext` of `DeclBase.h`, with the answer of
`isDependentContext`. -/
structure DeclContext where
  isDependentContext : Bool
  deriving DecidableEq, Repr

/-- Modelled from the spec: `BlockDecl` of `Decl.h`, which is a declaration context. -/
structure BlockDecl where
  isDependentContext : Bool
  deriving DecidableEq, Repr

/-- Modelled from the spec: `BlockExpr` of `Expr.h`, with its type and its block
declaration. -/
structure BlockExpr where
  getType : QualType
  getBlockDecl : BlockDecl
  deriving DecidableEq, Repr

/-- Modelled from the spec: `NestedNameSpecifier`, with its dependence. -/
structure NestedNameSpecifier where
  getDependence : NestedNameSpecifierDependence
  deriving DecidableEq, Repr

/-- Modelled from the spec: `TemplateArgument` of `TemplateBase.h`, with its dependence. -/
structure TemplateArgument where
  getDependence : TemplateArgumentDependence
  deriving DecidableEq, Repr

/-- Modelled from the spec: `TemplateArgumentLoc` of `TemplateBase.h`, with its argument. -/
structure TemplateArgumentLoc where
  getArgument : TemplateArgument
  deriving DecidableEq, Repr

/-- Modelled from the spec: `DeclarationName::NameKind` of `DeclarationName.h`; of the kinds
only `CXXConversionFunctionName` is named by `ComputeDependence.cpp`. -/
inductive NameKind
  | Identifier
  | CXXConstructorName
  | CXXDestructorName
  | CXXConversionFunctionName
  | CXXOperatorName
  deriving DecidableEq, Repr

/-- Modelled from the spec: `DeclarationName` of `DeclarationName.h`, with its kind and the
type that a conversion-function name specifies. -/
structure DeclarationName where
  getNameKind : NameKind
  getCXXNameType : QualType
  deriving DecidableEq, Repr

/-- Modelled from the spec: the first declaration of a variable, with the type as
written. -/
structure FirstVarDecl where
  getTypeSourceInfo : TypeSourceInfo
  deriving DecidableEq, Repr

/-- Modelled from the spec: `VarDecl` of `Decl.h`, as what `computeDependence(DeclRefExpr *)`
reads of a variable: its type, its initializer, which may be null, whether it is a static
data member, and its first declaration. -/
structure VarDecl where
  getType : QualType
  getAnyInitializer : Option Expr
  isStaticDataMember : Bool
  getFirstDecl : FirstVarDecl
  deriving DecidableEq, Repr

/-- Modelled from the spec: the class of a declaration, as the `isa` and `dyn_cast` of
`computeDependence(DeclRefExpr *)` tell it: a `NonTypeTemplateParmDecl`, a `VarDecl` with
its members, a `CXXMethodDecl`, or a declaration of another class. -/
inductive DeclClass
  | NonTypeTemplateParm
  | Var (V : VarDecl)
  | CXXMethod
  | Other
  deriving DecidableEq, Repr

/-- Modelled from the spec: `ValueDecl` of `Decl.h`, with whether it is a parameter pack,
its name, its declaration context and its class. -/
structure ValueDecl where
  isParameterPack : Bool
  getDeclName : DeclarationName
  getDeclContext : DeclContext
  getClass : DeclClass
  deriving DecidableEq, Repr

/-- Modelled from the spec: `LangOptions`, of which `CPlusPlus11` is read. -/
structure LangOptions where
  CPlusPlus11 : Bool
  deriving DecidableEq, Repr

/-- Modelled from the spec: `ASTContext`, of which the language options are read. -/
structure ASTContext where
  getLangOpts : LangOptions
  deriving DecidableEq, Repr

/-- Modelled from the spec: `DeclRefExpr` of `Expr.h`, with its qualifier, which may be
null, its template arguments (a null pointer or `getNumTemplateArgs` arguments), its
declaration and its type. -/
structure DeclRefExpr where
  getQualifier : Option NestedNameSpecifier
  getTemplateArgs : Option (List TemplateArgumentLoc)
  getDecl : ValueDecl
  getType : QualType
  deriving DecidableEq, Repr

/-- Modelled from the spec: `RecoveryExpr` of `Expr.h`, with its type and its
sub-expressions. -/
structure RecoveryExpr where
  getType : QualType
  subExpressions : List Expr
  deriving DecidableEq, Repr

/-- `computeDependence(CompoundLiteralExpr *)`. -/
def CompoundLiteralExpr.computeDependence (E : CompoundLiteralExpr) : ExprDependence :=
  E.getTypeSourceInfo.getType.getDependence.toExprDependence |||
    turnTypeToValueDependence E.getInitializer.getDependence

/-- `computeDependence(CastExpr *)`. -/
def CastExpr.computeDependence (E : CastExpr) : ExprDependence :=
  let D := E.getType.getDependence.toExprDependence
  let D1 := if E.getStmtClass == StmtClass.ImplicitCastExprClass
    then D &&& ~~~ExprDependence.UnexpandedPack else D
  match E.getSubExpr with
  | some S => D1 ||| (S.getDependence &&& ~~~ExprDependence.Type_)
  | none => D1

/-- `computeDependence(StmtExpr *, unsigned)`. -/
def StmtExpr.computeDependence (E : StmtExpr) (TemplateDepth : Nat) : ExprDependence :=
  let D := E.getType.getDependence.toExprDependence
  let D1 := match E.getSubStmt.getStmtExprResult with
    | some (Stmt.ValueStmt (some ResultExpr)) => D ||| ResultExpr.getDependence
    | _ => D
  let D2 := if TemplateDepth != 0 then D1 ||| ExprDependence.ValueInstantiation else D1
  D2 &&& ~~~ExprDependence.UnexpandedPack

/-- `computeDependence(ChooseExpr *)`. -/
def ChooseExpr.computeDependence (E : ChooseExpr) : ExprDependence :=
  if E.isConditionDependent then
    ExprDependence.TypeValueInstantiation ||| E.getCond.getDependence |||
      E.getLHS.getDependence ||| E.getRHS.getDependence
  else
    let Cond := E.getCond.getDependence
    let Active := if !E.isConditionTrue then E.getRHS.getDependence
      else E.getLHS.getDependence
    let Inactive := if !E.isConditionTrue then E.getLHS.getDependence
      else E.getRHS.getDependence
    (Active &&& ExprDependence.TypeValue) |||
      ((Cond ||| Active ||| Inactive) &&& ~~~ExprDependence.TypeValue)

/-- `computeDependence(BlockExpr *)`. -/
def BlockExpr.computeDependence (E : BlockExpr) : ExprDependence :=
  let D := E.getType.getDependence.toExprDependence
  let D1 := if E.getBlockDecl.isDependentContext
    then D ||| ExprDependence.Instantiation else D
  D1 &&& ~~~ExprDependence.UnexpandedPack

/-- The first statements of `computeDependence(DeclRefExpr *, const ASTContext &)`, up to
the test `Type->isDependentType()`: the bits of the qualifier, of the template arguments,
of a parameter pack and the Error bit of the type. -/
def DeclRefExpr.depsBeforeTypeTest (E : DeclRefExpr) : ExprDependence :=
  let Deps := ExprDependence.None
  let Deps1 := match E.getQualifier with
    | some NNS =>
      Deps ||| (NNS.getDependence &&&
        ~~~NestedNameSpecifierDependence.Dependent).toExprDependence
    | none => Deps
  let Deps2 := match E.getTemplateArgs with
    | some Args =>
      Args.foldl (fun D Arg => D ||| Arg.getArgument.getDependence.toExprDependence) Deps1
    | none => Deps1
  let Deps3 := if E.getDecl.isParameterPack
    then Deps2 ||| ExprDependence.UnexpandedPack else Deps2
  Deps3 ||| (E.getType.getDependence.toExprDependence &&& ExprDependence.Error)

/-- The last statements of `computeDependence(DeclRefExpr *, const ASTContext &)`, from the
test `isa<NonTypeTemplateParmDecl>(Decl)` on, entered with the bits gathered so far. -/
def DeclRefExpr.depsOfDecl (E : DeclRefExpr) (Ctx : ASTContext) (Deps : ExprDependence) :
    ExprDependence :=
  match E.getDecl.getClass with
  | DeclClass.NonTypeTemplateParm => Deps ||| ExprDependence.ValueInstantiation
  | DeclClass.Var Var =>
    let Deps1 :=
      if (if Ctx.getLangOpts.CPlusPlus11 then Var.getType.isLiteralType
            else Var.getType.isIntegralOrEnumerationType) &&
          (Var.getType.isConstQualified || Var.getType.isReferenceType) then
        match Var.getAnyInitializer with
        | some Init =>
          if Init.isValueDependent then Deps ||| ExprDependence.ValueInstantiation
          else Deps
        | none => Deps
      else Deps
    if Var.isStaticDataMember && E.getDecl.getDeclContext.isDependentContext then
      let Deps2 := Deps1 ||| ExprDependence.ValueInstantiation
      let TInfo := Var.getFirstDecl.getTypeSourceInfo
      if TInfo.getType.isIncompleteArrayType then Deps2 ||| ExprDependence.Type_
      else Deps2
    else Deps1
  | DeclClass.CXXMethod =>
    if E.getDecl.getDeclContext.isDependentContext
    then Deps ||| ExprDependence.ValueInstantiation else Deps
  | DeclClass.Other => Deps

/-- `computeDependence(DeclRefExpr *, const ASTContext &)`. -/
def DeclRefExpr.computeDependence (E : DeclRefExpr) (Ctx : ASTContext) : ExprDependence :=
  let Deps := E.depsBeforeTypeTest
  let Decl := E.getDecl
  let Type_ := E.getType
  if Type_.isDependentType then Deps ||| ExprDependence.TypeValueInstantiation
  else
    let Deps1 := if Type_.isInstantiationDependentType
      then Deps ||| ExprDependence.Instantiation else Deps
    if Decl.getDeclName.getNameKind == NameKind.CXXConversionFunctionName then
      let T := Decl.getDeclName.getCXXNameType
      if T.isDependentType then Deps1 ||| ExprDependence.TypeValueInstantiation
      else
        let Deps2 := if T.isInstantiationDependentType
          then Deps1 ||| ExprDependence.Instantiation else Deps1
        E.depsOfDecl Ctx Deps2
    else E.depsOfDecl Ctx Deps1

/-- `computeDependence(RecoveryExpr *)`. -/
def RecoveryExpr.computeDependence (E : RecoveryExpr) : ExprDependence :=
  let D := E.getType.getDependence.toExprDependence |||
    ExprDependence.ValueInstantiation ||| ExprDependence.Error
  E.subExpressions.foldl (fun D S => D ||| S.getDependence) D

/-- The bits of `a` are bits of `b`. -/
def ExprDependence.subset (a b : ExprDependence) : Bool :=
  (!a.hasUnexpandedPack || b.hasUnexpandedPack) &&
  (!a.hasInstantiation || b.hasInstantiation) &&
  (!a.hasType || b.hasType) &&
  (!a.hasValue || b.hasValue) &&
  (!a.hasError || b.hasError)

/-- What the qualifier of a `DeclRefExpr` contributes: its dependence without the
Dependent bit, as an expression dependence; no bit without a qualifier. -/
def DeclRefExpr.qualifierBits (E : DeclRefExpr) : ExprDependence :=
  match E.getQualifier with
  | some NNS =>
    (NNS.getDependence &&& ~~~NestedNameSpecifierDependence.Dependent).toExprDependence
  | none => ExprDependence.None

/-- What the template arguments of a `DeclRefExpr` contribute: the union of their
dependence, as an expression dependence; no bit without template arguments. -/
def DeclRefExpr.templateArgumentBits (E : DeclRefExpr) : ExprDependence :=
  match E.getTemplateArgs with
  | some Args =>
    Args.foldl (fun D Arg => D ||| Arg.getArgument.getDependence.toExprDependence)
      ExprDependence.None
  | none => ExprDependence.None

/-- The type `int` of the examples: not dependent, a literal and integral type. -/
def exampleInt : QualType := ⟨TypeDependence.None, true, true, false, false, false⟩

/-- The type `const int` of the examples. -/
def exampleConstInt : QualType := ⟨TypeDependence.None, true, true, true, false, false⟩

/-- The type `int[3]` of the examples: not dependent, a literal type. -/
def exampleIntArray : QualType := ⟨TypeDependence.None, true, false, false, false, false⟩

/-- The type `int[]` of the examples: an incomplete array type. -/
def exampleIncompleteArray : QualType :=
  ⟨TypeDependence.None, false, false, false, false, true⟩

/-- A dependent type of the examples, such as a template type parameter `T`. -/
def exampleDependent : QualType :=
  ⟨TypeDependence.DependentInstantiation, false, false, false, false, false⟩

/-- The name of the examples: an identifier, which specifies no type of its own. -/
def exampleName : DeclarationName :=
  ⟨NameKind.Identifier, ⟨TypeDependence.None, false, false, false, false, false⟩⟩

/-- The explicit cast `(int)x` of the examples, with `x` type- and value-dependent. -/
def exampleCast : CastExpr :=
  ⟨exampleInt, StmtClass.CStyleCastExprClass, some ⟨ExprDependence.TypeValue⟩⟩

/-- A choose expression of the examples: the condition is known and true, the LHS is
dependent on a template parameter and the RHS holds an unexpanded pack. -/
def exampleChooseKnown : ChooseExpr :=
  ⟨false, true, ⟨ExprDependence.None⟩, ⟨ExprDependence.TypeValueInstantiation⟩,
    ⟨ExprDependence.UnexpandedPack⟩⟩

/-- A choose expression of the examples with a dependent condition. -/
def exampleChooseDependent : ChooseExpr :=
  ⟨true, false, ⟨ExprDependence.Value⟩, ⟨ExprDependence.None⟩, ⟨ExprDependence.Error⟩⟩

/-- The variable `const int n = N;` of the examples, `N` value-dependent. -/
def exampleConstIntVar : VarDecl :=
  ⟨exampleConstInt, some ⟨ExprDependence.ValueInstantiation⟩, false, ⟨⟨exampleConstInt⟩⟩⟩

/-- The reference to `n` of the examples, outside a dependent context. -/
def exampleConstIntRef : DeclRefExpr :=
  ⟨none, none, ⟨false, exampleName, ⟨false⟩, DeclClass.Var exampleConstIntVar⟩,
    exampleConstInt⟩

/-- The static data member `int a[];` of the examples, without an initializer. -/
def exampleMemberVar : VarDecl :=
  ⟨exampleIntArray, none, true, ⟨⟨exampleIncompleteArray⟩⟩⟩

/-- The reference to the member `a` of a class template of the examples, of type
`int[3]`. -/
def exampleMemberRef : DeclRefExpr :=
  ⟨none, none, ⟨false, exampleName, ⟨true⟩, DeclClass.Var exampleMemberVar⟩,
    exampleIntArray⟩

/-- The reference of the examples, of dependent type, to a parameter pack that is a
variable and a static data member of a dependent context. -/
def examplePackRef : DeclRefExpr :=
  ⟨none, none, ⟨true, exampleName, ⟨true⟩, DeclClass.Var exampleMemberVar⟩,
    exampleDependent⟩

/-- The reference `N<T>` of the examples to a non-type template parameter of type `int`,
with one dependent template argument. -/
def exampleParmRef : DeclRefExpr :=
  ⟨none, some [⟨⟨⟨false, true, true, false⟩⟩⟩],
    ⟨false, exampleName, ⟨true⟩, DeclClass.NonTypeTemplateParm⟩, exampleInt⟩

/-! ## The dependence engine: traits of an expression or type, and lambdas -/

/-- Modelled from the spec: `UnaryExprOrTypeTrait` of `TypeTraits.h`, the kinds of a
`UnaryExprOrTypeTraitExpr`; `ComputeDependence.cpp` names `UETT_AlignOf` and
`UETT_PreferredAlignOf`. -/
inductive UnaryExprOrTypeTrait
  | UETT_SizeOf
  | UETT_AlignOf
  | UETT_PreferredAlignOf
  | UETT_VecStep
  | UETT_OpenMPRequiredSimdAlign
  deriving DecidableEq, Repr

/-- Modelled from the spec: `AlignedAttr` of `Attr.h`, with the answers of
`isAlignmentErrorDependent` and `isAlignmentDependent`. -/
structure AlignedAttr where
  isAlignmentErrorDependent : Bool
  isAlignmentDependent : Bool
  deriving DecidableEq, Repr

/-- Modelled from the spec: a `ValueDecl` as `computeDependence(UnaryExprOrTypeTraitExpr *)`
reads it: its attributes of class `AlignedAttr`, in order. -/
structure AlignedDecl where
  specific_attrs : List AlignedAttr
  deriving DecidableEq, Repr

/-- Modelled from the spec: the argument expression once `IgnoreParens` has stripped its
parentheses, as the two `dyn_cast` of the function tell it: a `DeclRefExpr` with its
declaration, a `MemberExpr` with its member declaration, or an expression of another class.
The declaration may be null. -/
inductive NoParensExpr
  | DeclRefExpr (getDecl : Option AlignedDecl)
  | MemberExpr (getMemberDecl : Option AlignedDecl)
  | Other
  deriving DecidableEq, Repr

/-- Modelled from the spec: `UnaryExprOrTypeTraitExpr` of `Expr.h`, with whether its
argument is a type, the type or the expression that is its argument, what `IgnoreParens`
makes of the expression, and its kind. -/
structure UnaryExprOrTypeTraitExpr where
  isArgumentType : Bool
  getArgumentType : QualType
  getArgumentExpr : Expr
  getArgumentExprIgnoreParens : NoParensExpr
  getKind : UnaryExprOrTypeTrait
  deriving DecidableEq, Repr

/-- Modelled from the spec: `LambdaExpr` of `ExprCXX.h`, with its type. -/
structure LambdaExpr where
  getType : QualType
  deriving DecidableEq, Repr

/-- The body of the loop `for (const auto *I : D->specific_attrs<AlignedAttr>())` of
`computeDependence(UnaryExprOrTypeTraitExpr *)`. -/
def alignedAttrStep (Deps : ExprDependence) (I : AlignedAttr) : ExprDependence :=
  let Deps1 := if I.isAlignmentErrorDependent then Deps ||| ExprDependence.Error else Deps
  if I.isAlignmentDependent then Deps1 ||| ExprDependence.ValueInstantiation else Deps1

/-- `computeDependence(UnaryExprOrTypeTraitExpr *)`. A dependence used as a condition is
true when it has a bit. -/
def UnaryExprOrTypeTraitExpr.computeDependence (E : UnaryExprOrTypeTraitExpr) :
    ExprDependence :=
  if E.isArgumentType then
    turnTypeToValueDependence E.getArgumentType.getDependence.toExprDependence
  else
    let ArgDeps := E.getArgumentExpr.getDependence
    let Deps := ArgDeps &&& ~~~ExprDependence.TypeValue
    let Deps1 := if (ArgDeps &&& ExprDependence.Type_) != ExprDependence.None
      then Deps ||| ExprDependence.Value else Deps
    let ExprKind := E.getKind
    if ExprKind != UnaryExprOrTypeTrait.UETT_AlignOf &&
        ExprKind != UnaryExprOrTypeTrait.UETT_PreferredAlignOf then Deps1
    else if (Deps1 &&& ExprDependence.Value) != ExprDependence.None &&
        (Deps1 &&& ExprDependence.Instantiation) != ExprDependence.None then Deps1
    else
      let D : Option AlignedDecl := match E.getArgumentExprIgnoreParens with
        | NoParensExpr.DeclRefExpr DRE => DRE
        | NoParensExpr.MemberExpr ME => ME
        | NoParensExpr.Other => none
      match D with
      | none => Deps1
      | some D => D.specific_attrs.foldl alignedAttrStep Deps1

/-- `computeDependence(LambdaExpr *, bool)`. -/
def LambdaExpr.computeDependence (E : LambdaExpr)
    (ContainsUnexpandedParameterPack : Bool) : ExprDependence :=
  let D := E.getType.getDependence.toExprDependence
  if ContainsUnexpandedParameterPack then D ||| ExprDependence.UnexpandedPack else D

/-- The declaration that the argument expression refers to, if any: the `D` of
`computeDependence(UnaryExprOrTypeTraitExpr *)`. -/
def UnaryExprOrTypeTraitExpr.referencedDecl (E : UnaryExprOrTypeTraitExpr) :
    Option AlignedDecl :=
  match E.getArgumentExprIgnoreParens with
  | NoParensExpr.DeclRefExpr DRE => DRE
  | NoParensExpr.MemberExpr ME => ME
  | NoParensExpr.Other => none

/-- The kind is `alignof` or preferred `alignof`. -/
def UnaryExprOrTypeTrait.isAlignOf (K : UnaryExprOrTypeTrait) : Bool :=
  K == UnaryExprOrTypeTrait.UETT_AlignOf || K == UnaryExprOrTypeTrait.UETT_PreferredAlignOf

/-- Some `aligned` attribute of the declaration has a dependent alignment. -/
def AlignedDecl.anyAlignmentDependent (D : AlignedDecl) : Bool :=
  D.specific_attrs.any fun I => I.isAlignmentDependent

/-- Some `aligned` attribute of the declaration has an alignment that contains an error. -/
def AlignedDecl.anyAlignmentErrorDependent (D : AlignedDecl) : Bool :=
  D.specific_attrs.any fun I => I.isAlignmentErrorDependent

/-- The node `E` with the dependence `D` stored on its argument expression, everything
else kept. -/
def UnaryExprOrTypeTraitExpr.withArgumentDependence (E : UnaryExprOrTypeTraitExpr)
    (D : ExprDependence) : UnaryExprOrTypeTraitExpr :=
  { E with getArgumentExpr := ⟨D⟩ }

/-- The expression `alignof(x)` of the examples: `x` refers to a declaration with one
`aligned` attribute whose alignment expression contains an error. -/
def exampleAlignOf : UnaryExprOrTypeTraitExpr :=
  ⟨false, exampleInt, ⟨ExprDependence.None⟩,
    NoParensExpr.DeclRefExpr (some ⟨[⟨true, true⟩]⟩),
    UnaryExprOrTypeTrait.UETT_AlignOf⟩

/-- The expression `sizeof(x)` of the examples, with `x` type- and value-dependent. -/
def exampleSizeOf : UnaryExprOrTypeTraitExpr :=
  ⟨false, exampleInt, ⟨ExprDependence.TypeValueInstantiation⟩, NoParensExpr.Other,
    UnaryExprOrTypeTrait.UETT_SizeOf⟩

/-! ## The integers of the interpreter (lib/AST/Interp/Integral.h) -/

/-- `Integral<Bits, Signed>`, the wrapper of the primitive type
`T = Repr<Bits, Signed>::Type` (`intN_t` or `uintN_t` for `N = Bits`). The member `V` is
held as its bit pattern, a natural number below `2 ^ Bits`; a signed `T` is in two's
complement. -/
structure Integral (Bits : Nat) (Signed : Bool) where
  V : Nat
  deriving DecidableEq, Repr

/-- The mathematical value of `V`: the pattern itself for an unsigned `T`, and the pattern
less `2 ^ Bits` for a signed `T` whose top bit is set. -/
def Integral.toInt {Bits : Nat} {Signed : Bool} (A : Integral Bits Signed) : Int :=
  if Signed && decide (2 ^ (Bits - 1) ≤ A.V) then (A.V : Int) - 2 ^ Bits else (A.V : Int)

/-- `Integral::Min`, `std::numeric_limits<T>::min()`. -/
def Integral.Min (Bits : Nat) (Signed : Bool) : Int :=
  if Signed then -(2 ^ (Bits - 1)) else 0

/-- `Integral::Max`, `std::numeric_limits<T>::max()`. -/
def Integral.Max (Bits : Nat) (Signed : Bool) : Int :=
  if Signed then 2 ^ (Bits - 1) - 1 else 2 ^ Bits - 1

/-- `Integral::bitWidth`. -/
def Integral.bitWidth {Bits : Nat} {Signed : Bool} (_ : Integral Bits Signed) : Nat := Bits

/-- `Integral::operator>(unsigned RHS)`:
`V >= 0 && static_cast<unsigned>(V) > RHS`. The conversion to `unsigned` reduces the value
modulo `2 ^ UnsignedBits`, where `UnsignedBits` is the width of `unsigned` on the platform
(32 on the platforms LLVM is built for). -/
def Integral.operator_gt {Bits : Nat} {Signed : Bool} (UnsignedBits : Nat)
    (A : Integral Bits Signed) (RHS : Nat) : Bool :=
  decide (0 ≤ A.toInt) && decide (RHS < (A.toInt % 2 ^ UnsignedBits).toNat)

/-- `Integral::truncate`. On bit patterns of `Bits` bits: `BitMask` is
`(T(1) << T(TruncBits)) - 1`, `SignBit` is `T(1) << (TruncBits - 1)`, `ExtMask` is
`~BitMask`, and the result is `(V & BitMask) | (Signed && (V & SignBit) ? ExtMask : 0)`.
The subtraction wraps modulo `2 ^ Bits`. For `TruncBits = 0` the count `TruncBits - 1` of
the source wraps to the largest `unsigned` and the shift has no defined value; the model
then shifts by 0. -/
def Integral.truncate {Bits : Nat} {Signed : Bool} (A : Integral Bits Signed)
    (TruncBits : Nat) : Integral Bits Signed :=
  if TruncBits ≥ Bits then A
  else
    let BitMask := ((1 <<< TruncBits) % 2 ^ Bits + 2 ^ Bits - 1) % 2 ^ Bits
    let SignBit := (1 <<< (TruncBits - 1)) % 2 ^ Bits
    let ExtMask := 2 ^ Bits - 1 - BitMask
    ⟨(A.V &&& BitMask) ||| (if Signed && (A.V &&& SignBit) != 0 then ExtMask else 0)⟩

/-- Modelled from the spec: `llvm::AddOverflow<T>` of `llvm/Support/MathExtras.h` for a
signed `T`, which is not among the sources. It adds two signed integers, computing the
two's complement truncated result, and returns true if overflow occurred: the operands are
added as unsigned patterns, and the sum of two positive operands overflowed when the result
is not positive, the sum of two negative operands when the result is not negative. -/
def AddOverflow (Bits : Nat) (X Y : Nat) : Bool × Nat :=
  let UResult := (X + Y) % 2 ^ Bits
  let x := (Integral.mk X : Integral Bits true).toInt
  let y := (Integral.mk Y : Integral Bits true).toInt
  let Result := (Integral.mk UResult : Integral Bits true).toInt
  if decide (x > 0) && decide (y > 0) then (decide (Result ≤ 0), UResult)
  else if decide (x < 0) && decide (y < 0) then (decide (Result ≥ 0), UResult)
  else (false, UResult)

/-- `Integral::CheckAddUB`: for a signed `T` it is `llvm::AddOverflow<T>(A, B, R)`, for an
unsigned `T` it is `R = A + B; return false;`. Returns the flag and the value left in
`R`. -/
def CheckAddUB (Bits : Nat) (Signed : Bool) (A B : Nat) : Bool × Nat :=
  if Signed then AddOverflow Bits A B
  else (false, (A + B) % 2 ^ Bits)

/-- `Integral::add`: `CheckAddUB(A.V, B.V, R->V)`; `OpBits` is not read. Returns the flag
and the value left in `*R`. -/
def Integral.add {Bits : Nat} {Signed : Bool} (A B : Integral Bits Signed) (_OpBits : Nat) :
    Bool × Integral Bits Signed :=
  let r := CheckAddUB Bits Signed A.V B.V
  (r.1, ⟨r.2⟩)

/-- `Integral::increment`: `add(A, Integral(T(1)), A.bitWidth(), R)`. -/
def Integral.increment {Bits : Nat} {Signed : Bool} (A : Integral Bits Signed) :
    Bool × Integral Bits Signed :=
  Integral.add A ⟨1 % 2 ^ Bits⟩ A.bitWidth

/-! ## Lemmas on the buffer and the character primitives -/

/-- At and past `BufferEnd` the byte read is the NUL. -/
theorem rd_of_length_le (buf : List Nat) (i : Nat) (h : buf.length ≤ i) : rd buf i = 0 := by
  simp [rd, List.getElem?_eq_none h]

/-- A byte that is not NUL lies inside the buffer. -/
theorem lt_length_of_rd_ne_zero (buf : List Nat) (i : Nat) (h : rd buf i ≠ 0) :
    i < buf.length := by
  by_contra hc
  exact h (rd_of_length_le buf i (Nat.le_of_not_lt hc))

/-- The loop `while (P(*p)) ++p;` stops at the end `e` of a run of bytes that satisfy `P`,
given a bound of at least the length of the run. -/
theorem advanceWhile_run (P : Nat → Bool) (buf : List Nat) :
    ∀ (n p e : Nat), p ≤ e → e - p ≤ n →
      (∀ i, p ≤ i → i < e → P (rd buf i) = true) → P (rd buf e) = false →
      advanceWhile P buf n p = e := by
  intro n
  induction n with
  | zero =>
    intro p e hpe hn _ _
    have : p = e := by omega
    simp [advanceWhile, this]
  | succ n ih =>
    intro p e hpe hn hrun hend
    rcases Nat.eq_or_lt_of_le hpe with heq | hlt
    · subst heq
      simp [advanceWhile, hend]
    · have hp : P (rd buf p) = true := hrun p (Nat.le_refl p) hlt
      simp only [advanceWhile, hp, if_true]
      exact ih (p + 1) e hlt (by omega) (fun i hi hie => hrun i (by omega) hie) hend

/-- At a byte that is not a backslash `getAndAdvancedChar` returns the byte and steps over
it, leaving the token alone. -/
theorem getAndAdvancedChar_simple (buf : List Nat) (p : Nat) (Tok : Token)
    (h : rd buf p ≠ 92) : getAndAdvancedChar buf p Tok = (rd buf p, p + 1, Tok) := by
  unfold getAndAdvancedChar
  by_cases hs : isObviouslySimpleCharacter (rd buf p) = true
  · simp [hs]
  · simp only [hs, Bool.false_eq_true, if_false, getCharAndSizeSlow]
    cases hn : buf.length + 1 - p with
    | zero => simp [getCharAndSizeSlowRec]
    | succ n => simp [getCharAndSizeSlowRec, h]

/-- The switch of `LexTokenInternal` sends a letter or an underscore to `LexIdentifier`. -/
theorem LexSwitch_identifier (env : LexEnv) (buf : List Nat) (c CurPtr : Nat) (R : Token)
    (t : Bool) (L : Lexer) (h : (isLetter c || c == 95) = true) :
    LexSwitch env buf c CurPtr R t L = Step.done (some (LexIdentifier buf L R CurPtr)) := by
  have h0 : (c == 0) = false := by
    simp [isLetter] at h ⊢; omega
  have h13 : (c == 13) = false := by
    simp [isLetter] at h ⊢; omega
  have h10 : (c == 10) = false := by
    simp [isLetter] at h ⊢; omega
  have hws : (c == 32 || c == 9 || c == 12 || c == 11) = false := by
    simp [isLetter] at h ⊢; omega
  have hd : isDigit c = false := by
    simp [isLetter, isDigit] at h ⊢; omega
  simp only [LexSwitch, h0, h13, h10, hws, hd, h, Bool.false_eq_true, if_false, if_true]


/-- `SkipLineComment` returns for no amount of fuel. -/
theorem SkipLineComment_none (buf : List Nat) :
    ∀ (n : Nat) (Result : Token) (CurPtr : Nat) (t : Bool) (L : Lexer),
      SkipLineComment buf n Result CurPtr t L = none := by
  intro n
  induction n with
  | zero => intro Result CurPtr t L; rfl
  | succ n ih => intro Result CurPtr t L; simp only [SkipLineComment]; exact ih _ _ _ _

/-- C1 (the claim: every call of `Lex` terminates, and advances `BufferPtr` or yields
end-of-file). The code breaks it: with the cursor at the two bytes `//`, `Lex` calls
`SkipLineComment`, whose outer `while (true)` has no exit, so `Lex` returns for no amount of
fuel. -/
theorem Lex_line_comment_never_returns (env : LexEnv) (buf : List Nat) (L : Lexer)
    (h0 : rd buf L.BufferPtr = 47) (h1 : rd buf (L.BufferPtr + 1) = 47) :
    ∀ fuel : Nat, Lex env buf fuel L = none := by
  intro fuel
  cases fuel with
  | zero => rfl
  | succ n =>
    simp [Lex, LexTokenInternal, LexTokenInternalStep, h0, h1, getAndAdvancedChar,
      isObviouslySimpleCharacter, LexSwitch, getCharAndSize, ConsumeChar, SkipLineComment_none,
      isDigit, isLetter]

/-- The instance of C1 at the buffer `//`, with a thousand units of fuel. -/
theorem Lex_line_comment_never_returns_witness :
    rd [47, 47] 0 = 47 ∧ rd [47, 47] (0 + 1) = 47 ∧
    Lex ⟨TokenKind.unknown, fun _ _ => none⟩ [47, 47] 1000
      ⟨0, true, true, false, false⟩ = none :=
  ⟨by decide, by decide,
   Lex_line_comment_never_returns ⟨TokenKind.unknown, fun _ _ => none⟩ [47, 47]
    ⟨0, true, true, false, false⟩ (by decide) (by decide) 1000⟩

/-- With the cursor at a letter or an underscore, `Lex` is `LexIdentifier` called just past
that byte. -/
theorem Lex_at_identifier (env : LexEnv) (buf : List Nat) (L : Lexer) (fuel : Nat)
    (h : (isLetter (rd buf L.BufferPtr) || rd buf L.BufferPtr == 95) = true) :
    Lex env buf (fuel + 1) L =
      some (LexIdentifier buf
        { L with IsAtStartOfLine := false, HasLeadingSpace := false,
                 HasLeadingEmptyMacro := false, IsAtPhysicalStartOfLine := false }
        { Token.startToken with StartOfLine := L.IsAtStartOfLine,
                                LeadingSpace := L.HasLeadingSpace,
                                LeadingEmptyMacro := L.HasLeadingEmptyMacro }
        (L.BufferPtr + 1)) := by
  have hsp : (rd buf L.BufferPtr == 32 || rd buf L.BufferPtr == 9) = false := by
    simp [isLetter] at h ⊢; omega
  have h92 : rd buf L.BufferPtr ≠ 92 := by
    simp [isLetter] at h; omega
  simp only [Lex, LexTokenInternal, LexTokenInternalStep, hsp, Bool.false_eq_true, if_false,
    getAndAdvancedChar_simple buf _ _ h92, LexSwitch_identifier env buf _ _ _ _ _ h]
  cases L with
  | mk p a b c d => cases a <;> cases c <;> cases d <;> rfl

/-- C3 (the claim: an identifier is lexed as a raw_identifier token over the maximal run of
identifier-body characters, whether an ASCII or a non-ASCII byte ends the run). With the
cursor at a letter or underscore and `e` the end of the maximal run, the code forms that
token when the byte at `e` is not ASCII, and breaks the claim when it is ASCII: `Lex`
returns false, forms no token and leaves `BufferPtr` where it was. -/
theorem Lex_identifier_run (env : LexEnv) (buf : List Nat) (L : Lexer) (fuel e : Nat)
    (hstart : (isLetter (rd buf L.BufferPtr) || rd buf L.BufferPtr == 95) = true)
    (hlt : L.BufferPtr < e)
    (hrun : ∀ i, L.BufferPtr < i → i < e → isIdentifierBody (rd buf i) = true)
    (hend : isIdentifierBody (rd buf e) = false) :
    (isASCII (rd buf e) = false →
      ∃ tok L', Lex env buf (fuel + 1) L = some (true, tok, L') ∧
        tok.Kind = TokenKind.raw_identifier ∧ tok.Loc = some L.BufferPtr ∧
        tok.Length = e - L.BufferPtr ∧ L'.BufferPtr = e) ∧
    (isASCII (rd buf e) = true →
      ∃ tok L', Lex env buf (fuel + 1) L = some (false, tok, L') ∧
        tok.Kind = TokenKind.unknown ∧ tok.Loc = none ∧ tok.Length = 0 ∧
        L'.BufferPtr = L.BufferPtr) := by
  have he : e ≤ buf.length := by
    by_contra hc
    have hz : rd buf (e - 1) = 0 := rd_of_length_le buf _ (by omega)
    rcases Nat.eq_or_lt_of_le (Nat.succ_le_of_lt hlt) with h1 | h1
    · have : e - 1 = L.BufferPtr := by omega
      rw [this] at hz
      rw [hz] at hstart
      simp [isLetter] at hstart
    · have := hrun (e - 1) (by omega) (by omega)
      rw [hz] at this
      simp [isIdentifierBody, isLetter, isDigit] at this
  have hadv : advanceWhile isIdentifierBody buf (buf.length + 1 - (L.BufferPtr + 1))
      (L.BufferPtr + 1) = e :=
    advanceWhile_run isIdentifierBody buf _ _ e hlt (by omega)
      (fun i hi hie => hrun i (by omega) hie) hend
  rw [Lex_at_identifier env buf L fuel hstart]
  constructor
  · intro hna
    simp only [LexIdentifier, hadv, hna]
    exact ⟨_, _, rfl, rfl, rfl, rfl, rfl⟩
  · intro ha
    simp only [LexIdentifier, hadv, ha]
    exact ⟨_, _, rfl, rfl, rfl, rfl, rfl⟩

/-- The instances of C3 at `ab` followed by the byte 200 (token formed) and at `ab` followed
by a space (no token). -/
theorem Lex_identifier_run_witness :
    (∃ tok L', Lex ⟨TokenKind.unknown, fun _ _ => none⟩ [97, 98, 200] 1
        (InitLexer [97, 98, 200] 0 false) = some (true, tok, L') ∧
        tok.Kind = TokenKind.raw_identifier ∧ tok.Loc = some 0 ∧
        tok.Length = 2 ∧ L'.BufferPtr = 2) ∧
    (∃ tok L', Lex ⟨TokenKind.unknown, fun _ _ => none⟩ [97, 98, 32] 1
        (InitLexer [97, 98, 32] 0 false) = some (false, tok, L') ∧
        tok.Kind = TokenKind.unknown ∧ tok.Loc = none ∧ tok.Length = 0 ∧
        L'.BufferPtr = 0) :=
  ⟨(Lex_identifier_run ⟨TokenKind.unknown, fun _ _ => none⟩ [97, 98, 200]
      (InitLexer [97, 98, 200] 0 false) 0 2 (by decide) (by decide)
      (by intro i h1 h2; have hi : i = 1 := by simp [InitLexer] at h1; omega
          subst hi; decide) (by decide)).1 (by decide),
   (Lex_identifier_run ⟨TokenKind.unknown, fun _ _ => none⟩ [97, 98, 32]
      (InitLexer [97, 98, 32] 0 false) 0 2 (by decide) (by decide)
      (by intro i h1 h2; have hi : i = 1 := by simp [InitLexer] at h1; omega
          subst hi; decide) (by decide)).2 (by decide)⟩

/-- C2 (the claim: every call of `Lex` that returns has returned true with a formed token of
at least one byte, unless it is end-of-file). The code breaks it: on the buffer `a`, `Lex`
returns false, the token is still the reset token (kind unknown, invalid location, length 0)
and `BufferPtr` has not moved. -/
theorem Lex_returns_without_token (env : LexEnv) (fuel : Nat) (hlem : Bool) :
    ∃ tok L', Lex env [97] (fuel + 1) (InitLexer [97] 0 hlem) = some (false, tok, L') ∧
      tok.Kind = TokenKind.unknown ∧ tok.Loc = none ∧ tok.Length = 0 ∧
      L'.BufferPtr = 0 := by
  cases hlem <;> exact ⟨_, _, rfl, rfl, rfl, rfl, rfl⟩

/-- C4 (the claim: repeated calls of `Lex` yield a finite token sequence that ends in the
one end-of-file token). The code breaks it: on the buffer `a`, every one of any number `n`
of calls in a row returns false with a token of kind unknown and leaves `BufferPtr` at 0, so
end-of-file is never produced. -/
theorem LexRepeat_never_reaches_eof (env : LexEnv) (fuel : Nat) (hlem : Bool) (n : Nat) :
    ∃ toks L', LexRepeat env [97] (fuel + 1) n (InitLexer [97] 0 hlem) = some (toks, L') ∧
      toks.length = n ∧ L'.BufferPtr = 0 ∧
      ∀ bt ∈ toks, bt.1 = false ∧ bt.2.Kind = TokenKind.unknown := by
  have key : ∀ (n : Nat) (L : Lexer), L.BufferPtr = 0 →
      ∃ toks L', LexRepeat env [97] (fuel + 1) n L = some (toks, L') ∧
        toks.length = n ∧ L'.BufferPtr = 0 ∧
        ∀ bt ∈ toks, bt.1 = false ∧ bt.2.Kind = TokenKind.unknown := by
    intro n
    induction n with
    | zero => intro L hL; exact ⟨[], L, rfl, rfl, hL, by simp⟩
    | succ n ih =>
      intro L hL
      have hst : (isLetter (rd [97] L.BufferPtr) || rd [97] L.BufferPtr == 95) = true := by
        rw [hL]; decide
      have hlex := Lex_at_identifier env [97] L fuel hst
      have hid : ∀ (L0 : Lexer) (R : Token) (p : Nat), p = 0 →
          LexIdentifier [97] L0 R (p + 1) = (false, R, L0) := by
        intro L0 R p h0
        subst h0
        rfl
      rw [hid _ _ _ hL] at hlex
      obtain ⟨R, L1, hlex1, hL1, hR⟩ : ∃ R L1, Lex env [97] (fuel + 1) L = some (false, R, L1) ∧
          L1.BufferPtr = 0 ∧ R.Kind = TokenKind.unknown := ⟨_, _, hlex, hL, rfl⟩
      obtain ⟨toks, L', h1, h2, h3, h4⟩ := ih L1 hL1
      refine ⟨(false, R) :: toks, L', ?_, ?_, h3, ?_⟩
      · simp only [LexRepeat, hlex1, h1]
      · simp [h2]
      · intro bt hbt
        rcases List.mem_cons.mp hbt with hb | hb
        · subst hb
          exact ⟨rfl, hR⟩
        · exact h4 bt hb
  exact key n _ (by simp [InitLexer, rd])


/-- `rawBytes` has the length asked for. -/
theorem rawBytes_length (buf : List Nat) (s len : Nat) : (rawBytes buf s len).length = len := by
  simp [rawBytes]

/-- The `i`-th byte of `rawBytes` is the byte at `start + i`. -/
theorem rawBytes_getElem? (buf : List Nat) (s len i : Nat) (h : i < len) :
    (rawBytes buf s len)[i]? = some (rd buf (s + i)) := by
  simp [rawBytes, List.getElem?_map, List.getElem?_range h]

/-- Inside the buffer `rawBytes` is a slice of the list of bytes. -/
theorem rawBytes_eq_take_drop (buf : List Nat) (s len : Nat) (h : s + len ≤ buf.length) :
    rawBytes buf s len = (buf.drop s).take len := by
  apply List.ext_getElem?
  intro i
  by_cases hi : i < len
  · rw [rawBytes_getElem? buf s len i hi, List.getElem?_take_of_lt hi, List.getElem?_drop]
    have : s + i < buf.length := by omega
    simp [rd, List.getElem?_eq_getElem this]
  · have h1 : (rawBytes buf s len).length ≤ i := by rw [rawBytes_length]; omega
    have h2 : ((buf.drop s).take len).length ≤ i := by
      simp only [List.length_take, List.length_drop]; omega
    rw [List.getElem?_eq_none h1, List.getElem?_eq_none h2]

/-- C5: for a token that is not flagged NeedsCleaning and whose character data is valid,
`getSpelling` returns exactly `Tok.Length` bytes, the `i`-th of which is the byte of the
buffer at the token's location plus `i`; for a token inside the buffer that is the slice of
the buffer that starts at the location and has the token's length. -/
theorem getSpelling_verbatim (buf : List Nat) (Tok : Token) (s : Nat)
    (hloc : Tok.Loc = some s) (hclean : Tok.NeedsCleaning = false) :
    (getSpelling buf Tok false).length = Tok.Length ∧
    (∀ i, i < Tok.Length → (getSpelling buf Tok false)[i]? = some (rd buf (s + i))) ∧
    (s + Tok.Length ≤ buf.length → getSpelling buf Tok false = (buf.drop s).take Tok.Length) := by
  have h : getSpelling buf Tok false = rawBytes buf s Tok.Length := by
    simp [getSpelling, hloc, hclean]
  rw [h]
  exact ⟨rawBytes_length buf s _, fun i hi => rawBytes_getElem? buf s _ i hi,
    rawBytes_eq_take_drop buf s _⟩

/-- The instance of C5 at the token `ab` of the buffer `ab +`. -/
theorem getSpelling_verbatim_witness :
    (getSpelling [97, 98, 32, 43]
        { Token.startToken with Kind := TokenKind.raw_identifier, Loc := some 0, Length := 2 }
        false).length = 2 ∧
    (∀ i, i < 2 → (getSpelling [97, 98, 32, 43]
        { Token.startToken with Kind := TokenKind.raw_identifier, Loc := some 0, Length := 2 }
        false)[i]? = some (rd [97, 98, 32, 43] (0 + i))) ∧
    (0 + 2 ≤ [97, 98, 32, 43].length → getSpelling [97, 98, 32, 43]
        { Token.startToken with Kind := TokenKind.raw_identifier, Loc := some 0, Length := 2 }
        false = ([97, 98, 32, 43].drop 0).take 2) :=
  getSpelling_verbatim [97, 98, 32, 43]
    { Token.startToken with Kind := TokenKind.raw_identifier, Loc := some 0, Length := 2 } 0
    rfl rfl

/-- C6 (the claim: `ab`, backslash, newline, `cd` lexes as one raw_identifier of length 6
flagged NeedsCleaning and spelled `abcd`). The code breaks it: on that buffer `Lex` returns
false and forms no token, because `LexIdentifier` reads raw bytes and stops at the
backslash; `getSpelling` of the token the claim describes would be `abcd`. -/
theorem Lex_escaped_newline_identifier (env : LexEnv) (fuel : Nat) (hlem : Bool) :
    (∃ tok L', Lex env [97, 98, 92, 10, 99, 100, 32] (fuel + 1)
        (InitLexer [97, 98, 92, 10, 99, 100, 32] 0 hlem) = some (false, tok, L') ∧
      tok.Kind = TokenKind.unknown ∧ tok.Loc = none ∧ tok.Length = 0 ∧
      tok.NeedsCleaning = false ∧ L'.BufferPtr = 0) ∧
    getSpelling [97, 98, 92, 10, 99, 100, 32]
      { Token.startToken with Kind := TokenKind.raw_identifier, Loc := some 0, Length := 6,
                              NeedsCleaning := true } false = [97, 98, 99, 100] := by
  refine ⟨?_, by decide⟩
  cases hlem <;> exact ⟨_, _, rfl, rfl, rfl, rfl, rfl, rfl⟩


/-- At a byte that is not a backslash `getCharAndSize` is the byte, of size one. -/
theorem getCharAndSize_simple (buf : List Nat) (p : Nat) (h : rd buf p ≠ 92) :
    getCharAndSize buf p = (rd buf p, 1) := by
  unfold getCharAndSize
  by_cases hs : isObviouslySimpleCharacter (rd buf p) = true
  · simp [hs]
  · simp only [hs, Bool.false_eq_true, if_false, getCharAndSizeSlow]
    cases hn : buf.length + 1 - p with
    | zero => simp [getCharAndSizeSlowRec]
    | succ n => simp [getCharAndSizeSlowRec, h]

/-- At a byte that is not a backslash `getCharAndSizeNoWarn` is the byte, of size one. -/
theorem getCharAndSizeNoWarn_simple (buf : List Nat) (p : Nat) (h : rd buf p ≠ 92) :
    getCharAndSizeNoWarn buf p = (rd buf p, 1) := by
  unfold getCharAndSizeNoWarn
  by_cases hs : isObviouslySimpleCharacter (rd buf p) = true
  · simp [hs]
  · simp only [hs, Bool.false_eq_true, if_false, getCharAndSizeSlowNoWarn]
    cases hn : buf.length + 1 - p with
    | zero => simp [getCharAndSizeSlowNoWarnRec]
    | succ n => simp [getCharAndSizeSlowNoWarnRec, h]

/-- At a byte that does not start a line continuation, `getCharAndSize` is the byte, of
size one; a backslash before a byte that is not whitespace is such a byte. -/
theorem getCharAndSize_plain (buf : List Nat) (p : Nat)
    (h : rd buf p = 92 → isWhitespace (rd buf (p + 1)) = false) :
    getCharAndSize buf p = (rd buf p, 1) := by
  by_cases h92 : rd buf p = 92
  · have hlt : p < buf.length := lt_length_of_rd_ne_zero buf p (by rw [h92]; decide)
    have hw := h h92
    unfold getCharAndSize
    have hfuel : buf.length + 1 - p = (buf.length - p) + 1 := by omega
    simp [isObviouslySimpleCharacter, h92, getCharAndSizeSlow, hfuel, getCharAndSizeSlowRec, hw]
  · exact getCharAndSize_simple buf p h92

/-- At a byte that does not start a line continuation, `getCharAndSizeNoWarn` is the byte,
of size one. -/
theorem getCharAndSizeNoWarn_plain (buf : List Nat) (p : Nat)
    (h : rd buf p = 92 → isWhitespace (rd buf (p + 1)) = false) :
    getCharAndSizeNoWarn buf p = (rd buf p, 1) := by
  by_cases h92 : rd buf p = 92
  · have hlt : p < buf.length := lt_length_of_rd_ne_zero buf p (by rw [h92]; decide)
    have hw := h h92
    unfold getCharAndSizeNoWarn
    have hfuel : buf.length + 1 - p = (buf.length - p) + 1 := by omega
    simp [isObviouslySimpleCharacter, h92, getCharAndSizeSlowNoWarn, hfuel,
      getCharAndSizeSlowNoWarnRec, hw]
  · exact getCharAndSizeNoWarn_simple buf p h92

/-- `ConsumeChar` of a character of size one steps over one byte and leaves the token alone.
-/
theorem ConsumeChar_one (buf : List Nat) (p : Nat) (R : Token) :
    ConsumeChar buf p 1 R = (p + 1, R) := by
  simp [ConsumeChar]

/-- Without a backslash in the first two bytes `isHexaLiteral` tests for a leading 0x or 0X.
-/
theorem isHexaLiteral_simple (buf : List Nat) (s : Nat) (h0 : rd buf s ≠ 92)
    (h1 : rd buf (s + 1) ≠ 92) : isHexaLiteral buf s = beginsWithHex buf s := by
  simp only [isHexaLiteral, getCharAndSizeNoWarn_simple buf s h0,
    getCharAndSizeNoWarn_simple buf (s + 1) h1, beginsWithHex]
  by_cases h : rd buf s = 48 <;> simp [h]

/-- Without a line continuation at the first two bytes `isHexaLiteral` tests for a leading
0x or 0X. -/
theorem isHexaLiteral_plain (buf : List Nat) (s : Nat)
    (h0 : rd buf s = 92 → isWhitespace (rd buf (s + 1)) = false)
    (h1 : rd buf (s + 1) = 92 → isWhitespace (rd buf (s + 1 + 1)) = false) :
    isHexaLiteral buf s = beginsWithHex buf s := by
  simp only [isHexaLiteral, getCharAndSizeNoWarn_plain buf s h0,
    getCharAndSizeNoWarn_plain buf (s + 1) h1, beginsWithHex]
  by_cases h : rd buf s = 48 <;> simp [h]

/-- The body-character loop of `LexNumericConstant` stops at the end `m` of the run of body
characters, with `PrevCh` the last byte of the run, or its initial value when the run is
empty. -/
theorem LexNumericConstantLoop_run (buf : List Nat) (R : Token) :
    ∀ (n p m pc : Nat), p ≤ m → m - p ≤ n →
      (∀ i, p ≤ i → i < m → isPreprocessingNumberBody (rd buf i) = true) →
      isPreprocessingNumberBody (rd buf m) = false →
      (∀ i, p < i → i ≤ m → rd buf i = 92 → isWhitespace (rd buf (i + 1)) = false) →
      LexNumericConstantLoop buf n (rd buf p) 1 pc p R =
        (rd buf m, 1, (if p < m then rd buf (m - 1) else pc), m, R) := by
  intro n
  induction n with
  | zero =>
    intro p m pc hpm hn _ _ _
    have : p = m := by omega
    subst this
    simp [LexNumericConstantLoop]
  | succ n ih =>
    intro p m pc hpm hn hrun hend hns
    rcases Nat.eq_or_lt_of_le hpm with heq | hlt
    · subst heq
      simp [LexNumericConstantLoop, hend]
    · have hp : isPreprocessingNumberBody (rd buf p) = true := hrun p (Nat.le_refl p) hlt
      have hg : getCharAndSize buf (p + 1) = (rd buf (p + 1), 1) :=
        getCharAndSize_plain buf (p + 1) (hns (p + 1) (by omega) (by omega))
      simp only [LexNumericConstantLoop, hp, if_true, ConsumeChar_one, hg]
      rw [ih (p + 1) m (rd buf p) (by omega) (by omega)
        (fun i hi hie => hrun i (by omega) hie) hend (fun i hi hie => hns i (by omega) hie)]
      have hlt' : p < m := hlt
      by_cases h2 : p + 1 < m
      · simp [h2, hlt']
      · have : m = p + 1 := by omega
        subst this
        simp

/-- The recursion of `LexNumericConstant`, given enough depth, forms the token that ends at
the first byte `e` that does not continue the constant. -/
theorem LexNumericConstantRec_spec (buf : List Nat) (L : Lexer) (e : Nat)
    (hns : ∀ q, L.BufferPtr ≤ q → q ≤ e → rd buf q = 92 →
      isWhitespace (rd buf (q + 1)) = false)
    (hend : numericContinues buf (beginsWithHex buf L.BufferPtr) e = false) :
    ∀ (n c : Nat) (R : Token), L.BufferPtr < c → c ≤ e → e - c < n →
      (rd buf (c - 1) == 101 || rd buf (c - 1) == 69) = false →
      (∀ i, c ≤ i → i < e →
        numericContinues buf (beginsWithHex buf L.BufferPtr) i = true) →
      LexNumericConstantRec buf L n R c =
        some (true,
          { R with Length := e - L.BufferPtr, Loc := some L.BufferPtr,
                   Kind := TokenKind.numeric_constant, PtrData := some L.BufferPtr },
          { L with BufferPtr := e }) := by
  intro n
  induction n with
  | zero => intro c R _ _ h; omega
  | succ n ih =>
    intro c R hsc hce hn hprev hrun
    have hhex : isHexaLiteral buf L.BufferPtr = beginsWithHex buf L.BufferPtr :=
      isHexaLiteral_plain buf _ (hns _ (Nat.le_refl _) (by omega))
        (hns _ (by omega) (by omega))
    -- the end of the run of body characters that starts at `c`
    have hex : ∃ m, c ≤ m ∧ isPreprocessingNumberBody (rd buf m) = false := by
      refine ⟨e, hce, ?_⟩
      simp only [numericContinues, Bool.or_eq_false_iff] at hend
      exact hend.1
    obtain ⟨m, hm, hmin⟩ : ∃ m, (c ≤ m ∧ isPreprocessingNumberBody (rd buf m) = false) ∧
        ∀ i, c ≤ i → i < m → isPreprocessingNumberBody (rd buf i) = true := by
      classical
      refine ⟨Nat.find hex, Nat.find_spec hex, ?_⟩
      intro i hci him
      have := Nat.find_min hex him
      simp only [not_and, Bool.not_eq_false] at this
      exact this hci
    have hme : m ≤ e := by
      by_contra hc
      have := hmin e hce (by omega)
      simp only [numericContinues, Bool.or_eq_false_iff] at hend
      rw [hend.1] at this
      exact Bool.false_ne_true this
    have hfuel : m - c ≤ buf.length + 1 - c := by
      rcases Nat.eq_or_lt_of_le hm.1 with h1 | h1
      · omega
      · have hb := hmin (m - 1) (by omega) (by omega)
        have : m - 1 < buf.length := by
          apply lt_length_of_rd_ne_zero
          intro hz
          rw [hz] at hb
          simp [isPreprocessingNumberBody, isLetter, isDigit] at hb
        omega
    have hloop := LexNumericConstantLoop_run buf R (buf.length + 1 - c) c m 0 hm.1 hfuel
      hmin hm.2 (fun i hi hie => hns i (by omega) (by omega))
    have hgc : getCharAndSize buf c = (rd buf c, 1) :=
      getCharAndSize_plain buf c (hns c (by omega) hce)
    have hcond : ((rd buf m == 45 || rd buf m == 43) &&
        ((if c < m then rd buf (m - 1) else 0) == 69 ||
          (if c < m then rd buf (m - 1) else 0) == 101) &&
        !beginsWithHex buf L.BufferPtr) =
        numericContinues buf (beginsWithHex buf L.BufferPtr) m := by
      simp only [numericContinues, hm.2, Bool.false_or]
      by_cases hcm : c < m
      · simp only [hcm, if_true]
        cases (rd buf m == 45) <;> cases (rd buf m == 43) <;>
          cases (rd buf (m - 1) == 69) <;> cases (rd buf (m - 1) == 101) <;> rfl
      · have : m = c := by omega
        subst this
        simp only [Nat.lt_irrefl, if_false]
        simp only [Bool.or_eq_false_iff] at hprev
        simp [hprev.1, hprev.2]
    simp only [LexNumericConstantRec, hgc, hloop, hhex, hcond]
    by_cases hcont : numericContinues buf (beginsWithHex buf L.BufferPtr) m = true
    · have hlt : m < e := by
        rcases Nat.eq_or_lt_of_le hme with h1 | h1
        · rw [h1] at hcont; rw [hend] at hcont; exact absurd hcont Bool.false_ne_true
        · exact h1
      have hsign : rd buf m = 43 ∨ rd buf m = 45 := by
        simp only [numericContinues, hm.2, Bool.false_or, Bool.and_eq_true, Bool.or_eq_true,
          beq_iff_eq] at hcont
        exact hcont.1.1
      simp only [hcont, if_true, ConsumeChar_one]
      exact ih (m + 1) R (by omega) (by omega) (by omega)
        (by
          simp only [Nat.add_sub_cancel]
          rcases hsign with h | h <;> simp [h])
        (fun i hi hie => hrun i (by omega) hie)
    · have hme' : m = e := by
        by_contra hne
        exact hcont (hrun m hm.1 (by omega))
      subst hme'
      simp only [hcont, Bool.false_eq_true, if_false, FormTokenWithChars]


/-- C7 (the claim: `LexNumericConstant` forms one numeric_constant token that starts at
`BufferPtr` and consumes the maximal run of body characters, a sign being absorbed exactly
when the character before it is `e` or `E` and the token does not begin with 0x or 0X). The
code keeps the rule wherever no backslash that is followed by whitespace is read: called
just past the leading digit, it returns true with one numeric_constant token that starts at
`BufferPtr` and ends at `e`, the first byte at or after `CurPtr` that does not continue the
constant. It breaks the rule at a backslash followed by a space, which
`getEscapedNewLineSize` measures as an escaped newline although no newline follows: on `1`,
backslash, space, `2` the token is all four bytes, where the run of body characters is `1`;
and on `1e`, backslash, space, `+2` the sign is absorbed and the token is all six bytes,
although the character before the sign is a space. -/
theorem LexNumericConstant_maximal_run (buf : List Nat) (L : Lexer) (R : Token) (c e : Nat)
    (hsc : L.BufferPtr < c) (hce : c ≤ e)
    (hfirst : isDigit (rd buf (c - 1)) = true)
    (hns : ∀ q, L.BufferPtr ≤ q → q ≤ e → rd buf q = 92 →
      isWhitespace (rd buf (q + 1)) = false)
    (hrun : ∀ i, c ≤ i → i < e →
      numericContinues buf (beginsWithHex buf L.BufferPtr) i = true)
    (hend : numericContinues buf (beginsWithHex buf L.BufferPtr) e = false) :
    (∃ tok L', LexNumericConstant buf L R c = some (true, tok, L') ∧
      tok.Kind = TokenKind.numeric_constant ∧ tok.Loc = some L.BufferPtr ∧
      tok.Length = e - L.BufferPtr ∧ L'.BufferPtr = e) ∧
    (numericContinues [49, 92, 32, 50] false 1 = false ∧
      ∃ tok L', LexNumericConstant [49, 92, 32, 50] ⟨0, true, true, false, false⟩
          Token.startToken 1 = some (true, tok, L') ∧
        tok.Kind = TokenKind.numeric_constant ∧ tok.Loc = some 0 ∧
        tok.Length = 4 ∧ L'.BufferPtr = 4) ∧
    (numericContinues [49, 101, 92, 32, 43, 50] false 2 = false ∧
      ∃ tok L', LexNumericConstant [49, 101, 92, 32, 43, 50] ⟨0, true, true, false, false⟩
          Token.startToken 1 = some (true, tok, L') ∧
        tok.Kind = TokenKind.numeric_constant ∧ tok.Loc = some 0 ∧
        tok.Length = 6 ∧ L'.BufferPtr = 6) := by
  have hc : c - 1 < buf.length := by
    apply lt_length_of_rd_ne_zero
    intro hz
    rw [hz] at hfirst
    simp [isDigit] at hfirst
  have hprev : (rd buf (c - 1) == 101 || rd buf (c - 1) == 69) = false := by
    simp only [isDigit, Bool.and_eq_true, decide_eq_true_eq] at hfirst
    simp only [Bool.or_eq_false_iff, beq_eq_false_iff_ne]
    omega
  have he : e - c < buf.length + 2 - c := by
    rcases Nat.eq_or_lt_of_le hce with h1 | h1
    · omega
    · have hb := hrun (e - 1) (by omega) (by omega)
      have : e - 1 < buf.length := by
        apply lt_length_of_rd_ne_zero
        intro hz
        simp [numericContinues, hz, isPreprocessingNumberBody, isLetter, isDigit] at hb
      omega
  refine ⟨⟨_, _, LexNumericConstantRec_spec buf L e hns hend _ c R hsc hce he hprev hrun,
    rfl, rfl, rfl, rfl⟩, ⟨by decide, _, _, rfl, rfl, rfl, rfl, rfl⟩,
    ⟨by decide, _, _, rfl, rfl, rfl, rfl, rfl⟩⟩

/-- The instances of C7 at `1e+2` (one token of length 4), at `0x1p+2` (the token `0x1p`,
which ends before the sign) and at `1`, backslash, `x` (the token `1`: a backslash that no
whitespace follows ends the run). -/
theorem LexNumericConstant_maximal_run_witness :
    ((∃ tok L', LexNumericConstant [49, 101, 43, 50] ⟨0, true, true, false, false⟩
        Token.startToken 1 = some (true, tok, L') ∧
      tok.Kind = TokenKind.numeric_constant ∧ tok.Loc = some 0 ∧
      tok.Length = 4 - 0 ∧ L'.BufferPtr = 4) ∧
    (∃ tok L', LexNumericConstant [48, 120, 49, 112, 43, 50] ⟨0, true, true, false, false⟩
        Token.startToken 1 = some (true, tok, L') ∧
      tok.Kind = TokenKind.numeric_constant ∧ tok.Loc = some 0 ∧
      tok.Length = 4 - 0 ∧ L'.BufferPtr = 4) ∧
    (∃ tok L', LexNumericConstant [49, 92, 120] ⟨0, true, true, false, false⟩
        Token.startToken 1 = some (true, tok, L') ∧
      tok.Kind = TokenKind.numeric_constant ∧ tok.Loc = some 0 ∧
      tok.Length = 1 - 0 ∧ L'.BufferPtr = 1)) ∧
    (numericContinues [49, 92, 32, 50] false 1 = false ∧
      ∃ tok L', LexNumericConstant [49, 92, 32, 50] ⟨0, true, true, false, false⟩
          Token.startToken 1 = some (true, tok, L') ∧
        tok.Kind = TokenKind.numeric_constant ∧ tok.Loc = some 0 ∧
        tok.Length = 4 ∧ L'.BufferPtr = 4) ∧
    (numericContinues [49, 101, 92, 32, 43, 50] false 2 = false ∧
      ∃ tok L', LexNumericConstant [49, 101, 92, 32, 43, 50] ⟨0, true, true, false, false⟩
          Token.startToken 1 = some (true, tok, L') ∧
        tok.Kind = TokenKind.numeric_constant ∧ tok.Loc = some 0 ∧
        tok.Length = 6 ∧ L'.BufferPtr = 6) :=
  ⟨⟨(LexNumericConstant_maximal_run [49, 101, 43, 50] ⟨0, true, true, false, false⟩
      Token.startToken 1 4 (by decide) (by decide) (by decide)
      (by intro q _ h; interval_cases q <;> decide)
      (by intro i h1 h2; interval_cases i <;> decide) (by decide)).1,
   (LexNumericConstant_maximal_run [48, 120, 49, 112, 43, 50] ⟨0, true, true, false, false⟩
      Token.startToken 1 4 (by decide) (by decide) (by decide)
      (by intro q _ h; interval_cases q <;> decide)
      (by intro i h1 h2; interval_cases i <;> decide) (by decide)).1,
   (LexNumericConstant_maximal_run [49, 92, 120] ⟨0, true, true, false, false⟩
      Token.startToken 1 1 (by decide) (by decide) (by decide)
      (by intro q _ h; interval_cases q <;> decide)
      (by intro i h1 h2; omega) (by decide)).1⟩,
   (LexNumericConstant_maximal_run [49, 101, 43, 50] ⟨0, true, true, false, false⟩
      Token.startToken 1 4 (by decide) (by decide) (by decide)
      (by intro q _ h; interval_cases q <;> decide)
      (by intro i h1 h2; interval_cases i <;> decide) (by decide)).2⟩


/-- The head of `buf.drop p` is the byte at `p`, its tail is `buf.drop (p + 1)`, and `p` is
inside the buffer. -/
theorem rd_of_drop (buf : List Nat) (p c : Nat) (t : List Nat) (h : buf.drop p = c :: t) :
    rd buf p = c ∧ buf.drop (p + 1) = t ∧ p < buf.length := by
  have hlt : p < buf.length := by
    by_contra hc
    rw [List.drop_eq_nil_of_le (Nat.le_of_not_lt hc)] at h
    exact List.noConfusion h
  refine ⟨?_, ?_, hlt⟩
  · have := List.getElem?_drop (L := buf) (i := p) (j := 0)
    rw [h] at this
    simp at this
    simp [rd, ← this]
  · have : buf.drop (p + 1) = (buf.drop p).drop 1 := by
      rw [List.drop_drop]
    rw [this, h]
    rfl

/-- At a byte that does not start a line continuation, `getAndAdvancedChar` returns the byte
and steps over it; a backslash before a byte that is not whitespace is such a byte. -/
theorem getAndAdvancedChar_plain (buf : List Nat) (p : Nat) (Tok : Token)
    (h : rd buf p = 92 → isWhitespace (rd buf (p + 1)) = false) :
    getAndAdvancedChar buf p Tok = (rd buf p, p + 1, Tok) := by
  by_cases h92 : rd buf p = 92
  · have hlt : p < buf.length := lt_length_of_rd_ne_zero buf p (by rw [h92]; decide)
    have hw := h h92
    unfold getAndAdvancedChar
    have hfuel : buf.length + 1 - p = (buf.length - p) + 1 := by omega
    simp [isObviouslySimpleCharacter, h92, getCharAndSizeSlow, hfuel, getCharAndSizeSlowRec, hw]
  · exact getAndAdvancedChar_simple buf p Tok h92

/-- One turn of the literal loop over a non-empty body: an ordinary byte or an escape pair
is passed, and the loop goes on at the rest of the body. -/
theorem LexQuotedLoop_step (buf : List Nat) (L : Lexer) (Q : Nat) (Kind : TokenKind)
    (tail : List Nat) (hQ : Q = 34 ∨ Q = 39) (n : Nat) (c : Nat) (b1 : List Nat) (p : Nat)
    (R : Token) (hdrop : buf.drop p = (c :: b1) ++ tail)
    (hbody : isQuotedBody Q (c :: b1) = true)
    (hns : ∀ q, p ≤ q → q ≤ p + (c :: b1).length → rd buf q = 92 →
      isWhitespace (rd buf (q + 1)) = false) :
    ∃ (b : List Nat) (p1 : Nat),
      LexQuotedLoop buf L Q Kind (n + 1) (rd buf p) (p + 1) R =
        LexQuotedLoop buf L Q Kind n (rd buf p1) (p1 + 1) R ∧
      buf.drop p1 = b ++ tail ∧ isQuotedBody Q b = true ∧
      p1 + b.length = p + (c :: b1).length ∧ p < p1 ∧ b.length < (c :: b1).length ∧
      p1 ≤ buf.length := by
  obtain ⟨h1, h2, h3⟩ := rd_of_drop buf p c (b1 ++ tail) hdrop
  by_cases hc : c = 92
  · subst hc
    cases b1 with
    | nil => simp [isQuotedBody] at hbody
    | cons d b2 =>
      simp only [isQuotedBody, beq_self_eq_true, if_true] at hbody
      obtain ⟨g1, g2, g3⟩ := rd_of_drop buf (p + 1) d (b2 ++ tail) h2
      have hQ92 : (92 != Q) = true := by rcases hQ with h | h <;> subst h <;> decide
      have hdw : isWhitespace d = false := by
        have := hns p (Nat.le_refl p) (by omega) h1
        rw [g1] at this; exact this
      have hd10 : (d == 10) = false := by
        cases hd : (d == 10) with
        | false => rfl
        | true =>
          have : d = 10 := by simpa using hd
          subst this
          simp [isWhitespace, isVerticalWhitespace] at hdw
      have hd13 : (d == 13) = false := by
        cases hd : (d == 13) with
        | false => rfl
        | true =>
          have : d = 13 := by simpa using hd
          subst this
          simp [isWhitespace, isVerticalWhitespace] at hdw
      have hread1 : getAndAdvancedChar buf (p + 1) R = (d, p + 1 + 1, R) := by
        rw [getAndAdvancedChar_plain buf (p + 1) R
          (hns (p + 1) (by omega) (by simp only [List.length_cons]; omega)), g1]
      have hread2 : getAndAdvancedChar buf (p + 1 + 1) R =
          (rd buf (p + 1 + 1), p + 1 + 1 + 1, R) :=
        getAndAdvancedChar_plain buf (p + 1 + 1) R
          (hns (p + 1 + 1) (by omega) (by simp only [List.length_cons]; omega))
      have hnotend : (p + 1 + 1 - 1 == buf.length) = false := by
        simp only [beq_eq_false_iff_ne]; omega
      refine ⟨b2, p + 1 + 1, ?_, g2, hbody, ?_, by omega, ?_, by omega⟩
      · simp only [LexQuotedLoop, h1, hQ92, if_true, beq_self_eq_true, hread1, hd10, hd13,
          hnotend, Bool.or_false, Bool.and_false, Bool.false_eq_true, if_false, hread2]
      · simp only [List.length_cons]; omega
      · simp only [List.length_cons]; omega
  · have hbody1 : (c != Q && c != 10 && c != 13 && isQuotedBody Q b1) = true := by
      have hc1 : (c == 92) = false := by simpa using hc
      unfold isQuotedBody at hbody
      simpa only [hc1, Bool.false_eq_true, if_false] using hbody
    simp only [Bool.and_eq_true] at hbody1
    obtain ⟨⟨⟨hcQ, hc10⟩, hc13⟩, hb1⟩ := hbody1
    have hc92 : (c == 92) = false := by simpa using hc
    have hc10a : (c == 10) = false := by simpa using hc10
    have hc13a : (c == 13) = false := by simpa using hc13
    have hread : getAndAdvancedChar buf (p + 1) R = (rd buf (p + 1), p + 1 + 1, R) :=
      getAndAdvancedChar_plain buf (p + 1) R
        (hns (p + 1) (by omega) (by simp only [List.length_cons]; omega))
    have hnotend : (p + 1 - 1 == buf.length) = false := by
      simp only [beq_eq_false_iff_ne]; omega
    refine ⟨b1, p + 1, ?_, h2, hb1, ?_, by omega, ?_, by omega⟩
    · simp only [LexQuotedLoop, h1, hcQ, if_true, hc92, Bool.false_eq_true, if_false, hc10a,
        hc13a, hnotend, Bool.or_false, Bool.and_false, hread]
    · simp only [List.length_cons]; omega
    · simp only [List.length_cons]; omega

/-- The literal loop over a body that is followed by the closing quote forms the literal
token through that quote. -/
theorem LexQuotedLoop_closed (buf : List Nat) (L : Lexer) (Q : Nat) (Kind : TokenKind)
    (rest : List Nat) (hQ : Q = 34 ∨ Q = 39) :
    ∀ (n : Nat) (body : List Nat) (p : Nat) (R : Token),
      body.length < n → buf.drop p = body ++ Q :: rest → isQuotedBody Q body = true →
      (∀ q, p ≤ q → q ≤ p + body.length → rd buf q = 92 →
        isWhitespace (rd buf (q + 1)) = false) →
      LexQuotedLoop buf L Q Kind n (rd buf p) (p + 1) R =
        some (true,
          { R with Length := p + body.length + 1 - L.BufferPtr, Loc := some L.BufferPtr,
                   Kind := Kind, PtrData := some L.BufferPtr },
          { L with BufferPtr := p + body.length + 1 }) := by
  intro n
  induction n with
  | zero => intro body p R h; omega
  | succ n ih =>
    intro body p R hn hdrop hbody hns
    cases body with
    | nil =>
      obtain ⟨h1, _, _⟩ := rd_of_drop buf p Q rest hdrop
      simp [LexQuotedLoop, h1, FormTokenWithChars]
    | cons c b1 =>
      obtain ⟨b, p1, hstep, hd, hb, hlen, hlt, hbl, _⟩ :=
        LexQuotedLoop_step buf L Q Kind (Q :: rest) hQ n c b1 p R hdrop hbody hns
      rw [hstep, ih b p1 R (by omega) hd hb (fun q h1 h2 => hns q (by omega) (by omega)), hlen]

/-- The literal loop over a body that is followed by a newline or by the end of the buffer
forms an unknown token that stops before that newline or NUL. -/
theorem LexQuotedLoop_open (buf : List Nat) (L : Lexer) (Q : Nat) (Kind : TokenKind)
    (tail : List Nat) (hQ : Q = 34 ∨ Q = 39)
    (htail : tail = [] ∨ ∃ t rest, tail = t :: rest ∧ (t = 10 ∨ t = 13)) :
    ∀ (n : Nat) (body : List Nat) (p : Nat) (R : Token),
      body.length < n → p ≤ buf.length → buf.drop p = body ++ tail →
      isQuotedBody Q body = true →
      (∀ q, p ≤ q → q ≤ p + body.length → rd buf q = 92 →
        isWhitespace (rd buf (q + 1)) = false) →
      LexQuotedLoop buf L Q Kind n (rd buf p) (p + 1) R =
        some (true,
          { R with Length := p + body.length - L.BufferPtr, Loc := some L.BufferPtr,
                   Kind := TokenKind.unknown },
          { L with BufferPtr := p + body.length }) := by
  intro n
  induction n with
  | zero => intro body p R h; omega
  | succ n ih =>
    intro body p R hn hp hdrop hbody hns
    cases body with
    | nil =>
      rcases htail with ht | ⟨t, rest, ht, ht2⟩
      · subst ht
        have hlen : buf.length ≤ p := by
          simpa using hdrop
        have hpe : p = buf.length := by omega
        subst hpe
        have h0 : rd buf buf.length = 0 := rd_of_length_le buf _ hlen
        rcases hQ with h | h <;> subst h <;> simp [LexQuotedLoop, h0, FormTokenWithChars]
      · subst ht
        obtain ⟨h1, _, _⟩ := rd_of_drop buf p t rest hdrop
        rcases ht2 with h | h <;> subst h <;> rcases hQ with hq | hq <;> subst hq <;>
          simp [LexQuotedLoop, h1, FormTokenWithChars]
    | cons c b1 =>
      obtain ⟨b, p1, hstep, hd, hb, hlen, hlt, hbl, hp1⟩ :=
        LexQuotedLoop_step buf L Q Kind tail hQ n c b1 p R hdrop hbody hns
      rw [hstep, ih b p1 R (by omega) hp1 hd hb
        (fun q h1 h2 => hns q (by omega) (by omega)), hlen]


/-- With the cursor at a double quote, `Lex` is `LexStringLiteral` called just past it. -/
theorem Lex_at_double_quote (env : LexEnv) (buf : List Nat) (L : Lexer) (fuel : Nat)
    (h : rd buf L.BufferPtr = 34) :
    Lex env buf (fuel + 1) L =
      LexStringLiteral buf
        { L with IsAtStartOfLine := false, HasLeadingSpace := false,
                 HasLeadingEmptyMacro := false, IsAtPhysicalStartOfLine := false }
        { Token.startToken with StartOfLine := L.IsAtStartOfLine,
                                LeadingSpace := L.HasLeadingSpace,
                                LeadingEmptyMacro := L.HasLeadingEmptyMacro }
        (L.BufferPtr + 1) TokenKind.string_literal := by
  have h92 : rd buf L.BufferPtr ≠ 92 := by rw [h]; decide
  simp only [Lex, LexTokenInternal, LexTokenInternalStep, h,
    getAndAdvancedChar_simple buf _ _ h92]
  cases L with
  | mk p a b c d => cases a <;> cases c <;> cases d <;> rfl

/-- With the cursor at a single quote, `Lex` is `LexCharConstant` called just past it. -/
theorem Lex_at_single_quote (env : LexEnv) (buf : List Nat) (L : Lexer) (fuel : Nat)
    (h : rd buf L.BufferPtr = 39) :
    Lex env buf (fuel + 1) L =
      LexCharConstant buf
        { L with IsAtStartOfLine := false, HasLeadingSpace := false,
                 HasLeadingEmptyMacro := false, IsAtPhysicalStartOfLine := false }
        { Token.startToken with StartOfLine := L.IsAtStartOfLine,
                                LeadingSpace := L.HasLeadingSpace,
                                LeadingEmptyMacro := L.HasLeadingEmptyMacro }
        (L.BufferPtr + 1) TokenKind.char_constant := by
  have h92 : rd buf L.BufferPtr ≠ 92 := by rw [h]; decide
  simp only [Lex, LexTokenInternal, LexTokenInternalStep, h,
    getAndAdvancedChar_simple buf _ _ h92]
  cases L with
  | mk p a b c d => cases a <;> cases c <;> cases d <;> rfl

/-- Dropping the bytes before the opening quote leaves the quote and what follows. -/
theorem drop_at_quote (pre : List Nat) (Q : Nat) (t : List Nat) :
    (pre ++ Q :: t).drop pre.length = Q :: t := by
  simp

/-- The first byte of a literal body is not the quote. -/
theorem isQuotedBody_head_ne (Q : Nat) (hQ : Q = 34 ∨ Q = 39) (c : Nat) (b : List Nat)
    (h : isQuotedBody Q (c :: b) = true) : c ≠ Q := by
  intro hc
  subst hc
  unfold isQuotedBody at h
  rcases hQ with hq | hq <;> subst hq <;> simp at h


/-- No byte from the first byte of the body to the byte that ends it starts a line
continuation, when none inside the body does and the byte that ends it is not a backslash.
-/
theorem noSplice_extend (pre : List Nat) (Q : Nat) (body tail : List Nat)
    (htail : ∀ c t, tail = c :: t → c ≠ 92)
    (hns : ∀ q, pre.length < q → q ≤ pre.length + body.length →
      rd (pre ++ Q :: (body ++ tail)) q = 92 →
      isWhitespace (rd (pre ++ Q :: (body ++ tail)) (q + 1)) = false) :
    ∀ q, pre.length + 1 ≤ q → q ≤ pre.length + 1 + body.length →
      rd (pre ++ Q :: (body ++ tail)) q = 92 →
      isWhitespace (rd (pre ++ Q :: (body ++ tail)) (q + 1)) = false := by
  intro q h1 h2 h92
  rcases Nat.eq_or_lt_of_le h2 with he | hl
  · exfalso
    have hd : (pre ++ Q :: (body ++ tail)).drop q = tail := by
      have : pre ++ Q :: (body ++ tail) = (pre ++ Q :: body) ++ tail := by simp
      rw [this, he]
      have hl : pre.length + 1 + body.length = (pre ++ Q :: body).length := by simp; omega
      rw [hl]
      simp
    cases tail with
    | nil =>
      have hlen : (pre ++ Q :: (body ++ [])).length ≤ q := by
        simp only [List.append_nil, List.length_append, List.length_cons]; omega
      rw [rd_of_length_le _ q hlen] at h92
      exact absurd h92 (by decide)
    | cons c t =>
      have := (rd_of_drop _ q c t hd).1
      rw [this] at h92
      exact htail c t rfl h92
  · exact hns q (by omega) (by omega) h92

/-- C9 (the claim: with the cursor at a double quote and a double quote that no backslash
escapes before any unescaped newline and before `BufferEnd`, `Lex` returns true with a
string_literal token through the first such quote). The code keeps it for every body of
ordinary bytes and escape pairs (so that a quote after a backslash does not close the
literal) in which no backslash is followed by whitespace. It breaks it at a backslash
followed by a space, which `getEscapedNewLineSize` measures as an escaped newline although
no newline follows: on double quote, backslash, backslash, space, double quote the second
backslash is the character that the first one escapes, yet the code skips it with the
space and takes the closing quote for the escaped character, so that the token is of kind
unknown and runs to the end of the buffer. -/
theorem Lex_string_literal_closed (env : LexEnv) (pre body rest : List Nat) (L : Lexer)
    (fuel : Nat) (hptr : L.BufferPtr = pre.length)
    (hbody : isQuotedBody 34 body = true)
    (hns : ∀ q, pre.length < q → q ≤ pre.length + body.length →
      rd (pre ++ 34 :: (body ++ 34 :: rest)) q = 92 →
      isWhitespace (rd (pre ++ 34 :: (body ++ 34 :: rest)) (q + 1)) = false) :
    (∃ tok L', Lex env (pre ++ 34 :: (body ++ 34 :: rest)) (fuel + 1) L
        = some (true, tok, L') ∧
      tok.Kind = TokenKind.string_literal ∧ tok.Loc = some pre.length ∧
      tok.Length = body.length + 2 ∧ L'.BufferPtr = pre.length + body.length + 2) ∧
    (isQuotedBody 34 [92, 92, 32] = true ∧
      ∃ tok L', Lex env [34, 92, 92, 32, 34] (fuel + 1) ⟨0, true, true, false, false⟩
          = some (true, tok, L') ∧
        tok.Kind = TokenKind.unknown ∧ tok.Loc = some 0 ∧ tok.Length = 5 ∧
        L'.BufferPtr = 5) := by
  refine ⟨?_, by decide, _, _, rfl, rfl, rfl, rfl, rfl⟩
  have hns1 := noSplice_extend pre 34 body (34 :: rest)
    (by intro c t h; injection h with h1 _; subst h1; decide) hns
  generalize hbuf : pre ++ 34 :: (body ++ 34 :: rest) = buf at hns1 ⊢
  have hd0 : buf.drop pre.length = 34 :: (body ++ 34 :: rest) := by
    rw [← hbuf]; exact drop_at_quote pre 34 _
  obtain ⟨h0, hd1, _⟩ := rd_of_drop buf pre.length 34 _ hd0
  have hlen : buf.length = pre.length + 1 + body.length + 1 + rest.length := by
    rw [← hbuf]; simp; omega
  rw [Lex_at_double_quote env buf L fuel (by rw [hptr]; exact h0)]
  simp only [LexStringLiteral, hptr]
  rw [getAndAdvancedChar_plain buf (pre.length + 1) _
    (hns1 (pre.length + 1) (Nat.le_refl _) (by omega))]
  rw [LexQuotedLoop_closed buf _ 34 TokenKind.string_literal rest (Or.inl rfl) _ body
    (pre.length + 1) _ (by omega) hd1 hbody hns1]
  refine ⟨_, _, rfl, rfl, by simp only [hptr], ?_, ?_⟩
  · simp only [hptr]; omega
  · simp only; omega

/-- The instance of C9 at a literal whose body is a, an escaped double quote, b. -/
theorem Lex_string_literal_closed_witness :
    (∃ tok L', Lex ⟨TokenKind.unknown, fun _ _ => none⟩
        ([32] ++ 34 :: ([97, 92, 34, 98] ++ 34 :: [32, 120])) (0 + 1)
        ⟨1, false, false, false, false⟩ = some (true, tok, L') ∧
      tok.Kind = TokenKind.string_literal ∧ tok.Loc = some [32].length ∧
      tok.Length = [97, 92, 34, 98].length + 2 ∧
      L'.BufferPtr = [32].length + [97, 92, 34, 98].length + 2) ∧
    (isQuotedBody 34 [92, 92, 32] = true ∧
      ∃ tok L', Lex ⟨TokenKind.unknown, fun _ _ => none⟩ [34, 92, 92, 32, 34] (0 + 1)
          ⟨0, true, true, false, false⟩ = some (true, tok, L') ∧
        tok.Kind = TokenKind.unknown ∧ tok.Loc = some 0 ∧ tok.Length = 5 ∧
        L'.BufferPtr = 5) :=
  Lex_string_literal_closed ⟨TokenKind.unknown, fun _ _ => none⟩ [32] [97, 92, 34, 98]
    [32, 120] ⟨1, false, false, false, false⟩ 0 rfl (by decide)
    (by
      intro q h1 h2
      simp only [List.length_cons, List.length_nil] at h1 h2
      interval_cases q <;> decide)

/-- C8 (the claim: when an unescaped newline or the sentinel NUL is reached before the
closing quote, `Lex` returns true with a token of kind unknown that ends just before that
newline or NUL, where `BufferPtr` is left). The code keeps it for every body of ordinary
bytes and escape pairs in which no backslash is followed by whitespace, for both quotes. It
breaks it where `getEscapedNewLineSize` steps over a carriage return as if it were
horizontal whitespace: on double quote, `a`, backslash, carriage return, space, line feed,
`x` the backslash escapes the carriage return and the line feed is an unescaped newline,
yet the code skips carriage return, space and line feed together as one escaped newline,
and the token runs through the line feed to the end of the buffer. -/
theorem Lex_unterminated_literal (env : LexEnv) (Q : Nat) (hQ : Q = 34 ∨ Q = 39)
    (pre body tail : List Nat) (L : Lexer) (fuel : Nat)
    (hptr : L.BufferPtr = pre.length)
    (hbody : isQuotedBody Q body = true)
    (htail : tail = [] ∨ ∃ t rest, tail = t :: rest ∧ (t = 10 ∨ t = 13))
    (hns : ∀ q, pre.length < q → q ≤ pre.length + body.length →
      rd (pre ++ Q :: (body ++ tail)) q = 92 →
      isWhitespace (rd (pre ++ Q :: (body ++ tail)) (q + 1)) = false) :
    (∃ tok L', Lex env (pre ++ Q :: (body ++ tail)) (fuel + 1) L = some (true, tok, L') ∧
      tok.Kind = TokenKind.unknown ∧ tok.Loc = some pre.length ∧
      tok.Length = body.length + 1 ∧ L'.BufferPtr = pre.length + 1 + body.length ∧
      (rd (pre ++ Q :: (body ++ tail)) L'.BufferPtr = 10 ∨
       rd (pre ++ Q :: (body ++ tail)) L'.BufferPtr = 13 ∨
       (rd (pre ++ Q :: (body ++ tail)) L'.BufferPtr = 0 ∧
        L'.BufferPtr = (pre ++ Q :: (body ++ tail)).length))) ∧
    (isQuotedBody 34 [97, 92, 13, 32] = true ∧
      ∃ tok L', Lex env [34, 97, 92, 13, 32, 10, 120] (fuel + 1)
          ⟨0, true, true, false, false⟩ = some (true, tok, L') ∧
        tok.Kind = TokenKind.unknown ∧ tok.Loc = some 0 ∧ tok.Length = 7 ∧
        L'.BufferPtr = 7) := by
  refine ⟨?_, by decide, _, _, rfl, rfl, rfl, rfl, rfl⟩
  have hns1 := noSplice_extend pre Q body tail
    (by
      intro c t h
      rcases htail with h0 | ⟨t0, r0, h1, h2⟩
      · rw [h0] at h; exact List.noConfusion h
      · rw [h1] at h
        injection h with h3 _
        subst h3
        rcases h2 with h2 | h2 <;> subst h2 <;> decide) hns
  have hstop : rd (pre ++ Q :: (body ++ tail)) (pre.length + 1 + body.length) = 10 ∨
      rd (pre ++ Q :: (body ++ tail)) (pre.length + 1 + body.length) = 13 ∨
      (rd (pre ++ Q :: (body ++ tail)) (pre.length + 1 + body.length) = 0 ∧
        pre.length + 1 + body.length = (pre ++ Q :: (body ++ tail)).length) := by
    have hd : (pre ++ Q :: (body ++ tail)).drop (pre.length + 1 + body.length) = tail := by
      have : pre ++ Q :: (body ++ tail) = (pre ++ Q :: body) ++ tail := by simp
      rw [this]
      have hl : pre.length + 1 + body.length = (pre ++ Q :: body).length := by simp; omega
      rw [hl]
      simp
    rcases htail with h0 | ⟨t0, r0, h1, h2⟩
    · subst h0
      right; right
      have hlen : (pre ++ Q :: (body ++ [])).length = pre.length + 1 + body.length := by
        simp only [List.append_nil, List.length_append, List.length_cons]; omega
      exact ⟨rd_of_length_le _ _ (by omega), hlen.symm⟩
    · subst h1
      have := (rd_of_drop _ _ t0 r0 hd).1
      rcases h2 with h2 | h2
      · left; rw [this, h2]
      · right; left; rw [this, h2]
  generalize hbuf : pre ++ Q :: (body ++ tail) = buf at hns1 hstop ⊢
  have hd0 : buf.drop pre.length = Q :: (body ++ tail) := by
    rw [← hbuf]; exact drop_at_quote pre Q _
  obtain ⟨h0, hd1, _⟩ := rd_of_drop buf pre.length Q _ hd0
  have hlen : buf.length = pre.length + 1 + body.length + tail.length := by
    rw [← hbuf]; simp; omega
  have hfirst : rd buf (pre.length + 1) ≠ Q := by
    cases body with
    | nil =>
      simp only [List.length_nil, Nat.add_zero] at hstop
      rcases hstop with h | h | ⟨h, _⟩ <;> rw [h] <;>
        rcases hQ with hq | hq <;> subst hq <;> decide
    | cons c b =>
      rw [(rd_of_drop buf (pre.length + 1) c (b ++ tail) hd1).1]
      exact isQuotedBody_head_ne Q hQ c b hbody
  have hfuel : body.length < buf.length + 2 - (pre.length + 1) := by omega
  rcases hQ with hq | hq
  · subst hq
    rw [Lex_at_double_quote env buf L fuel (by rw [hptr]; exact h0)]
    simp only [LexStringLiteral, hptr]
    rw [getAndAdvancedChar_plain buf (pre.length + 1) _
      (hns1 (pre.length + 1) (Nat.le_refl _) (by omega))]
    rw [LexQuotedLoop_open buf _ 34 TokenKind.string_literal tail (Or.inl rfl) htail _ body
      (pre.length + 1) _ hfuel (by omega) hd1 hbody hns1]
    refine ⟨_, _, rfl, rfl, by simp only [hptr], ?_, rfl, hstop⟩
    simp only [hptr]; omega
  · subst hq
    rw [Lex_at_single_quote env buf L fuel (by rw [hptr]; exact h0)]
    have hne : (rd buf (pre.length + 1) == 39) = false := by simpa using hfirst
    simp only [LexCharConstant, hptr]
    rw [getAndAdvancedChar_plain buf (pre.length + 1) _
      (hns1 (pre.length + 1) (Nat.le_refl _) (by omega))]
    simp only [hne, Bool.false_eq_true, if_false]
    rw [LexQuotedLoop_open buf _ 39 TokenKind.char_constant tail (Or.inr rfl) htail _ body
      (pre.length + 1) _ hfuel (by omega) hd1 hbody hns1]
    refine ⟨_, _, rfl, rfl, by simp only [hptr], ?_, rfl, hstop⟩
    simp only [hptr]; omega


/-- The instances of C8 at a string literal cut by a newline and at a character constant cut
by the end of the buffer. -/
theorem Lex_unterminated_literal_witness :
    (∃ tok L', Lex ⟨TokenKind.unknown, fun _ _ => none⟩
        ([] ++ 34 :: ([97, 98] ++ [10, 120])) (0 + 1)
        ⟨0, true, true, false, false⟩ = some (true, tok, L') ∧
      tok.Kind = TokenKind.unknown ∧ tok.Loc = some ([] : List Nat).length ∧
      tok.Length = [97, 98].length + 1 ∧
      L'.BufferPtr = ([] : List Nat).length + 1 + [97, 98].length ∧
      (rd ([] ++ 34 :: ([97, 98] ++ [10, 120])) L'.BufferPtr = 10 ∨
       rd ([] ++ 34 :: ([97, 98] ++ [10, 120])) L'.BufferPtr = 13 ∨
       (rd ([] ++ 34 :: ([97, 98] ++ [10, 120])) L'.BufferPtr = 0 ∧
        L'.BufferPtr = ([] ++ 34 :: ([97, 98] ++ [10, 120])).length))) ∧
    (∃ tok L', Lex ⟨TokenKind.unknown, fun _ _ => none⟩
        ([] ++ 39 :: ([97] ++ [])) (0 + 1)
        ⟨0, true, true, false, false⟩ = some (true, tok, L') ∧
      tok.Kind = TokenKind.unknown ∧ tok.Loc = some ([] : List Nat).length ∧
      tok.Length = [97].length + 1 ∧
      L'.BufferPtr = ([] : List Nat).length + 1 + [97].length ∧
      (rd ([] ++ 39 :: ([97] ++ [])) L'.BufferPtr = 10 ∨
       rd ([] ++ 39 :: ([97] ++ [])) L'.BufferPtr = 13 ∨
       (rd ([] ++ 39 :: ([97] ++ [])) L'.BufferPtr = 0 ∧
        L'.BufferPtr = ([] ++ 39 :: ([97] ++ [])).length))) ∧
    (isQuotedBody 34 [97, 92, 13, 32] = true ∧
      ∃ tok L', Lex ⟨TokenKind.unknown, fun _ _ => none⟩ [34, 97, 92, 13, 32, 10, 120]
          (0 + 1) ⟨0, true, true, false, false⟩ = some (true, tok, L') ∧
        tok.Kind = TokenKind.unknown ∧ tok.Loc = some 0 ∧ tok.Length = 7 ∧
        L'.BufferPtr = 7) :=
  ⟨(Lex_unterminated_literal ⟨TokenKind.unknown, fun _ _ => none⟩ 34 (Or.inl rfl) []
      [97, 98] [10, 120] ⟨0, true, true, false, false⟩ 0 rfl (by decide)
      (Or.inr ⟨10, [120], rfl, Or.inl rfl⟩)
      (by
        intro q h1 h2
        simp only [List.length_cons, List.length_nil] at h1 h2
        interval_cases q <;> decide)).1,
   (Lex_unterminated_literal ⟨TokenKind.unknown, fun _ _ => none⟩ 39 (Or.inr rfl) []
      [97] [] ⟨0, true, true, false, false⟩ 0 rfl (by decide) (Or.inl rfl)
      (by
        intro q h1 h2
        simp only [List.length_cons, List.length_nil] at h1 h2
        interval_cases q; decide)).1,
   (Lex_unterminated_literal ⟨TokenKind.unknown, fun _ _ => none⟩ 34 (Or.inl rfl) []
      [97, 98] [10, 120] ⟨0, true, true, false, false⟩ 0 rfl (by decide)
      (Or.inr ⟨10, [120], rfl, Or.inl rfl⟩)
      (by
        intro q h1 h2
        simp only [List.length_cons, List.length_nil] at h1 h2
        interval_cases q <;> decide)).2⟩

/-- C10 (the claim: with the cursor at a single quote and an unescaped closing single quote
before any unescaped newline and before `BufferEnd`, `Lex` returns true with a
char_constant token through the first unescaped closing quote). For every body of ordinary
bytes and escape pairs in which no backslash is followed by whitespace, the code returns the
char_constant token from the opening quote through the closing quote when the body is not
empty, and a token of kind unknown that spans the two quotes when the closing quote follows
the opening quote at once (the explicit guard of `LexCharConstant` for the empty constant).
It breaks the claim at a backslash followed by a space, which `getEscapedNewLineSize`
measures as an escaped newline although no newline follows: on single quote, backslash,
backslash, space, single quote the first backslash escapes the second and the closing quote
is not escaped, yet the code skips the second backslash with the space and takes the
closing quote for the escaped character, so that the token is of kind unknown and runs to
the end of the buffer; and on single quote, backslash, space, single quote the code skips
backslash and space, reads the closing quote as the first character and forms a token of
kind unknown. -/
theorem Lex_char_constant_closed (env : LexEnv) (pre body rest : List Nat) (L : Lexer)
    (fuel : Nat) (hptr : L.BufferPtr = pre.length)
    (hbody : isQuotedBody 39 body = true)
    (hns : ∀ q, pre.length < q → q ≤ pre.length + body.length →
      rd (pre ++ 39 :: (body ++ 39 :: rest)) q = 92 →
      isWhitespace (rd (pre ++ 39 :: (body ++ 39 :: rest)) (q + 1)) = false) :
    (body ≠ [] →
      ∃ tok L', Lex env (pre ++ 39 :: (body ++ 39 :: rest)) (fuel + 1) L
          = some (true, tok, L') ∧
        tok.Kind = TokenKind.char_constant ∧ tok.Loc = some pre.length ∧
        tok.Length = body.length + 2 ∧ L'.BufferPtr = pre.length + body.length + 2) ∧
    (body = [] →
      ∃ tok L', Lex env (pre ++ 39 :: (body ++ 39 :: rest)) (fuel + 1) L
          = some (true, tok, L') ∧
        tok.Kind = TokenKind.unknown ∧ tok.Loc = some pre.length ∧
        tok.Length = 2 ∧ L'.BufferPtr = pre.length + 2) ∧
    (isQuotedBody 39 [92, 92, 32] = true ∧
      ∃ tok L', Lex env [39, 92, 92, 32, 39] (fuel + 1) ⟨0, true, true, false, false⟩
          = some (true, tok, L') ∧
        tok.Kind = TokenKind.unknown ∧ tok.Loc = some 0 ∧ tok.Length = 5 ∧
        L'.BufferPtr = 5) ∧
    (isQuotedBody 39 [92, 32] = true ∧
      ∃ tok L', Lex env [39, 92, 32, 39] (fuel + 1) ⟨0, true, true, false, false⟩
          = some (true, tok, L') ∧
        tok.Kind = TokenKind.unknown ∧ tok.Loc = some 0 ∧ tok.Length = 4 ∧
        L'.BufferPtr = 4) := by
  have key : (body ≠ [] →
      ∃ tok L', Lex env (pre ++ 39 :: (body ++ 39 :: rest)) (fuel + 1) L
          = some (true, tok, L') ∧
        tok.Kind = TokenKind.char_constant ∧ tok.Loc = some pre.length ∧
        tok.Length = body.length + 2 ∧ L'.BufferPtr = pre.length + body.length + 2) ∧
    (body = [] →
      ∃ tok L', Lex env (pre ++ 39 :: (body ++ 39 :: rest)) (fuel + 1) L
          = some (true, tok, L') ∧
        tok.Kind = TokenKind.unknown ∧ tok.Loc = some pre.length ∧
        tok.Length = 2 ∧ L'.BufferPtr = pre.length + 2) := by
    have hns1 := noSplice_extend pre 39 body (39 :: rest)
      (by intro c t h; injection h with h1 _; subst h1; decide) hns
    generalize hbuf : pre ++ 39 :: (body ++ 39 :: rest) = buf at hns1 ⊢
    have hd0 : buf.drop pre.length = 39 :: (body ++ 39 :: rest) := by
      rw [← hbuf]; exact drop_at_quote pre 39 _
    obtain ⟨h0, hd1, _⟩ := rd_of_drop buf pre.length 39 _ hd0
    have hlen : buf.length = pre.length + 1 + body.length + 1 + rest.length := by
      rw [← hbuf]; simp; omega
    rw [Lex_at_single_quote env buf L fuel (by rw [hptr]; exact h0)]
    simp only [LexCharConstant, hptr]
    rw [getAndAdvancedChar_plain buf (pre.length + 1) _
      (hns1 (pre.length + 1) (Nat.le_refl _) (by omega))]
    constructor
    · intro hne
      cases body with
      | nil => exact absurd rfl hne
      | cons c b =>
        have hc : rd buf (pre.length + 1) = c := (rd_of_drop buf _ c _ hd1).1
        have hcq : (rd buf (pre.length + 1) == 39) = false := by
          rw [hc]
          simpa using isQuotedBody_head_ne 39 (Or.inr rfl) c b hbody
        simp only [hcq, Bool.false_eq_true, if_false]
        rw [LexQuotedLoop_closed buf _ 39 TokenKind.char_constant rest (Or.inr rfl) _ (c :: b)
          (pre.length + 1) _ (by omega) hd1 hbody hns1]
        refine ⟨_, _, rfl, rfl, by simp only [hptr], ?_, ?_⟩
        · simp only [hptr]; omega
        · simp only; omega
    · intro he
      subst he
      have hc : rd buf (pre.length + 1) = 39 := (rd_of_drop buf _ 39 _ hd1).1
      simp only [hc, beq_self_eq_true, if_true, FormTokenWithChars]
      refine ⟨_, _, rfl, rfl, by simp only [hptr], ?_, rfl⟩
      simp only [hptr]; omega
  exact ⟨key.1, key.2, ⟨by decide, _, _, rfl, rfl, rfl, rfl, rfl⟩,
    by decide, _, _, rfl, rfl, rfl, rfl, rfl⟩

/-- The instances of C10 at `'a'` and at the empty constant, with the failing input. -/
theorem Lex_char_constant_closed_witness :
    ([97] ≠ [] →
      ∃ tok L', Lex ⟨TokenKind.unknown, fun _ _ => none⟩
          ([] ++ 39 :: ([97] ++ 39 :: [32])) (0 + 1) ⟨0, true, true, false, false⟩
          = some (true, tok, L') ∧
        tok.Kind = TokenKind.char_constant ∧ tok.Loc = some ([] : List Nat).length ∧
        tok.Length = [97].length + 2 ∧
        L'.BufferPtr = ([] : List Nat).length + [97].length + 2) ∧
    (([] : List Nat) = [] →
      ∃ tok L', Lex ⟨TokenKind.unknown, fun _ _ => none⟩
          ([] ++ 39 :: ([] ++ 39 :: [32])) (0 + 1) ⟨0, true, true, false, false⟩
          = some (true, tok, L') ∧
        tok.Kind = TokenKind.unknown ∧ tok.Loc = some ([] : List Nat).length ∧
        tok.Length = 2 ∧ L'.BufferPtr = ([] : List Nat).length + 2) ∧
    (isQuotedBody 39 [92, 92, 32] = true ∧
      ∃ tok L', Lex ⟨TokenKind.unknown, fun _ _ => none⟩ [39, 92, 92, 32, 39] (0 + 1)
          ⟨0, true, true, false, false⟩ = some (true, tok, L') ∧
        tok.Kind = TokenKind.unknown ∧ tok.Loc = some 0 ∧ tok.Length = 5 ∧
        L'.BufferPtr = 5) ∧
    (isQuotedBody 39 [92, 32] = true ∧
      ∃ tok L', Lex ⟨TokenKind.unknown, fun _ _ => none⟩ [39, 92, 32, 39] (0 + 1)
          ⟨0, true, true, false, false⟩ = some (true, tok, L') ∧
        tok.Kind = TokenKind.unknown ∧ tok.Loc = some 0 ∧ tok.Length = 4 ∧
        L'.BufferPtr = 4) :=
  ⟨(Lex_char_constant_closed ⟨TokenKind.unknown, fun _ _ => none⟩ [] [97] [32]
      ⟨0, true, true, false, false⟩ 0 rfl (by decide)
      (by
        intro q h1 h2
        simp only [List.length_cons, List.length_nil] at h1 h2
        interval_cases q; decide)).1,
   (Lex_char_constant_closed ⟨TokenKind.unknown, fun _ _ => none⟩ [] [] [32]
      ⟨0, true, true, false, false⟩ 0 rfl (by decide)
      (by
        intro q h1 h2
        simp only [List.length_cons, List.length_nil] at h1 h2
        omega)).2.1,
   (Lex_char_constant_closed ⟨TokenKind.unknown, fun _ _ => none⟩ [] [] [32]
      ⟨0, true, true, false, false⟩ 0 rfl (by decide)
      (by
        intro q h1 h2
        simp only [List.length_cons, List.length_nil] at h1 h2
        omega)).2.2⟩

/-- The empty character constant: on the buffer of two single quotes the closing quote is
there, yet the token `Lex` forms is of kind unknown, not char_constant. And on single
quote, backslash, line feed, single quote, where two bytes stand between the quotes, the
line continuation is skipped, the closing quote is the first character read, and the token
is again of kind unknown, of length 4. -/
theorem Lex_empty_char_constant_not_char_constant :
    ((∃ tok L', Lex ⟨TokenKind.unknown, fun _ _ => none⟩ [39, 39] 1
        ⟨0, true, true, false, false⟩ = some (true, tok, L') ∧
      tok.Kind = TokenKind.unknown ∧ tok.Loc = some 0 ∧ tok.Length = 2 ∧
      L'.BufferPtr = 2) ∧
    ¬ (∃ tok L', Lex ⟨TokenKind.unknown, fun _ _ => none⟩ [39, 39] 1
        ⟨0, true, true, false, false⟩ = some (true, tok, L') ∧
      tok.Kind = TokenKind.char_constant)) ∧
    (isQuotedBody 39 [92, 10] = true ∧
      ∃ tok L', Lex ⟨TokenKind.unknown, fun _ _ => none⟩ [39, 92, 10, 39] 1
          ⟨0, true, true, false, false⟩ = some (true, tok, L') ∧
        tok.Kind = TokenKind.unknown ∧ tok.Loc = some 0 ∧ tok.Length = 4 ∧
        L'.BufferPtr = 4) := by
  refine ⟨⟨⟨_, _, rfl, rfl, rfl, rfl, rfl⟩, ?_⟩, by decide, _, _, rfl, rfl, rfl, rfl, rfl⟩
  rintro ⟨tok, L', h, hk⟩
  have h2 : Lex ⟨TokenKind.unknown, fun _ _ => none⟩ [39, 39] 1
      ⟨0, true, true, false, false⟩ =
      some (true, { Token.startToken with Kind := TokenKind.unknown, Loc := some 0,
                                          Length := 2, StartOfLine := true },
        ⟨2, false, false, false, false⟩) := rfl
  rw [h2] at h
  injection h with h
  injection h with _ h
  injection h with h _
  rw [← h] at hk
  exact TokenKind.noConfusion hk

/-! ## Operators and punctuators -/

/-- `Lex` is `LexTokenInternal` entered at its first label with the start token and the
start state. -/
theorem Lex_eq_LexTokenInternal (env : LexEnv) (buf : List Nat) (fuel : Nat) (L : Lexer) :
    Lex env buf fuel L = LexTokenInternal env buf fuel Label.LexNextToken (LexStartToken L)
      L.IsAtPhysicalStartOfLine (LexStartState L) := by
  cases L with
  | mk p a b c d => cases a <;> cases c <;> cases d <;> rfl

/-- At a byte that is neither a space, a tab nor a backslash, the code at `LexNextToken`
is the switch on that byte, entered just past it. -/
theorem LexTokenInternalStep_at_char (env : LexEnv) (buf : List Nat) (R : Token) (t : Bool)
    (L : Lexer) (hsp : rd buf L.BufferPtr ≠ 32) (htab : rd buf L.BufferPtr ≠ 9)
    (h92 : rd buf L.BufferPtr ≠ 92) :
    LexTokenInternalStep env buf Label.LexNextToken R t L =
      LexSwitch env buf (rd buf L.BufferPtr) (L.BufferPtr + 1)
        { R with NeedsCleaning := false, PtrData := none } t L := by
  have h1 : (rd buf L.BufferPtr == 32) = false := by simpa using hsp
  have h2 : (rd buf L.BufferPtr == 9) = false := by simpa using htab
  simp only [LexTokenInternalStep, h1, h2, Bool.or_self, Bool.false_eq_true, if_false,
    getAndAdvancedChar_simple buf _ _ h92]

/-- When the switch on the byte at the cursor ends in a `return`, that is the result of
`Lex`. -/
theorem Lex_of_switch_done (env : LexEnv) (buf : List Nat) (fuel : Nat) (L : Lexer)
    (r : Option (Bool × Token × Lexer))
    (hsp : rd buf L.BufferPtr ≠ 32) (htab : rd buf L.BufferPtr ≠ 9)
    (h92 : rd buf L.BufferPtr ≠ 92)
    (h : LexSwitch env buf (rd buf L.BufferPtr) (L.BufferPtr + 1)
      { LexStartToken L with NeedsCleaning := false, PtrData := none }
      L.IsAtPhysicalStartOfLine (LexStartState L) = Step.done r) :
    Lex env buf (fuel + 1) L = r := by
  rw [Lex_eq_LexTokenInternal]
  have hs := LexTokenInternalStep_at_char env buf (LexStartToken L) L.IsAtPhysicalStartOfLine
    (LexStartState L) hsp htab h92
  have hb : (LexStartState L).BufferPtr = L.BufferPtr := rfl
  rw [hb] at hs
  simp only [LexTokenInternal, hs, h]

/-- A prefix of two bytes fixes the two bytes read at the cursor. -/
theorem rd_of_prefix_two (buf : List Nat) (p a b : Nat) (h : [a, b] <+: buf.drop p) :
    rd buf p = a ∧ rd buf (p + 1) = b := by
  obtain ⟨t, ht⟩ := h
  obtain ⟨h1, h2, _⟩ := rd_of_drop buf p a (b :: t) (by simpa using ht.symm)
  exact ⟨h1, (rd_of_drop buf (p + 1) b t h2).1⟩

/-- A prefix of one byte fixes the byte read at the cursor. -/
theorem rd_of_prefix_one (buf : List Nat) (p a : Nat) (h : [a] <+: buf.drop p) :
    rd buf p = a := by
  obtain ⟨t, ht⟩ := h
  exact (rd_of_drop buf p a t (by simpa using ht.symm)).1

/-- Two bytes read at the cursor are a prefix of what is left of the buffer. -/
theorem prefix_two_of_rd (buf : List Nat) (p a b : Nat) (ha : rd buf p = a)
    (hb : rd buf (p + 1) = b) (hb0 : b ≠ 0) : [a, b] <+: buf.drop p := by
  have h1 : p + 1 < buf.length := lt_length_of_rd_ne_zero buf (p + 1) (by rw [hb]; exact hb0)
  have h0 : p < buf.length := by omega
  refine ⟨buf.drop (p + 2), ?_⟩
  have e0 : buf.drop p = buf[p] :: buf.drop (p + 1) := List.drop_eq_getElem_cons h0
  have e1 : buf.drop (p + 1) = buf[p + 1] :: buf.drop (p + 1 + 1) :=
    List.drop_eq_getElem_cons h1
  have ra : buf[p] = a := by
    simpa [rd, List.getElem?_eq_getElem h0] using ha
  have rb : buf[p + 1] = b := by
    simpa [rd, List.getElem?_eq_getElem h1] using hb
  rw [e0, e1, ra, rb]
  rfl

/-- An operator case with one suffix, when the suffix is there: the two-byte token. -/
theorem opWithSuffix_two (buf : List Nat) (L : Lexer) (R : Token) (q c : Nat)
    (two one : TokenKind) (h : rd buf q = c) (hc : c ≠ 92) :
    opWithSuffix buf L R q c two one = formAndReturn L R (q + 1) two := by
  have h92 : rd buf q ≠ 92 := by rw [h]; exact hc
  simp [opWithSuffix, getCharAndSize_simple buf q h92, h, ConsumeChar_one]

/-- An operator case with one suffix, when the suffix is not there: the one-byte token. -/
theorem opWithSuffix_one (buf : List Nat) (L : Lexer) (R : Token) (q c : Nat)
    (two one : TokenKind) (h : rd buf q ≠ c) (h92 : rd buf q ≠ 92) :
    opWithSuffix buf L R q c two one = formAndReturn L R q one := by
  simp [opWithSuffix, getCharAndSize_simple buf q h92, h]

/-- The case of `+` and `-`, when the character is doubled. -/
theorem opDoubledOrEqual_doubled (buf : List Nat) (L : Lexer) (R : Token) (q c : Nat)
    (doubled withEqual one : TokenKind) (h : rd buf q = c) (hc : c ≠ 92) :
    opDoubledOrEqual buf L R q c doubled withEqual one = formAndReturn L R (q + 1) doubled := by
  have h92 : rd buf q ≠ 92 := by rw [h]; exact hc
  simp [opDoubledOrEqual, getCharAndSize_simple buf q h92, h, ConsumeChar_one]

/-- The case of `+` and `-`, when `=` follows. -/
theorem opDoubledOrEqual_equal (buf : List Nat) (L : Lexer) (R : Token) (q c : Nat)
    (doubled withEqual one : TokenKind) (h : rd buf q = 61) (hc : c ≠ 61) :
    opDoubledOrEqual buf L R q c doubled withEqual one =
      formAndReturn L R (q + 1) withEqual := by
  have h92 : rd buf q ≠ 92 := by rw [h]; decide
  have hc1 : ¬ (61 = c) := fun e => hc e.symm
  simp [opDoubledOrEqual, getCharAndSize_simple buf q h92, h, ConsumeChar_one, hc1]

/-- The case of `+` and `-`, when the character stands alone. -/
theorem opDoubledOrEqual_one (buf : List Nat) (L : Lexer) (R : Token) (q c : Nat)
    (doubled withEqual one : TokenKind) (h1 : rd buf q ≠ c) (h2 : rd buf q ≠ 61)
    (h92 : rd buf q ≠ 92) :
    opDoubledOrEqual buf L R q c doubled withEqual one = formAndReturn L R q one := by
  simp [opDoubledOrEqual, getCharAndSize_simple buf q h92, h1, h2]

/-- The case of `/`, when `=` follows. -/
theorem LexSwitch_slashequal (env : LexEnv) (buf : List Nat) (q : Nat) (R : Token) (t : Bool)
    (L : Lexer) (h : rd buf q = 61) :
    LexSwitch env buf 47 q R t L = formAndReturn L R (q + 1) TokenKind.slashequal := by
  have h92 : rd buf q ≠ 92 := by rw [h]; decide
  simp [LexSwitch, isDigit, isLetter, getCharAndSize_simple buf q h92, h, ConsumeChar_one]

/-- The case of `/`, when neither a comment nor `=` follows. -/
theorem LexSwitch_slash (env : LexEnv) (buf : List Nat) (q : Nat) (R : Token) (t : Bool)
    (L : Lexer) (h1 : rd buf q ≠ 47) (h2 : rd buf q ≠ 42) (h3 : rd buf q ≠ 61)
    (h92 : rd buf q ≠ 92) :
    LexSwitch env buf 47 q R t L = formAndReturn L R q TokenKind.slash := by
  simp [LexSwitch, isDigit, isLetter, getCharAndSize_simple buf q h92, h1, h2, h3]

/-- An operator case with one suffix, when the character that `getCharAndSize` reads next
is not the suffix: the one-byte token. -/
theorem opWithSuffix_one_char (buf : List Nat) (L : Lexer) (R : Token) (q c : Nat)
    (two one : TokenKind) (h : (getCharAndSize buf q).1 ≠ c) :
    opWithSuffix buf L R q c two one = formAndReturn L R q one := by
  simp [opWithSuffix, h]

/-- The case of `+` and `-`, when the character that `getCharAndSize` reads next neither
doubles the operator nor is `=`. -/
theorem opDoubledOrEqual_one_char (buf : List Nat) (L : Lexer) (R : Token) (q c : Nat)
    (doubled withEqual one : TokenKind) (h1 : (getCharAndSize buf q).1 ≠ c)
    (h2 : (getCharAndSize buf q).1 ≠ 61) :
    opDoubledOrEqual buf L R q c doubled withEqual one = formAndReturn L R q one := by
  simp [opDoubledOrEqual, h1, h2]

/-- The case of `/`, when the character that `getCharAndSize` reads next starts no comment
and is not `=`. -/
theorem LexSwitch_slash_char (env : LexEnv) (buf : List Nat) (q : Nat) (R : Token)
    (t : Bool) (L : Lexer) (h1 : (getCharAndSize buf q).1 ≠ 47)
    (h2 : (getCharAndSize buf q).1 ≠ 42) (h3 : (getCharAndSize buf q).1 ≠ 61) :
    LexSwitch env buf 47 q R t L = formAndReturn L R q TokenKind.slash := by
  simp [LexSwitch, isDigit, isLetter, h1, h2, h3]

/-- The switch at the first byte of an operator of the list: the token of that operator,
provided the character that `getCharAndSize` reads after a one-byte operator does not
complete a longer operator of the list and, after `/`, starts no comment. -/
theorem LexSwitch_operator (env : LexEnv) (buf : List Nat) (p : Nat) (R : Token) (t : Bool)
    (L : Lexer) (op : List Nat) (k : TokenKind)
    (hop : (op, k) ∈ operators)
    (hstart : op <+: buf.drop p)
    (hmax : ∀ x ∈ operators, op.length = 1 →
      x.1 ≠ op ++ [(getCharAndSize buf (p + 1)).1])
    (hcomment : op = [47] → (getCharAndSize buf (p + 1)).1 ≠ 47 ∧
      (getCharAndSize buf (p + 1)).1 ≠ 42) :
    LexSwitch env buf (rd buf p) (p + 1) R t L = formAndReturn L R (p + op.length) k := by
  have F : ∀ a b k1, ([a, b], k1) ∈ operators → op = [a] →
      (getCharAndSize buf (p + 1)).1 ≠ b := by
    intro a b k1 hm hopa hb
    refine hmax ([a, b], k1) hm (by rw [hopa]; rfl) ?_
    rw [hopa, hb]
    rfl
  simp only [operators, List.mem_cons, Prod.mk.injEq, List.not_mem_nil] at hop
  repeat' (first | exact hop.elim | obtain ⟨rfl, rfl⟩ | hop := hop)
  -- + ++ +=
  · rw [rd_of_prefix_one buf p _ hstart]
    exact opDoubledOrEqual_one_char buf L R (p + 1) 43 _ _ _
        (F 43 43 TokenKind.plusplus (by simp [operators]) rfl)
        (F 43 61 TokenKind.plusequal (by simp [operators]) rfl)
  · obtain ⟨h0, h1⟩ := rd_of_prefix_two buf p _ _ hstart
    rw [h0]
    exact opDoubledOrEqual_doubled buf L R (p + 1) 43 _ _ _ h1 (by decide)
  · obtain ⟨h0, h1⟩ := rd_of_prefix_two buf p _ _ hstart
    rw [h0]
    exact opDoubledOrEqual_equal buf L R (p + 1) 43 _ _ _ h1 (by decide)
  -- - -- -=
  · rw [rd_of_prefix_one buf p _ hstart]
    exact opDoubledOrEqual_one_char buf L R (p + 1) 45 _ _ _
        (F 45 45 TokenKind.minusminus (by simp [operators]) rfl)
        (F 45 61 TokenKind.minusequal (by simp [operators]) rfl)
  · obtain ⟨h0, h1⟩ := rd_of_prefix_two buf p _ _ hstart
    rw [h0]
    exact opDoubledOrEqual_doubled buf L R (p + 1) 45 _ _ _ h1 (by decide)
  · obtain ⟨h0, h1⟩ := rd_of_prefix_two buf p _ _ hstart
    rw [h0]
    exact opDoubledOrEqual_equal buf L R (p + 1) 45 _ _ _ h1 (by decide)
  -- * *=
  · rw [rd_of_prefix_one buf p _ hstart]
    exact opWithSuffix_one_char buf L R (p + 1) 61 _ _
      (F 42 61 TokenKind.starequal (by simp [operators]) rfl)
  · obtain ⟨h0, h1⟩ := rd_of_prefix_two buf p _ _ hstart
    rw [h0]
    exact opWithSuffix_two buf L R (p + 1) 61 _ _ h1 (by decide)
  -- / /=
  · rw [rd_of_prefix_one buf p _ hstart]
    exact LexSwitch_slash_char env buf (p + 1) R t L (hcomment rfl).1 (hcomment rfl).2
      (F 47 61 TokenKind.slashequal (by simp [operators]) rfl)
  · obtain ⟨h0, h1⟩ := rd_of_prefix_two buf p _ _ hstart
    rw [h0]
    exact LexSwitch_slashequal env buf (p + 1) R t L h1
  -- % %=
  · rw [rd_of_prefix_one buf p _ hstart]
    exact opWithSuffix_one_char buf L R (p + 1) 61 _ _
      (F 37 61 TokenKind.percentequal (by simp [operators]) rfl)
  · obtain ⟨h0, h1⟩ := rd_of_prefix_two buf p _ _ hstart
    rw [h0]
    exact opWithSuffix_two buf L R (p + 1) 61 _ _ h1 (by decide)
  -- < <=
  · rw [rd_of_prefix_one buf p _ hstart]
    exact opWithSuffix_one_char buf L R (p + 1) 61 _ _
      (F 60 61 TokenKind.lessequal (by simp [operators]) rfl)
  · obtain ⟨h0, h1⟩ := rd_of_prefix_two buf p _ _ hstart
    rw [h0]
    exact opWithSuffix_two buf L R (p + 1) 61 _ _ h1 (by decide)
  -- > >=
  · rw [rd_of_prefix_one buf p _ hstart]
    exact opWithSuffix_one_char buf L R (p + 1) 61 _ _
      (F 62 61 TokenKind.greaterequal (by simp [operators]) rfl)
  · obtain ⟨h0, h1⟩ := rd_of_prefix_two buf p _ _ hstart
    rw [h0]
    exact opWithSuffix_two buf L R (p + 1) 61 _ _ h1 (by decide)
  -- = ==
  · rw [rd_of_prefix_one buf p _ hstart]
    exact opWithSuffix_one_char buf L R (p + 1) 61 _ _
      (F 61 61 TokenKind.equalequal (by simp [operators]) rfl)
  · obtain ⟨h0, h1⟩ := rd_of_prefix_two buf p _ _ hstart
    rw [h0]
    exact opWithSuffix_two buf L R (p + 1) 61 _ _ h1 (by decide)
  -- ! !=
  · rw [rd_of_prefix_one buf p _ hstart]
    exact opWithSuffix_one_char buf L R (p + 1) 61 _ _
      (F 33 61 TokenKind.exclaimequal (by simp [operators]) rfl)
  · obtain ⟨h0, h1⟩ := rd_of_prefix_two buf p _ _ hstart
    rw [h0]
    exact opWithSuffix_two buf L R (p + 1) 61 _ _ h1 (by decide)
  -- && || ~=
  · obtain ⟨h0, h1⟩ := rd_of_prefix_two buf p _ _ hstart
    rw [h0]
    exact opWithSuffix_two buf L R (p + 1) 38 _ _ h1 (by decide)
  · obtain ⟨h0, h1⟩ := rd_of_prefix_two buf p _ _ hstart
    rw [h0]
    exact opWithSuffix_two buf L R (p + 1) 124 _ _ h1 (by decide)
  · obtain ⟨h0, h1⟩ := rd_of_prefix_two buf p _ _ hstart
    rw [h0]
    exact opWithSuffix_two buf L R (p + 1) 61 _ _ h1 (by decide)

/-- The first byte of an operator of the list is neither a space, a tab nor a backslash. -/
theorem operator_first_byte (buf : List Nat) (p : Nat) (op : List Nat) (k : TokenKind)
    (hop : (op, k) ∈ operators) (hstart : op <+: buf.drop p) :
    rd buf p ≠ 32 ∧ rd buf p ≠ 9 ∧ rd buf p ≠ 92 := by
  have H : ∀ a rest, op = a :: rest → rd buf p = a := by
    intro a rest h
    obtain ⟨t, ht⟩ := hstart
    rw [h] at ht
    exact (rd_of_drop buf p a (rest ++ t) (by simpa using ht.symm)).1
  simp only [operators, List.mem_cons, Prod.mk.injEq, List.not_mem_nil] at hop
  (repeat' (first | exact hop.elim | obtain ⟨rfl, rfl⟩ | hop := hop)) <;>
  · rw [H _ _ rfl]
    decide

/-- C11, amended: for each operator `op` of the list `+ ++ += - -- -= * *= / /= % %= < <=
> >= = == ! != && || ~=`, when the bytes at the cursor start with `op`, no longer operator
of the list continues `op` (for a one-byte `op`, the character that the lexer reads next
through `getCharAndSize`, which is the next byte or the character after an escaped newline,
is not the second byte of an operator of the list that begins with `op`), and after `/`
that character is not `/` or `*` (the start of a comment), `Lex` returns true with one
token whose kind is the kind of `op`, which starts at the cursor and whose length is the
length of `op`. -/
theorem Lex_operator_maximal_munch (env : LexEnv) (buf : List Nat) (L : Lexer) (fuel : Nat)
    (op : List Nat) (k : TokenKind)
    (hop : (op, k) ∈ operators)
    (hstart : op <+: buf.drop L.BufferPtr)
    (hmax : ∀ x ∈ operators, op.length = 1 →
      x.1 ≠ op ++ [(getCharAndSize buf (L.BufferPtr + 1)).1])
    (hcomment : op = [47] → (getCharAndSize buf (L.BufferPtr + 1)).1 ≠ 47 ∧
      (getCharAndSize buf (L.BufferPtr + 1)).1 ≠ 42) :
    ∃ tok L', Lex env buf (fuel + 1) L = some (true, tok, L') ∧
      tok.Kind = k ∧ tok.Loc = some L.BufferPtr ∧ tok.Length = op.length ∧
      L'.BufferPtr = L.BufferPtr + op.length := by
  obtain ⟨h32, h9, h92⟩ := operator_first_byte buf L.BufferPtr op k hop hstart
  have hsw := LexSwitch_operator env buf L.BufferPtr
    { LexStartToken L with NeedsCleaning := false, PtrData := none }
    L.IsAtPhysicalStartOfLine (LexStartState L) op k hop hstart hmax hcomment
  refine ⟨_, _, Lex_of_switch_done env buf fuel L _ h32 h9 h92 hsw, rfl, rfl, ?_, rfl⟩
  show L.BufferPtr + op.length - L.BufferPtr = op.length
  omega

/-- The instances of amended C11 at `+++`: at offset 0 the token is plusplus of length 2, and
at offset 2 it is plus of length 1; at `+`, backslash, `x`, where the backslash is an
ordinary byte; and at `+`, backslash, line feed, `x`, where the character read after the
escaped newline is `x`: the token is plus of length 1. -/
theorem Lex_operator_maximal_munch_witness :
    (∃ tok L', Lex ⟨TokenKind.unknown, fun _ _ => none⟩ [43, 43, 43] (0 + 1)
        ⟨0, true, true, false, false⟩ = some (true, tok, L') ∧
      tok.Kind = TokenKind.plusplus ∧ tok.Loc = some 0 ∧ tok.Length = [43, 43].length ∧
      L'.BufferPtr = 0 + [43, 43].length) ∧
    (∃ tok L', Lex ⟨TokenKind.unknown, fun _ _ => none⟩ [43, 43, 43] (0 + 1)
        ⟨2, false, false, false, false⟩ = some (true, tok, L') ∧
      tok.Kind = TokenKind.plus ∧ tok.Loc = some 2 ∧ tok.Length = [43].length ∧
      L'.BufferPtr = 2 + [43].length) ∧
    (∃ tok L', Lex ⟨TokenKind.unknown, fun _ _ => none⟩ [43, 92, 120] (0 + 1)
        ⟨0, true, true, false, false⟩ = some (true, tok, L') ∧
      tok.Kind = TokenKind.plus ∧ tok.Loc = some 0 ∧ tok.Length = [43].length ∧
      L'.BufferPtr = 0 + [43].length) ∧
    (∃ tok L', Lex ⟨TokenKind.unknown, fun _ _ => none⟩ [43, 92, 10, 120] (0 + 1)
        ⟨0, true, true, false, false⟩ = some (true, tok, L') ∧
      tok.Kind = TokenKind.plus ∧ tok.Loc = some 0 ∧ tok.Length = [43].length ∧
      L'.BufferPtr = 0 + [43].length) :=
  ⟨Lex_operator_maximal_munch ⟨TokenKind.unknown, fun _ _ => none⟩ [43, 43, 43]
      ⟨0, true, true, false, false⟩ 0 [43, 43] TokenKind.plusplus (by decide)
      ⟨[43], rfl⟩ (by decide) (by decide),
   Lex_operator_maximal_munch ⟨TokenKind.unknown, fun _ _ => none⟩ [43, 43, 43]
      ⟨2, false, false, false, false⟩ 0 [43] TokenKind.plus (by decide)
      ⟨[], rfl⟩ (by decide) (by decide),
   Lex_operator_maximal_munch ⟨TokenKind.unknown, fun _ _ => none⟩ [43, 92, 120]
      ⟨0, true, true, false, false⟩ 0 [43] TokenKind.plus (by decide)
      ⟨[92, 120], rfl⟩ (by decide) (by decide),
   Lex_operator_maximal_munch ⟨TokenKind.unknown, fun _ _ => none⟩ [43, 92, 10, 120]
      ⟨0, true, true, false, false⟩ 0 [43] TokenKind.plus (by decide)
      ⟨[92, 10, 120], rfl⟩ (by decide) (by decide)⟩

/-- Counterexample to C11 as stated. The buffer `/*` starts with the operator `/` and with
no longer operator of the list, yet the token `Lex` returns is end-of-file, not slash; and
the buffer `+`, backslash, line feed, `+` starts with `+` and with no longer operator, yet
the token is plusplus of length 4, not plus of length 1. -/
theorem Lex_operator_counterexample :
    (([47], TokenKind.slash) ∈ operators ∧ [47] <+: [47, 42].drop 0 ∧
      (∀ x ∈ operators, [47].length < x.1.length → ¬ x.1 <+: [47, 42].drop 0) ∧
      (∃ tok L', Lex ⟨TokenKind.unknown, fun _ _ => none⟩ [47, 42] 3
          ⟨0, true, true, false, false⟩ = some (true, tok, L') ∧
        tok.Kind = TokenKind.eof ∧ tok.Length = 0) ∧
      ¬ (∃ tok L', Lex ⟨TokenKind.unknown, fun _ _ => none⟩ [47, 42] 3
          ⟨0, true, true, false, false⟩ = some (true, tok, L') ∧
        tok.Kind = TokenKind.slash)) ∧
    (([43], TokenKind.plus) ∈ operators ∧ [43] <+: [43, 92, 10, 43].drop 0 ∧
      (∀ x ∈ operators, [43].length < x.1.length → ¬ x.1 <+: [43, 92, 10, 43].drop 0) ∧
      (∃ tok L', Lex ⟨TokenKind.unknown, fun _ _ => none⟩ [43, 92, 10, 43] 3
          ⟨0, true, true, false, false⟩ = some (true, tok, L') ∧
        tok.Kind = TokenKind.plusplus ∧ tok.Length = 4) ∧
      ¬ (∃ tok L', Lex ⟨TokenKind.unknown, fun _ _ => none⟩ [43, 92, 10, 43] 3
          ⟨0, true, true, false, false⟩ = some (true, tok, L') ∧
        tok.Kind = TokenKind.plus)) := by
  refine ⟨⟨by decide, ⟨[42], rfl⟩, by decide, ⟨_, _, rfl, rfl, rfl⟩, ?_⟩,
    ⟨by decide, ⟨[92, 10, 43], rfl⟩, by decide, ⟨_, _, rfl, rfl, rfl⟩, ?_⟩⟩
  · rintro ⟨tok, L', h, hk⟩
    have h2 : Lex ⟨TokenKind.unknown, fun _ _ => none⟩ [47, 42] 3
        ⟨0, true, true, false, false⟩ =
        some (true, { Token.startToken with Kind := TokenKind.eof, Loc := some 2,
                                            Length := 0, StartOfLine := true },
          ⟨2, false, false, false, false⟩) := rfl
    rw [h2] at h
    injection h with h
    injection h with _ h
    injection h with h _
    rw [← h] at hk
    exact TokenKind.noConfusion hk
  · rintro ⟨tok, L', h, hk⟩
    have h2 : Lex ⟨TokenKind.unknown, fun _ _ => none⟩ [43, 92, 10, 43] 3
        ⟨0, true, true, false, false⟩ =
        some (true, { Token.startToken with Kind := TokenKind.plusplus, Loc := some 0,
                                            Length := 4, StartOfLine := true,
                                            NeedsCleaning := true },
          ⟨4, false, false, false, false⟩) := rfl
    rw [h2] at h
    injection h with h
    injection h with _ h
    injection h with h _
    rw [← h] at hk
    exact TokenKind.noConfusion hk

/-! ## Comments -/

/-- With the cursor at `/*` followed by a byte that is neither NUL nor a backslash,
`LexTokenInternal` comes back to its first label in the state it started from
(`SkipBlockComment` returns false without moving `BufferPtr`), so it returns for no amount
of fuel. -/
theorem LexTokenInternal_block_comment_none (env : LexEnv) (buf : List Nat) (L : Lexer)
    (h0 : rd buf L.BufferPtr = 47) (h1 : rd buf (L.BufferPtr + 1) = 42)
    (h2 : rd buf (L.BufferPtr + 2) ≠ 0) (h3 : rd buf (L.BufferPtr + 2) ≠ 92) :
    ∀ (fuel : Nat) (R : Token) (t : Bool),
      LexTokenInternal env buf fuel Label.LexNextToken R t L = none := by
  have h32 : rd buf L.BufferPtr ≠ 32 := by rw [h0]; decide
  have h9 : rd buf L.BufferPtr ≠ 9 := by rw [h0]; decide
  have h92 : rd buf L.BufferPtr ≠ 92 := by rw [h0]; decide
  have hd1 : rd buf (L.BufferPtr + 1) ≠ 92 := by rw [h1]; decide
  have h2a : rd buf (L.BufferPtr + 1 + 1) ≠ 0 := h2
  have h3a : rd buf (L.BufferPtr + 1 + 1) ≠ 92 := h3
  have hsw : ∀ (R : Token) (t : Bool), LexSwitch env buf 47 (L.BufferPtr + 1) R t L =
      Step.jump Label.LexNextToken R t L := by
    intro R t
    simp [LexSwitch, isDigit, isLetter, getCharAndSize_simple buf _ hd1, h1, ConsumeChar_one,
      SkipBlockComment, getCharAndSize_simple buf _ h3a, h2a]
  intro fuel
  induction fuel with
  | zero => intro R t; rfl
  | succ n ih =>
    intro R t
    have hs := LexTokenInternalStep_at_char env buf R t L h32 h9 h92
    rw [h0, hsw] at hs
    simp only [LexTokenInternal, hs]
    exact ih _ _

/-- C13 (the claim: a line comment or a block comment before a token is skipped and `Lex`
returns that token). The code breaks it: with the cursor at `//`, `Lex` never leaves
`SkipLineComment`, and with the cursor at `/*` followed by at least one byte of comment,
`SkipBlockComment` returns false without moving `BufferPtr` and `LexTokenInternal` restarts
at the same `/*` for ever; in both cases `Lex` returns for no amount of fuel. -/
theorem Lex_comment_never_returns (env : LexEnv) (buf : List Nat) (L : Lexer)
    (h0 : rd buf L.BufferPtr = 47)
    (h1 : rd buf (L.BufferPtr + 1) = 47 ∨
      (rd buf (L.BufferPtr + 1) = 42 ∧ rd buf (L.BufferPtr + 2) ≠ 0 ∧
        rd buf (L.BufferPtr + 2) ≠ 92)) :
    ∀ fuel : Nat, Lex env buf fuel L = none := by
  intro fuel
  rcases h1 with h1 | ⟨h1, h2, h3⟩
  · cases fuel with
    | zero => rfl
    | succ n =>
      simp [Lex, LexTokenInternal, LexTokenInternalStep, h0, h1, getAndAdvancedChar,
        isObviouslySimpleCharacter, LexSwitch, getCharAndSize, ConsumeChar,
        SkipLineComment_none, isDigit, isLetter]
  · rw [Lex_eq_LexTokenInternal]
    exact LexTokenInternal_block_comment_none env buf (LexStartState L) h0 h1 h2 h3 fuel _ _

/-- The instances of C13 at the line comment `//` before a line feed and `+`, and at the
block comment `/**/` before `+`, each with a thousand units of fuel. -/
theorem Lex_comment_never_returns_witness :
    Lex ⟨TokenKind.unknown, fun _ _ => none⟩ [47, 47, 10, 43] 1000
      ⟨0, true, true, false, false⟩ = none ∧
    Lex ⟨TokenKind.unknown, fun _ _ => none⟩ [47, 42, 42, 47, 43] 1000
      ⟨0, true, true, false, false⟩ = none :=
  ⟨Lex_comment_never_returns ⟨TokenKind.unknown, fun _ _ => none⟩ [47, 47, 10, 43]
      ⟨0, true, true, false, false⟩ (by decide) (Or.inl (by decide)) 1000,
   Lex_comment_never_returns ⟨TokenKind.unknown, fun _ _ => none⟩ [47, 42, 42, 47, 43]
      ⟨0, true, true, false, false⟩ (by decide)
      (Or.inr ⟨by decide, by decide, by decide⟩) 1000⟩

/-! ## Bytes that are not ASCII -/

/-- The `default` case of the switch at a byte that is not ASCII: the decoded sequence goes
to `LexUnicode`, and a sequence that does not decode moves `BufferPtr` one byte past the
offending byte and restarts at `LexNextToken`. -/
theorem LexSwitch_non_ascii (env : LexEnv) (buf : List Nat) (C CurPtr : Nat) (R : Token)
    (t : Bool) (L : Lexer) (h : isASCII C = false) :
    LexSwitch env buf C CurPtr R t L =
      match env.convertUTF8Sequence buf (CurPtr - 1) with
      | some (cp, q) => Step.done (some (LexUnicode L R cp q))
      | none => Step.jump Label.LexNextToken R t { L with BufferPtr := CurPtr - 1 + 1 } := by
  have hC : 128 ≤ C := by
    simp only [isASCII, decide_eq_false_iff_not, not_le] at h
    omega
  have e : ∀ k : Nat, k < 128 → (C == k) = false := by
    intro k hk
    simp only [beq_eq_false_iff_ne, ne_eq]
    omega
  have hd : isDigit C = false := by
    simp only [isDigit, Bool.and_eq_false_imp, decide_eq_true_eq, decide_eq_false_iff_not]
    omega
  have hl : isLetter C = false := by
    simp only [isLetter, Bool.or_eq_false_iff, Bool.and_eq_false_imp, decide_eq_true_eq,
      decide_eq_false_iff_not]
    omega
  simp only [LexSwitch, e 0 (by decide), e 13 (by decide), e 10 (by decide),
    e 32 (by decide), e 9 (by decide), e 12 (by decide), e 11 (by decide), hd, hl,
    e 95 (by decide), e 39 (by decide), e 34 (by decide), e 63 (by decide),
    e 91 (by decide), e 93 (by decide), e 40 (by decide), e 41 (by decide),
    e 123 (by decide), e 125 (by decide), e 46 (by decide), e 38 (by decide),
    e 42 (by decide), e 43 (by decide), e 45 (by decide), e 126 (by decide),
    e 33 (by decide), e 47 (by decide), e 37 (by decide), e 60 (by decide),
    e 62 (by decide), e 124 (by decide), e 58 (by decide), e 59 (by decide),
    e 61 (by decide), e 44 (by decide), h, Bool.or_self, Bool.false_eq_true, if_false,
    CheckUnicodeWhitespace]

/-- At a byte that is not ASCII and starts a sequence that decodes, `Lex` returns the token
of kind unknown that spans the sequence. -/
theorem Lex_at_decoded (env : LexEnv) (buf : List Nat) (L : Lexer) (fuel cp q : Nat)
    (hna : isASCII (rd buf L.BufferPtr) = false)
    (hdec : env.convertUTF8Sequence buf L.BufferPtr = some (cp, q)) :
    Lex env buf (fuel + 1) L = some (true,
      { LexStartToken L with Length := q - L.BufferPtr, Loc := some L.BufferPtr,
                             Kind := TokenKind.unknown },
      { LexStartState L with BufferPtr := q }) := by
  have hC : 128 ≤ rd buf L.BufferPtr := by
    simp only [isASCII, decide_eq_false_iff_not, not_le] at hna
    omega
  apply Lex_of_switch_done env buf fuel L _ (by omega) (by omega) (by omega)
  rw [LexSwitch_non_ascii env buf _ _ _ _ _ hna]
  have hb : (LexStartState L).BufferPtr = L.BufferPtr := rfl
  simp only [Nat.add_sub_cancel, hdec]
  rfl

/-- C14 (the claim: a non-ASCII sequence that decodes to a Unicode whitespace code point
yields no token and is skipped as horizontal whitespace). The code breaks it:
`CheckUnicodeWhitespace` answers false for every code point, so for whatever code point the
bytes at the cursor decode to, `Lex` returns true with a token of kind unknown that spans
the sequence. -/
theorem Lex_decoded_whitespace_emits_unknown (env : LexEnv) (buf : List Nat) (L : Lexer)
    (fuel cp q : Nat) (hna : isASCII (rd buf L.BufferPtr) = false)
    (hdec : env.convertUTF8Sequence buf L.BufferPtr = some (cp, q)) :
    (∀ (R : Token) (p : Nat), CheckUnicodeWhitespace R cp p = false) ∧
    ∃ tok L', Lex env buf (fuel + 1) L = some (true, tok, L') ∧
      tok.Kind = TokenKind.unknown ∧ tok.Loc = some L.BufferPtr ∧
      tok.Length = q - L.BufferPtr ∧ L'.BufferPtr = q :=
  ⟨fun _ _ => rfl, _, _, Lex_at_decoded env buf L fuel cp q hna hdec, rfl, rfl, rfl, rfl⟩

/-- The instance of C14 at the no-break space U+00A0 (bytes `C2 A0`) followed by `+`: the
token is the unknown token of the two bytes, not the `+` after them. -/
theorem Lex_decoded_whitespace_emits_unknown_witness :
    isASCII (rd [194, 160, 43] 0) = false ∧
    decodeNBSP [194, 160, 43] 0 = some (160, 2) ∧
    (∀ (R : Token) (p : Nat), CheckUnicodeWhitespace R 160 p = false) ∧
    ∃ tok L', Lex ⟨TokenKind.unknown, decodeNBSP⟩ [194, 160, 43] (0 + 1)
        ⟨0, true, true, false, false⟩ = some (true, tok, L') ∧
      tok.Kind = TokenKind.unknown ∧ tok.Loc = some 0 ∧ tok.Length = 2 - 0 ∧
      L'.BufferPtr = 2 :=
  ⟨by decide, by decide,
   Lex_decoded_whitespace_emits_unknown ⟨TokenKind.unknown, decodeNBSP⟩ [194, 160, 43]
     ⟨0, true, true, false, false⟩ 0 160 2 (by decide) (by decide)⟩

/-- C15, amended: at a byte that is not ASCII, a sequence that decodes under strict UTF-8 to
a code point that is not Unicode whitespace (whatever the set `UnicodeWhitespaceChars` of
such code points is) gives a token of kind unknown that spans the whole sequence, with
result true; a sequence that does not decode gives no token of its own: the offending byte
is dropped and `Lex` goes on as when it is called one byte further on. -/
theorem Lex_non_ascii (env : LexEnv) (buf : List Nat) (L : Lexer) (fuel : Nat)
    (UnicodeWhitespaceChars : Nat → Bool)
    (hna : isASCII (rd buf L.BufferPtr) = false) :
    (∀ cp q, env.convertUTF8Sequence buf L.BufferPtr = some (cp, q) →
      UnicodeWhitespaceChars cp = false →
      ∃ tok L', Lex env buf (fuel + 1) L = some (true, tok, L') ∧
        tok.Kind = TokenKind.unknown ∧ tok.Loc = some L.BufferPtr ∧
        tok.Length = q - L.BufferPtr ∧ L'.BufferPtr = q) ∧
    (env.convertUTF8Sequence buf L.BufferPtr = none →
      Lex env buf (fuel + 2) L =
        Lex env buf (fuel + 1) { L with BufferPtr := L.BufferPtr + 1 }) := by
  refine ⟨fun cp q hdec _ =>
    ⟨_, _, Lex_at_decoded env buf L fuel cp q hna hdec, rfl, rfl, rfl, rfl⟩, ?_⟩
  intro hdec
  have hC : 128 ≤ rd buf L.BufferPtr := by
    simp only [isASCII, decide_eq_false_iff_not, not_le] at hna
    omega
  rw [Lex_eq_LexTokenInternal, Lex_eq_LexTokenInternal]
  have hs := LexTokenInternalStep_at_char env buf (LexStartToken L) L.IsAtPhysicalStartOfLine
    (LexStartState L) (by show rd buf L.BufferPtr ≠ 32; omega)
    (by show rd buf L.BufferPtr ≠ 9; omega) (by show rd buf L.BufferPtr ≠ 92; omega)
  have hb : (LexStartState L).BufferPtr = L.BufferPtr := rfl
  rw [hb, LexSwitch_non_ascii env buf _ _ _ _ _ hna] at hs
  simp only [Nat.add_sub_cancel, hdec] at hs
  rw [LexTokenInternal, hs]
  rfl

/-- The instances of amended C15 at the letter e with an acute accent, U+00E9 (bytes
`C3 A9`, which decode to a code point that is not whitespace), and at the byte `FF`, which
starts no UTF-8 sequence, each followed by `+`. -/
theorem Lex_non_ascii_witness :
    isASCII (rd [195, 169, 43] 0) = false ∧
    decodeTwoBytes [195, 169, 43] 0 = some (233, 2) ∧
    exampleUnicodeWhitespace 233 = false ∧
    (∃ tok L', Lex ⟨TokenKind.unknown, decodeTwoBytes⟩ [195, 169, 43] (0 + 1)
        ⟨0, true, true, false, false⟩ = some (true, tok, L') ∧
      tok.Kind = TokenKind.unknown ∧ tok.Loc = some 0 ∧ tok.Length = 2 - 0 ∧
      L'.BufferPtr = 2) ∧
    isASCII (rd [255, 43] 0) = false ∧
    decodeTwoBytes [255, 43] 0 = none ∧
    Lex ⟨TokenKind.unknown, decodeTwoBytes⟩ [255, 43] (0 + 2) ⟨0, true, true, false, false⟩ =
      Lex ⟨TokenKind.unknown, decodeTwoBytes⟩ [255, 43] (0 + 1)
        ⟨0 + 1, true, true, false, false⟩ :=
  ⟨by decide, by decide, by decide,
   (Lex_non_ascii ⟨TokenKind.unknown, decodeTwoBytes⟩ [195, 169, 43]
     ⟨0, true, true, false, false⟩ 0 exampleUnicodeWhitespace (by decide)).1 233 2
     (by decide) (by decide),
   by decide, by decide,
   (Lex_non_ascii ⟨TokenKind.unknown, decodeTwoBytes⟩ [255, 43]
     ⟨0, true, true, false, false⟩ 0 exampleUnicodeWhitespace (by decide)).2 (by decide)⟩

/-- The counterexample to C15 as stated: at the byte `FF`, which does not decode, followed
by `+`, `Lex` returns the token `+` at offset 1; no token of kind unknown is formed for the
offending byte. -/
theorem Lex_invalid_utf8_no_unknown_token :
    isASCII (rd [255, 43] 0) = false ∧ decodeNBSP [255, 43] 0 = none ∧
    ∃ tok L', Lex ⟨TokenKind.unknown, decodeNBSP⟩ [255, 43] 2
        ⟨0, true, true, false, false⟩ = some (true, tok, L') ∧
      tok.Kind = TokenKind.plus ∧ tok.Kind ≠ TokenKind.unknown ∧ tok.Loc = some 1 ∧
      tok.Length = 1 ∧ L'.BufferPtr = 2 :=
  ⟨by decide, by decide, _, _, rfl, rfl, by decide, rfl, rfl, rfl⟩

/-! ## Stacked escaped newlines -/

/-- The byte at `p` is the head of `buf.drop p`, the sentinel when nothing is left. -/
theorem rd_eq_headD_drop (buf : List Nat) (p : Nat) (t : List Nat) (h : buf.drop p = t) :
    rd buf p = t.headD 0 := by
  cases t with
  | nil =>
    have hle : buf.length ≤ p := by
      by_contra hc
      have := List.drop_eq_nil_iff.mp h
      omega
    rw [rd_of_length_le buf p hle]
    rfl
  | cons c t => exact (rd_of_drop buf p c t h).1

/-- Horizontal whitespace is whitespace and is neither a line feed nor a carriage
return. -/
theorem isHorizontalWhitespace_facts (x : Nat) (h : isHorizontalWhitespace x = true) :
    isWhitespace x = true ∧ x ≠ 10 ∧ x ≠ 13 := by
  simp only [isHorizontalWhitespace, Bool.or_eq_true, beq_iff_eq] at h
  refine ⟨?_, ?_, ?_⟩
  · simp only [isWhitespace, isHorizontalWhitespace, Bool.or_eq_true, beq_iff_eq]
    exact Or.inl h
  · omega
  · omega

/-- What `getEscapedNewLineSize` measures after the backslash: over horizontal whitespace
`w` and one line feed that no carriage return follows, the loop returns `w.length + 1`
more than the size it started from. -/
theorem getEscapedNewLineSizeLoop_run (buf : List Nat) (Ptr : Nat) (tl : List Nat)
    (htl : tl.headD 0 ≠ 13) :
    ∀ (w : List Nat) (n Size : Nat), buf.drop (Ptr + Size) = w ++ 10 :: tl →
      (∀ x ∈ w, isHorizontalWhitespace x = true) → w.length < n →
      getEscapedNewLineSizeLoop buf Ptr n Size = Size + w.length + 1 := by
  intro w
  induction w with
  | nil =>
    intro n Size hd _ hn
    obtain ⟨m, rfl⟩ : ∃ m, n = m + 1 := ⟨n - 1, by simp at hn; omega⟩
    obtain ⟨h0, h1, _⟩ := rd_of_drop buf (Ptr + Size) 10 tl (by simpa using hd)
    have h2 : rd buf (Ptr + (Size + 1)) = tl.headD 0 :=
      rd_eq_headD_drop buf _ tl (by rw [← Nat.add_assoc]; exact h1)
    have h3 : rd buf (Ptr + (Size + 1) - 1) = 10 := by
      rw [show Ptr + (Size + 1) - 1 = Ptr + Size by omega]; exact h0
    have hw : isWhitespace (rd buf (Ptr + Size)) = true := by rw [h0]; decide
    obtain ⟨c, hc⟩ : ∃ c, c = tl.headD 0 := ⟨_, rfl⟩
    rw [← hc] at h2 htl
    simp only [getEscapedNewLineSizeLoop, hw, if_true, h3, h2, List.length_nil]
    by_cases hten : c = 10
    · simp [hten]
    · simp [hten, htl]
  | cons x w ih =>
    intro n Size hd hw hn
    obtain ⟨m, rfl⟩ : ∃ m, n = m + 1 := ⟨n - 1, by simp at hn; omega⟩
    obtain ⟨h0, h1, _⟩ := rd_of_drop buf (Ptr + Size) x (w ++ 10 :: tl) (by simpa using hd)
    obtain ⟨hxw, hx10, hx13⟩ := isHorizontalWhitespace_facts x (hw x (by simp))
    have h1a : buf.drop (Ptr + (Size + 1)) = w ++ 10 :: tl := by
      rw [← Nat.add_assoc]; exact h1
    have h2 : rd buf (Ptr + (Size + 1)) ≠ 13 := by
      rw [rd_eq_headD_drop buf _ _ h1a]
      cases w with
      | nil => simp
      | cons y w => exact (isHorizontalWhitespace_facts y (hw y (by simp))).2.2
    have h3 : rd buf (Ptr + (Size + 1) - 1) ≠ 10 := by
      rw [show Ptr + (Size + 1) - 1 = Ptr + Size by omega, h0]; exact hx10
    have hws : isWhitespace (rd buf (Ptr + Size)) = true := by rw [h0]; exact hxw
    have hx10a : rd buf (Ptr + Size) ≠ 10 := by rw [h0]; exact hx10
    have hstep : getEscapedNewLineSizeLoop buf Ptr (m + 1) Size =
        getEscapedNewLineSizeLoop buf Ptr m (Size + 1) := by
      simp [getEscapedNewLineSizeLoop, hws, h2, hx10a]
    rw [hstep, ih m (Size + 1) h1a (fun y hy => hw y (by simp [hy]))
      (by simp at hn; omega)]
    simp only [List.length_cons]
    omega

/-- Flagging a token `NeedsCleaning` twice is flagging it once. -/
theorem setNeedsCleaning_idem (Tok : Option Token) :
    setNeedsCleaning (setNeedsCleaning Tok) = setNeedsCleaning Tok := by
  cases Tok <;> rfl

/-- The recursion of `getCharAndSizeSlow` over a stack of escaped newlines: with enough
depth it returns the character after the stack, adds the bytes of the stack and one to
`Size`, and flags the token when the stack is not empty. -/
theorem getCharAndSizeSlowRec_escaped (buf tail : List Nat)
    (h92 : tail.headD 0 ≠ 92) (hcw : isWhitespace (tail.headD 0) = false) :
    ∀ (ws : List (List Nat)) (n Ptr Size : Nat) (Tok : Option Token),
      buf.drop Ptr = escapedNewLines ws ++ tail →
      (∀ w ∈ ws, ∀ x ∈ w, isHorizontalWhitespace x = true) →
      (escapedNewLines ws).length < n + 1 →
      getCharAndSizeSlowRec buf n Ptr Size Tok =
        (tail.headD 0, Size + (escapedNewLines ws).length + 1,
          if ws = [] then Tok else setNeedsCleaning Tok) := by
  intro ws
  induction ws with
  | nil =>
    intro n Ptr Size Tok hd _ _
    have h0 : rd buf Ptr = tail.headD 0 := rd_eq_headD_drop buf Ptr tail (by simpa using hd)
    have hne : (rd buf Ptr == 92) = false := by
      rw [h0, beq_eq_false_iff_ne]; exact h92
    rw [← h0]
    cases n with
    | zero => simp [getCharAndSizeSlowRec, escapedNewLines]
    | succ m => simp [getCharAndSizeSlowRec, hne, escapedNewLines]
  | cons w ws ih =>
    intro n Ptr Size Tok hd hws hn
    obtain ⟨m, rfl⟩ : ∃ m, n = m + 1 := ⟨n - 1, by simp [escapedNewLines] at hn; omega⟩
    have hd1 : buf.drop Ptr = 92 :: (w ++ 10 :: (escapedNewLines ws ++ tail)) := by
      rw [hd]; simp [escapedNewLines]
    obtain ⟨h0, h1, _⟩ := rd_of_drop buf Ptr 92 _ hd1
    have hhd : (escapedNewLines ws ++ tail).headD 0 ≠ 13 := by
      cases ws with
      | nil =>
        simp only [escapedNewLines, List.nil_append]
        intro h13
        rw [h13] at hcw
        exact absurd hcw (by decide)
      | cons v vs => simp [escapedNewLines]
    have hlen : w.length + 1 ≤ buf.length - (Ptr + 1) := by
      have := congrArg List.length h1
      simp only [List.length_drop, List.length_append, List.length_cons] at this
      omega
    have hsize : getEscapedNewLineSize buf (Ptr + 1) = w.length + 1 := by
      have := getEscapedNewLineSizeLoop_run buf (Ptr + 1) _ hhd w
        (buf.length + 1 - (Ptr + 1)) 0 (by simpa using h1)
        (fun x hx => hws w (by simp) x hx) (by omega)
      simpa [getEscapedNewLineSize] using this
    have hw1 : isWhitespace (rd buf (Ptr + 1)) = true := by
      rw [rd_eq_headD_drop buf _ _ h1]
      cases w with
      | nil => rfl
      | cons y w =>
        exact (isHorizontalWhitespace_facts y (hws (y :: w) (by simp) y (by simp))).1
    have hd2 : buf.drop (Ptr + 1 + (w.length + 1)) = escapedNewLines ws ++ tail := by
      rw [← List.drop_drop, h1]
      simp
    have hrec := ih m (Ptr + 1 + (w.length + 1)) (Size + 1 + (w.length + 1))
      (setNeedsCleaning Tok) hd2 (fun v hv => hws v (by simp [hv]))
      (by simp [escapedNewLines] at hn; omega)
    simp only [getCharAndSizeSlowRec, h0, beq_self_eq_true, if_true, hw1, Bool.not_true,
      Bool.false_eq_true, if_false, hsize, bne_iff_ne, ne_eq, Nat.add_one_ne_zero,
      not_false_eq_true, hrec, setNeedsCleaning_idem]
    simp only [escapedNewLines, List.length_cons, List.length_append, reduceCtorEq, if_false,
      ite_self]
    congr 2
    omega

/-- C17: when `Ptr` points at `n` stacked escaped newlines (each a backslash, horizontal
whitespace `w`, one line feed; `ws` lists the `n` runs of whitespace) followed by a
character `c` that is neither a backslash nor whitespace (the sentinel when the buffer ends
there), `getCharAndSizeSlow` called with `Size = 0` returns `c`, leaves `Size` at the number
of bytes of the escaped newlines plus one, and flags the token `NeedsCleaning` exactly when
`n > 0` (for `n = 0` the token is untouched). -/
theorem getCharAndSizeSlow_stacked_escaped_newlines (buf : List Nat) (Ptr : Nat)
    (ws : List (List Nat)) (tail : List Nat) (Tok : Token)
    (hbuf : buf.drop Ptr = escapedNewLines ws ++ tail)
    (hws : ∀ w ∈ ws, ∀ x ∈ w, isHorizontalWhitespace x = true)
    (h92 : tail.headD 0 ≠ 92) (hcw : isWhitespace (tail.headD 0) = false) :
    getCharAndSizeSlow buf Ptr 0 (some Tok) =
      (tail.headD 0, (escapedNewLines ws).length + 1,
        some (if 0 < ws.length then { Tok with NeedsCleaning := true } else Tok)) := by
  have hlen : (escapedNewLines ws).length ≤ buf.length - Ptr := by
    have := congrArg List.length hbuf
    simp only [List.length_drop, List.length_append] at this
    omega
  have h := getCharAndSizeSlowRec_escaped buf tail h92 hcw ws (buf.length + 1 - Ptr) Ptr 0
    (some Tok) hbuf hws (by omega)
  rw [getCharAndSizeSlow, h]
  cases ws with
  | nil => simp
  | cons w ws => simp [setNeedsCleaning]

/-- The instance of C17 at two stacked escaped newlines, the second with a space and a tab
before its line feed, followed by `a`: the character is `a`, `Size` is 7, the token is
flagged. -/
theorem getCharAndSizeSlow_stacked_escaped_newlines_witness :
    getCharAndSizeSlow [43, 92, 10, 92, 32, 9, 10, 97, 98] 1 0 (some Token.startToken) =
      (97, (escapedNewLines [[], [32, 9]]).length + 1,
        some (if 0 < [([] : List Nat), [32, 9]].length
          then { Token.startToken with NeedsCleaning := true } else Token.startToken)) :=
  getCharAndSizeSlow_stacked_escaped_newlines [43, 92, 10, 92, 32, 9, 10, 97, 98] 1
    [[], [32, 9]] [97, 98] Token.startToken (by decide) (by decide) (by decide) (by decide)

/-! ## Structural propagation of dependence -/

/-- The union with no bit is the identity. -/
theorem ExprDependence_None_or (a : ExprDependence) : ExprDependence.None ||| a = a := by
  cases a; rfl

/-- The bits of a union are the disjunctions of the bits. -/
theorem ExprDependence_or_bits (a b : ExprDependence) :
    (a ||| b).hasUnexpandedPack = (a.hasUnexpandedPack || b.hasUnexpandedPack) ∧
    (a ||| b).hasInstantiation = (a.hasInstantiation || b.hasInstantiation) ∧
    (a ||| b).hasType = (a.hasType || b.hasType) ∧
    (a ||| b).hasValue = (a.hasValue || b.hasValue) ∧
    (a ||| b).hasError = (a.hasError || b.hasError) :=
  ⟨rfl, rfl, rfl, rfl, rfl⟩

/-- C18: `computeDependence` for a `BinaryOperator`, an `ArraySubscriptExpr` and a
`ParenExpr` is the union of the dependence of the direct sub-expressions of the node, bit by
bit the disjunction of the operands' bits; so a binary operator whose left operand has the
Type bit has the Type bit, also when the right operand has no bit. -/
theorem computeDependence_union_of_subexpressions (B : BinaryOperator)
    (A : ArraySubscriptExpr) (P : ParenExpr) :
    B.computeDependence = unionOfSubExprs [some B.getLHS, some B.getRHS] ∧
    A.computeDependence = unionOfSubExprs [some A.getLHS, some A.getRHS] ∧
    P.computeDependence = unionOfSubExprs [some P.getSubExpr] ∧
    B.computeDependence.hasType =
      (B.getLHS.getDependence.hasType || B.getRHS.getDependence.hasType) ∧
    (B.getLHS.getDependence.hasType = true →
      B.getRHS.getDependence = ExprDependence.None →
        B.computeDependence.hasType = true ∧
        B.computeDependence = B.getLHS.getDependence) := by
  refine ⟨?_, ?_, ?_, rfl, ?_⟩
  · simp only [unionOfSubExprs, List.foldl, ExprDependence_None_or]
    rfl
  · simp only [unionOfSubExprs, List.foldl, ExprDependence_None_or]
    rfl
  · simp only [unionOfSubExprs, List.foldl, ExprDependence_None_or]
    rfl
  · intro hT hN
    have hb : B.computeDependence = B.getLHS.getDependence := by
      show B.getLHS.getDependence ||| B.getRHS.getDependence = _
      rw [hN]
      cases B.getLHS.getDependence with
      | mk a b c d e => cases a <;> cases b <;> cases c <;> cases d <;> cases e <;> rfl
    exact ⟨by rw [hb]; exact hT, hb⟩

/-- The instance of C18 at `a + b` with `a` type-dependent and `b` not dependent. -/
theorem computeDependence_union_of_subexpressions_witness :
    (BinaryOperator.mk ⟨ExprDependence.Type_⟩
      ⟨ExprDependence.None⟩).computeDependence.hasType = true ∧
    (BinaryOperator.mk ⟨ExprDependence.Type_⟩ ⟨ExprDependence.None⟩).computeDependence =
      ExprDependence.Type_ :=
  (computeDependence_union_of_subexpressions
    (BinaryOperator.mk ⟨ExprDependence.Type_⟩ ⟨ExprDependence.None⟩)
    (ArraySubscriptExpr.mk ⟨ExprDependence.None⟩ ⟨ExprDependence.None⟩)
    (ParenExpr.mk ⟨ExprDependence.None⟩)).2.2.2.2 rfl rfl

/-- C19, as the code has it: `computeDependence` for a `PackExpansionExpr` is the
dependence of the pattern without the UnexpandedPack bit, united with Type, Value and
Instantiation: the result never has UnexpandedPack, always has Type, Value and
Instantiation, and has Error exactly when the pattern has it. -/
theorem PackExpansionExpr_computeDependence (E : PackExpansionExpr) :
    E.computeDependence =
      (E.getPattern.getDependence &&& ~~~ExprDependence.UnexpandedPack) |||
        ExprDependence.TypeValueInstantiation ∧
    E.computeDependence.hasUnexpandedPack = false ∧
    E.computeDependence.hasInstantiation = true ∧
    E.computeDependence.hasType = true ∧
    E.computeDependence.hasValue = true ∧
    E.computeDependence.hasError = E.getPattern.getDependence.hasError := by
  refine ⟨rfl, ?_, ?_, ?_, ?_, ?_⟩
  · show (E.getPattern.getDependence.hasUnexpandedPack && !true || false) = false
    simp
  · show (E.getPattern.getDependence.hasInstantiation && !false || true) = true
    simp
  · show (E.getPattern.getDependence.hasType && !false || true) = true
    simp
  · show (E.getPattern.getDependence.hasValue && !false || true) = true
    simp
  · show (E.getPattern.getDependence.hasError && !false || false) = _
    simp

/-- The counterexample to C19 as stated: for a pattern with no bit the result has the
bits Type, Value and Instantiation, which are added; for a pattern with the UnexpandedPack
bit the result does not have it, it is removed. -/
theorem PackExpansionExpr_computeDependence_not_verbatim :
    (PackExpansionExpr.mk ⟨ExprDependence.None⟩).computeDependence ≠
      (PackExpansionExpr.mk ⟨ExprDependence.None⟩).getPattern.getDependence ∧
    (PackExpansionExpr.mk ⟨ExprDependence.None⟩).computeDependence =
      ExprDependence.TypeValueInstantiation ∧
    (PackExpansionExpr.mk ⟨ExprDependence.UnexpandedPack⟩).computeDependence ≠
      (PackExpansionExpr.mk ⟨ExprDependence.UnexpandedPack⟩).getPattern.getDependence ∧
    (PackExpansionExpr.mk ⟨ExprDependence.UnexpandedPack⟩).computeDependence.hasUnexpandedPack
      = false := by
  decide

/-- C20 (the claim: the result for an `OMPArraySectionExpr` is the union over base, lower
bound, length and stride). The code breaks it: the stride is never read, the result is the
union over the base, the lower bound and the length only, so it is the same for every
stride, and for a section whose only dependent sub-expression is the stride it has no bit
where the union over `children` has the bits of the stride. -/
theorem OMPArraySectionExpr_computeDependence_omits_stride (E : OMPArraySectionExpr)
    (s : Option Expr) :
    E.computeDependence = unionOfSubExprs [some E.getBase, E.getLowerBound, E.getLength] ∧
    ({ E with getStride := s } : OMPArraySectionExpr).computeDependence =
      E.computeDependence ∧
    (OMPArraySectionExpr.mk ⟨ExprDependence.None⟩ none none
      (some ⟨ExprDependence.Type_⟩)).computeDependence = ExprDependence.None ∧
    unionOfSubExprs (OMPArraySectionExpr.mk ⟨ExprDependence.None⟩ none none
      (some ⟨ExprDependence.Type_⟩)).children = ExprDependence.Type_ := by
  refine ⟨?_, rfl, by decide, by decide⟩
  simp only [unionOfSubExprs, List.foldl, ExprDependence_None_or,
    OMPArraySectionExpr.computeDependence]

/-! ## The cursor invariant -/

/-- Whitespace is never the NUL byte. -/
theorem isWhitespace_ne_zero (c : Nat) (h : isWhitespace c = true) : c ≠ 0 := by
  intro h0
  rw [h0] at h
  exact absurd h (by decide)

/-- The loop of `getEscapedNewLineSize` stays within the buffer. -/
theorem getEscapedNewLineSizeLoop_le (buf : List Nat) (Ptr : Nat) :
    ∀ (n Size : Nat), Ptr + Size ≤ buf.length →
      Ptr + getEscapedNewLineSizeLoop buf Ptr n Size ≤ buf.length := by
  intro n
  induction n with
  | zero => intro Size h; exact h
  | succ n ih =>
    intro Size h
    rw [getEscapedNewLineSizeLoop]
    by_cases hw : isWhitespace (rd buf (Ptr + Size)) = true
    · have hlt : Ptr + Size < buf.length :=
        lt_length_of_rd_ne_zero buf _ (isWhitespace_ne_zero _ hw)
      simp only [hw, if_true]
      split_ifs with h1 h2
      · exact ih (Size + 1) (by omega)
      · have hne : rd buf (Ptr + (Size + 1)) ≠ 0 := by
          simp only [Bool.and_eq_true, Bool.or_eq_true, beq_iff_eq] at h2
          rcases h2.1 with h10 | h13
          · rw [h10]; decide
          · rw [h13]; decide
        have := lt_length_of_rd_ne_zero buf _ hne
        omega
      · omega
    · simp only [hw, Bool.false_eq_true, if_false]
      exact h

/-- `getEscapedNewLineSize` stays within the buffer. -/
theorem getEscapedNewLineSize_le (buf : List Nat) (Ptr : Nat) (h : Ptr ≤ buf.length) :
    Ptr + getEscapedNewLineSize buf Ptr ≤ buf.length :=
  getEscapedNewLineSizeLoop_le buf Ptr _ 0 h

/-- The recursion of `getCharAndSizeSlow` from a position within the buffer: the character
it returns is the byte at `Ptr + k` for the `k` it adds to `Size` besides one, and that byte
is within the buffer or is the sentinel. -/
theorem getCharAndSizeSlowRec_within (buf : List Nat) :
    ∀ (n Ptr Size : Nat) (Tok : Option Token), Ptr ≤ buf.length →
      ∃ k, (getCharAndSizeSlowRec buf n Ptr Size Tok).2.1 = Size + k + 1 ∧
        (getCharAndSizeSlowRec buf n Ptr Size Tok).1 = rd buf (Ptr + k) ∧
        Ptr + k ≤ buf.length := by
  intro n
  induction n with
  | zero => intro Ptr Size Tok h; exact ⟨0, rfl, rfl, h⟩
  | succ n ih =>
    intro Ptr Size Tok h
    rw [getCharAndSizeSlowRec]
    by_cases h92 : (rd buf Ptr == 92) = true
    · have hb : rd buf Ptr = 92 := by simpa using h92
      have hlt : Ptr < buf.length := lt_length_of_rd_ne_zero buf _ (by rw [hb]; decide)
      simp only [h92, if_true]
      split_ifs with h1 h2
      · exact ⟨0, rfl, hb.symm, h⟩
      · have hE := getEscapedNewLineSize_le buf (Ptr + 1) (by omega)
        obtain ⟨k, hk1, hk2, hk3⟩ := ih (Ptr + 1 + getEscapedNewLineSize buf (Ptr + 1))
          (Size + 1 + getEscapedNewLineSize buf (Ptr + 1)) (setNeedsCleaning Tok) hE
        refine ⟨1 + getEscapedNewLineSize buf (Ptr + 1) + k, ?_, ?_, ?_⟩
        · rw [hk1]; omega
        · rw [hk2]; congr 1; omega
        · omega
      · exact ⟨0, rfl, hb.symm, h⟩
    · simp only [h92, Bool.false_eq_true, if_false]
      exact ⟨0, rfl, rfl, h⟩

/-- The character and the size that `getCharAndSizeSlow` returns do not depend on the
token. -/
theorem getCharAndSizeSlowRec_token (buf : List Nat) :
    ∀ (n Ptr Size : Nat) (Tok Tok1 : Option Token),
      (getCharAndSizeSlowRec buf n Ptr Size Tok).1 =
        (getCharAndSizeSlowRec buf n Ptr Size Tok1).1 ∧
      (getCharAndSizeSlowRec buf n Ptr Size Tok).2.1 =
        (getCharAndSizeSlowRec buf n Ptr Size Tok1).2.1 := by
  intro n
  induction n with
  | zero => intro Ptr Size Tok Tok1; exact ⟨rfl, rfl⟩
  | succ n ih =>
    intro Ptr Size Tok Tok1
    rw [getCharAndSizeSlowRec, getCharAndSizeSlowRec]
    dsimp only
    split_ifs
    · exact ⟨rfl, rfl⟩
    · exact ih _ _ _ _
    · exact ⟨rfl, rfl⟩
    · exact ⟨rfl, rfl⟩

/-- The character read at a position within the buffer by `getAndAdvancedChar`: the pointer
moves forward, at most one byte past `BufferEnd`, and not past `BufferEnd` unless the
character is NUL. -/
theorem getAndAdvancedChar_within (buf : List Nat) (Ptr : Nat) (R : Token)
    (h : Ptr ≤ buf.length) :
    Ptr < (getAndAdvancedChar buf Ptr R).2.1 ∧
    (getAndAdvancedChar buf Ptr R).2.1 ≤ buf.length + 1 ∧
    ((getAndAdvancedChar buf Ptr R).1 ≠ 0 →
      (getAndAdvancedChar buf Ptr R).2.1 ≤ buf.length) := by
  unfold getAndAdvancedChar
  by_cases hs : isObviouslySimpleCharacter (rd buf Ptr) = true
  · simp only [hs, if_true]
    refine ⟨by omega, by omega, fun hne => ?_⟩
    have := lt_length_of_rd_ne_zero buf Ptr hne
    omega
  · simp only [hs, Bool.false_eq_true, if_false]
    obtain ⟨k, hk1, hk2, hk3⟩ :=
      getCharAndSizeSlowRec_within buf (buf.length + 1 - Ptr) Ptr 0 (some R) h
    rw [getCharAndSizeSlow, hk1, hk2]
    refine ⟨by omega, by omega, fun hne => ?_⟩
    have := lt_length_of_rd_ne_zero buf _ hne
    omega

/-- The character measured at a position within the buffer by `getCharAndSize`: at least
one byte, at most up to one byte past `BufferEnd`, and not past `BufferEnd` unless the
character is NUL. -/
theorem getCharAndSize_within (buf : List Nat) (Ptr : Nat) (h : Ptr ≤ buf.length) :
    1 ≤ (getCharAndSize buf Ptr).2 ∧
    Ptr + (getCharAndSize buf Ptr).2 ≤ buf.length + 1 ∧
    ((getCharAndSize buf Ptr).1 ≠ 0 → Ptr + (getCharAndSize buf Ptr).2 ≤ buf.length) := by
  unfold getCharAndSize
  by_cases hs : isObviouslySimpleCharacter (rd buf Ptr) = true
  · simp only [hs, if_true]
    refine ⟨by omega, by omega, fun hne => ?_⟩
    have := lt_length_of_rd_ne_zero buf Ptr hne
    omega
  · simp only [hs, Bool.false_eq_true, if_false]
    obtain ⟨k, hk1, hk2, hk3⟩ :=
      getCharAndSizeSlowRec_within buf (buf.length + 1 - Ptr) Ptr 0 none h
    rw [getCharAndSizeSlow, hk1, hk2]
    refine ⟨by omega, by omega, fun hne => ?_⟩
    have := lt_length_of_rd_ne_zero buf _ hne
    omega

/-- `ConsumeChar` steps over exactly the bytes that `getCharAndSize` measured. -/
theorem ConsumeChar_getCharAndSize (buf : List Nat) (Ptr : Nat) (R : Token) :
    (ConsumeChar buf Ptr (getCharAndSize buf Ptr).2 R).1 =
      Ptr + (getCharAndSize buf Ptr).2 := by
  unfold ConsumeChar
  by_cases h1 : ((getCharAndSize buf Ptr).2 == 1) = true
  · simp only [h1, if_true]
  · simp only [h1, Bool.false_eq_true, if_false]
    unfold getCharAndSize at h1 ⊢
    by_cases hs : isObviouslySimpleCharacter (rd buf Ptr) = true
    · simp [hs] at h1
    · simp only [hs, Bool.false_eq_true, if_false]
      rw [getCharAndSizeSlow, getCharAndSizeSlow,
        (getCharAndSizeSlowRec_token buf _ Ptr 0 (some R) none).2]

/-- A loop `while (P(*p)) ++p;` whose condition fails at NUL moves forward and stays within
the buffer. -/
theorem advanceWhile_within (P : Nat → Bool) (buf : List Nat) (hP : P 0 = false) :
    ∀ (n p : Nat), p ≤ buf.length →
      p ≤ advanceWhile P buf n p ∧ advanceWhile P buf n p ≤ buf.length := by
  intro n
  induction n with
  | zero => intro p h; exact ⟨Nat.le_refl _, h⟩
  | succ n ih =>
    intro p h
    rw [advanceWhile]
    by_cases hp : P (rd buf p) = true
    · have hne : rd buf p ≠ 0 := by
        intro h0
        rw [h0, hP] at hp
        exact absurd hp (by decide)
      have hlt := lt_length_of_rd_ne_zero buf p hne
      simp only [hp, if_true]
      have := ih (p + 1) (by omega)
      omega
    · simp only [hp, Bool.false_eq_true, if_false]
      exact ⟨Nat.le_refl _, h⟩

/-- A token formed at `TokEnd` leaves the cursor at `TokEnd`. -/
theorem formAndReturn_within (buf : List Nat) (lo : Nat) (L : Lexer) (R : Token)
    (P : Nat) (k : TokenKind) (h1 : lo ≤ P) (h2 : P ≤ buf.length) :
    StepWithin buf lo (formAndReturn L R P k) := by
  intro b tok L1 h
  simp only [Option.some.injEq, Prod.mk.injEq] at h
  obtain ⟨_, _, rfl⟩ := h
  exact ⟨h1, h2⟩

/-- The cursor after `FormTokenWithChars` is the end of the token. -/
theorem FormTokenWithChars_within (buf : List Nat) (lo : Nat) (L : Lexer) (R : Token)
    (P : Nat) (k : TokenKind) (h1 : lo ≤ P) (h2 : P ≤ buf.length) :
    lo ≤ (FormTokenWithChars L R P k).2.BufferPtr ∧
      (FormTokenWithChars L R P k).2.BufferPtr ≤ buf.length :=
  ⟨h1, h2⟩

/-- A step within the buffer from `lo` on is within the buffer from any earlier
position on. -/
theorem StepWithin_mono (buf : List Nat) (lo lo1 : Nat) (s : Step) (h : lo1 ≤ lo)
    (hs : StepWithin buf lo s) : StepWithin buf lo1 s := by
  cases s with
  | done r =>
    intro b tok L1 hr
    have := hs b tok L1 hr
    exact ⟨by omega, this.2⟩
  | jump l R t L1 =>
    obtain ⟨h1, h2, h3⟩ := hs
    exact ⟨by omega, h2, h3⟩
  | lineComment c l R t L1 =>
    obtain ⟨h1, h2⟩ := hs
    exact ⟨by omega, h2⟩

/-- `LexIdentifier` leaves the cursor within the buffer. -/
theorem LexIdentifier_within (buf : List Nat) (L : Lexer) (R : Token) (CurPtr : Nat)
    (hL : L.BufferPtr ≤ buf.length) (h1 : L.BufferPtr ≤ CurPtr) (h2 : CurPtr ≤ buf.length) :
    CursorWithin buf L.BufferPtr (some (LexIdentifier buf L R CurPtr)) := by
  intro b tok L1 h
  have hadv := advanceWhile_within isIdentifierBody buf (by decide)
    (buf.length + 1 - CurPtr) CurPtr h2
  simp only [LexIdentifier] at h
  split_ifs at h
  · simp only [Option.some.injEq, Prod.mk.injEq] at h
    obtain ⟨_, _, rfl⟩ := h
    exact FormTokenWithChars_within buf _ L _ _ _ (by omega) hadv.2
  · simp only [Option.some.injEq, Prod.mk.injEq] at h
    obtain ⟨_, _, rfl⟩ := h
    exact ⟨Nat.le_refl _, hL⟩

/-- A body character of a preprocessing number is never the NUL byte. -/
theorem isPreprocessingNumberBody_ne_zero (c : Nat)
    (h : isPreprocessingNumberBody c = true) : c ≠ 0 := by
  intro h0
  rw [h0] at h
  exact absurd h (by decide)

/-- The loop of `LexNumericConstant`, entered with the character and the size measured at
`CurPtr`: it ends with the character and the size measured at the pointer it ends at, which
is further on and within the buffer. -/
theorem LexNumericConstantLoop_within (buf : List Nat) :
    ∀ (n C Size PrevCh CurPtr : Nat) (R : Token),
      C = (getCharAndSize buf CurPtr).1 → Size = (getCharAndSize buf CurPtr).2 →
      CurPtr ≤ buf.length →
      (LexNumericConstantLoop buf n C Size PrevCh CurPtr R).1 =
        (getCharAndSize buf (LexNumericConstantLoop buf n C Size PrevCh CurPtr R).2.2.2.1).1 ∧
      (LexNumericConstantLoop buf n C Size PrevCh CurPtr R).2.1 =
        (getCharAndSize buf (LexNumericConstantLoop buf n C Size PrevCh CurPtr R).2.2.2.1).2 ∧
      CurPtr ≤ (LexNumericConstantLoop buf n C Size PrevCh CurPtr R).2.2.2.1 ∧
      (LexNumericConstantLoop buf n C Size PrevCh CurPtr R).2.2.2.1 ≤ buf.length := by
  intro n
  induction n with
  | zero => intro C Size PrevCh CurPtr R hC hS h; exact ⟨hC, hS, Nat.le_refl _, h⟩
  | succ n ih =>
    intro C Size PrevCh CurPtr R hC hS h
    rw [LexNumericConstantLoop]
    by_cases hb : isPreprocessingNumberBody C = true
    · simp only [hb, if_true]
      have hne := isPreprocessingNumberBody_ne_zero C hb
      obtain ⟨g1, g2, g3⟩ := getCharAndSize_within buf CurPtr h
      have hc : (ConsumeChar buf CurPtr Size R).1 = CurPtr + (getCharAndSize buf CurPtr).2 := by
        rw [hS]; exact ConsumeChar_getCharAndSize buf CurPtr R
      have hle : (ConsumeChar buf CurPtr Size R).1 ≤ buf.length := by
        rw [hc]; exact g3 (by rw [← hC]; exact hne)
      obtain ⟨i1, i2, i3, i4⟩ := ih (getCharAndSize buf (ConsumeChar buf CurPtr Size R).1).1
        (getCharAndSize buf (ConsumeChar buf CurPtr Size R).1).2 C
        (ConsumeChar buf CurPtr Size R).1 (ConsumeChar buf CurPtr Size R).2 rfl rfl hle
      have hcle : CurPtr ≤ (ConsumeChar buf CurPtr Size R).1 := by rw [hc]; omega
      exact ⟨i1, i2, Nat.le_trans hcle i3, i4⟩
    · simp only [hb, Bool.false_eq_true, if_false]
      exact ⟨hC, hS, Nat.le_refl _, h⟩

/-- The recursion of `LexNumericConstant` leaves the cursor within the buffer. -/
theorem LexNumericConstantRec_within (buf : List Nat) (L : Lexer) :
    ∀ (n : Nat) (R : Token) (CurPtr : Nat), L.BufferPtr ≤ CurPtr → CurPtr ≤ buf.length →
      CursorWithin buf L.BufferPtr (LexNumericConstantRec buf L n R CurPtr) := by
  intro n
  induction n with
  | zero => intro R CurPtr _ _ b tok L1 h; exact absurd h (by simp [LexNumericConstantRec])
  | succ n ih =>
    intro R CurPtr h1 h2
    obtain ⟨i1, i2, i3, i4⟩ := LexNumericConstantLoop_within buf (buf.length + 1 - CurPtr)
      (getCharAndSize buf CurPtr).1 (getCharAndSize buf CurPtr).2 0 CurPtr R rfl rfl h2
    rw [LexNumericConstantRec]
    dsimp only
    split_ifs with hsign
    · apply ih
      · rw [i2, ConsumeChar_getCharAndSize]
        omega
      · rw [i2, ConsumeChar_getCharAndSize]
        apply (getCharAndSize_within buf _ i4).2.2
        rw [← i1]
        simp only [Bool.and_eq_true, Bool.or_eq_true, beq_iff_eq] at hsign
        rcases hsign.1.1 with h45 | h43
        · rw [h45]; decide
        · rw [h43]; decide
    · intro b tok L1 h
      simp only [Option.some.injEq, Prod.mk.injEq] at h
      obtain ⟨_, _, rfl⟩ := h
      exact FormTokenWithChars_within buf _ L _ _ _ (by omega) i4

/-- `LexNumericConstant` leaves the cursor within the buffer. -/
theorem LexNumericConstant_within (buf : List Nat) (L : Lexer) (R : Token) (CurPtr : Nat)
    (h1 : L.BufferPtr ≤ CurPtr) (h2 : CurPtr ≤ buf.length) :
    CursorWithin buf L.BufferPtr (LexNumericConstant buf L R CurPtr) :=
  LexNumericConstantRec_within buf L _ R CurPtr h1 h2

/-- The loop of `LexCharConstant` and `LexStringLiteral` leaves the cursor within the
buffer: the token ends at the closing quote, or just before the newline or the sentinel
that ends an unterminated literal. -/
theorem LexQuotedLoop_within (buf : List Nat) (L : Lexer) (Q : Nat) (Kind : TokenKind)
    (hQ : Q ≠ 0) :
    ∀ (n C CurPtr : Nat) (R : Token), L.BufferPtr < CurPtr → CurPtr ≤ buf.length + 1 →
      (C ≠ 0 → CurPtr ≤ buf.length) →
      CursorWithin buf L.BufferPtr (LexQuotedLoop buf L Q Kind n C CurPtr R) := by
  intro n
  induction n with
  | zero => intro C CurPtr R _ _ _ b tok L1 h; exact absurd h (by simp [LexQuotedLoop])
  | succ n ih =>
    intro C CurPtr R h1 h2 h3
    rw [LexQuotedLoop]
    by_cases hq : (C != Q) = true
    · simp only [hq, if_true]
      have he : L.BufferPtr <
            (if (C == 92) = true then getAndAdvancedChar buf CurPtr R else (C, CurPtr, R)).2.1 ∧
          (if (C == 92) = true then getAndAdvancedChar buf CurPtr R
            else (C, CurPtr, R)).2.1 ≤ buf.length + 1 ∧
          ((if (C == 92) = true then getAndAdvancedChar buf CurPtr R
            else (C, CurPtr, R)).1 ≠ 0 →
            (if (C == 92) = true then getAndAdvancedChar buf CurPtr R
              else (C, CurPtr, R)).2.1 ≤ buf.length) := by
        by_cases h92 : (C == 92) = true
        · have hC : C = 92 := by simpa using h92
          have hle : CurPtr ≤ buf.length := h3 (by rw [hC]; decide)
          obtain ⟨g1, g2, g3⟩ := getAndAdvancedChar_within buf CurPtr R hle
          simp only [h92, if_true]
          exact ⟨by omega, g2, g3⟩
        · simp only [h92, Bool.false_eq_true, if_false]
          exact ⟨h1, h2, h3⟩
      generalize (if (C == 92) = true then getAndAdvancedChar buf CurPtr R
        else (C, CurPtr, R)) = e at he
      obtain ⟨e1, e2, e3⟩ := he
      split_ifs with hend
      · intro b tok L1 h
        simp only [Option.some.injEq, Prod.mk.injEq] at h
        obtain ⟨_, _, rfl⟩ := h
        exact FormTokenWithChars_within buf _ L _ _ _ (by omega) (by omega)
      · have hle : e.2.1 ≤ buf.length := by
          by_cases h0 : e.1 = 0
          · simp only [h0, Bool.or_eq_true, beq_iff_eq, Bool.and_eq_true, not_or, not_and,
              true_and] at hend
            have := hend.2
            omega
          · exact e3 h0
        obtain ⟨g1, g2, g3⟩ := getAndAdvancedChar_within buf e.2.1 e.2.2 hle
        exact ih _ _ _ (by omega) g2 g3
    · simp only [hq, Bool.false_eq_true, if_false]
      have hC : C = Q := by simpa using hq
      intro b tok L1 h
      simp only [Option.some.injEq, Prod.mk.injEq] at h
      obtain ⟨_, _, rfl⟩ := h
      exact FormTokenWithChars_within buf _ L _ _ _ (by omega) (h3 (by rw [hC]; exact hQ))

/-- `LexCharConstant` leaves the cursor within the buffer. -/
theorem LexCharConstant_within (buf : List Nat) (L : Lexer) (R : Token) (CurPtr : Nat)
    (Kind : TokenKind) (h1 : L.BufferPtr ≤ CurPtr) (h2 : CurPtr ≤ buf.length) :
    CursorWithin buf L.BufferPtr (LexCharConstant buf L R CurPtr Kind) := by
  obtain ⟨g1, g2, g3⟩ := getAndAdvancedChar_within buf CurPtr R h2
  rw [LexCharConstant]
  dsimp only
  split_ifs with hq
  · have hC : (getAndAdvancedChar buf CurPtr R).1 = 39 := by simpa using hq
    intro b tok L1 h
    simp only [Option.some.injEq, Prod.mk.injEq] at h
    obtain ⟨_, _, rfl⟩ := h
    exact FormTokenWithChars_within buf _ L _ _ _ (by omega) (g3 (by rw [hC]; decide))
  · exact LexQuotedLoop_within buf L 39 Kind (by decide) _ _ _ _ (by omega) g2 g3

/-- `LexStringLiteral` leaves the cursor within the buffer. -/
theorem LexStringLiteral_within (buf : List Nat) (L : Lexer) (R : Token) (CurPtr : Nat)
    (Kind : TokenKind) (h1 : L.BufferPtr ≤ CurPtr) (h2 : CurPtr ≤ buf.length) :
    CursorWithin buf L.BufferPtr (LexStringLiteral buf L R CurPtr Kind) := by
  obtain ⟨g1, g2, g3⟩ := getAndAdvancedChar_within buf CurPtr R h2
  exact LexQuotedLoop_within buf L 34 Kind (by decide) _ _ _ _ (by omega) g2 g3

/-- The scan of `SkipWhitespace` moves forward and stays within the buffer. -/
theorem SkipWhitespaceLoop_within (buf : List Nat) :
    ∀ (n p : Nat) (saw : Bool), p ≤ buf.length →
      p ≤ (SkipWhitespaceLoop buf n p saw).1 ∧
        (SkipWhitespaceLoop buf n p saw).1 ≤ buf.length := by
  intro n
  induction n with
  | zero => intro p saw h; exact ⟨Nat.le_refl _, h⟩
  | succ n ih =>
    intro p saw h
    rw [SkipWhitespaceLoop]
    split_ifs with hh hv
    · have hne : rd buf p ≠ 0 := by
        intro h0; rw [h0] at hh; exact absurd hh (by decide)
      have hlt := lt_length_of_rd_ne_zero buf p hne
      have := ih (p + 1) saw (by omega)
      omega
    · have hne : rd buf p ≠ 0 := by
        intro h0; rw [h0] at hv; exact absurd hv (by decide)
      have hlt := lt_length_of_rd_ne_zero buf p hne
      have := ih (p + 1) true (by omega)
      omega
    · exact ⟨Nat.le_refl _, h⟩

/-- A call of `SkipWhitespace` followed by a `goto` to a label that holds no pointer leaves
the cursor within the buffer. -/
theorem skipWhitespaceThen_within (buf : List Nat) (L : Lexer) (R : Token) (CurPtr : Nat)
    (t : Bool) (l : Label) (hl : ∀ L1, LabelWithin buf L1 l) (h1 : L.BufferPtr ≤ CurPtr)
    (h2 : CurPtr ≤ buf.length) :
    StepWithin buf L.BufferPtr (skipWhitespaceThen buf L R CurPtr t l) := by
  have hw := SkipWhitespaceLoop_within buf (buf.length + 1 - CurPtr) CurPtr
    (isVerticalWhitespace (rd buf (CurPtr - 1))) h2
  have hf : (SkipWhitespace buf L R CurPtr t).1 = false := rfl
  have hp : (SkipWhitespace buf L R CurPtr t).2.2.2.BufferPtr =
      (SkipWhitespaceLoop buf (buf.length + 1 - CurPtr) CurPtr
        (isVerticalWhitespace (rd buf (CurPtr - 1)))).1 := rfl
  simp only [skipWhitespaceThen, hf, Bool.false_eq_true, if_false]
  exact ⟨by rw [hp]; omega, by rw [hp]; exact hw.2, hl _⟩

/-- `SkipBlockComment` returns false and leaves the cursor within the buffer. -/
theorem SkipBlockComment_within (buf : List Nat) (L : Lexer) (CurPtr : Nat)
    (hL : L.BufferPtr ≤ buf.length) :
    (SkipBlockComment buf L CurPtr).1 = false ∧
    L.BufferPtr ≤ (SkipBlockComment buf L CurPtr).2.BufferPtr ∧
    (SkipBlockComment buf L CurPtr).2.BufferPtr ≤ buf.length := by
  simp only [SkipBlockComment]
  split_ifs with h
  · simp only [Bool.and_eq_true, beq_iff_eq] at h
    refine ⟨rfl, ?_, ?_⟩
    · show L.BufferPtr ≤ CurPtr + (getCharAndSize buf CurPtr).2 - 1
      omega
    · show CurPtr + (getCharAndSize buf CurPtr).2 - 1 ≤ buf.length
      omega
  · exact ⟨rfl, Nat.le_refl _, hL⟩

/-- An operator case with one suffix leaves the cursor within the buffer. -/
theorem opWithSuffix_within (buf : List Nat) (L : Lexer) (R : Token) (CurPtr c : Nat)
    (two one : TokenKind) (hc : c ≠ 0) (h1 : L.BufferPtr ≤ CurPtr)
    (h2 : CurPtr ≤ buf.length) :
    StepWithin buf L.BufferPtr (opWithSuffix buf L R CurPtr c two one) := by
  obtain ⟨g1, g2, g3⟩ := getCharAndSize_within buf CurPtr h2
  rw [opWithSuffix]
  dsimp only
  split_ifs with h
  · have hC : (getCharAndSize buf CurPtr).1 = c := by simpa using h
    rw [ConsumeChar_getCharAndSize]
    exact formAndReturn_within buf _ L _ _ _ (by omega) (g3 (by rw [hC]; exact hc))
  · exact formAndReturn_within buf _ L _ _ _ h1 h2

/-- An operator case of the shape of `'+'` leaves the cursor within the buffer. -/
theorem opDoubledOrEqual_within (buf : List Nat) (L : Lexer) (R : Token) (CurPtr c : Nat)
    (doubled withEqual one : TokenKind) (hc : c ≠ 0) (h1 : L.BufferPtr ≤ CurPtr)
    (h2 : CurPtr ≤ buf.length) :
    StepWithin buf L.BufferPtr (opDoubledOrEqual buf L R CurPtr c doubled withEqual one) := by
  obtain ⟨g1, g2, g3⟩ := getCharAndSize_within buf CurPtr h2
  rw [opDoubledOrEqual]
  dsimp only
  split_ifs with h h61
  · have hC : (getCharAndSize buf CurPtr).1 = c := by simpa using h
    rw [ConsumeChar_getCharAndSize]
    exact formAndReturn_within buf _ L _ _ _ (by omega) (g3 (by rw [hC]; exact hc))
  · have hC : (getCharAndSize buf CurPtr).1 = 61 := by simpa using h61
    rw [ConsumeChar_getCharAndSize]
    exact formAndReturn_within buf _ L _ _ _ (by omega) (g3 (by rw [hC]; decide))
  · exact formAndReturn_within buf _ L _ _ _ h1 h2

/-- A conditional step is within the buffer when both branches are. -/
theorem StepWithin_ite (buf : List Nat) (lo : Nat) (c : Bool) (a b : Step)
    (ha : c = true → StepWithin buf lo a) (hb : c = false → StepWithin buf lo b) :
    StepWithin buf lo (if c = true then a else b) := by
  cases c with
  | true => simpa using ha rfl
  | false => simpa using hb rfl

/-- The switch of `LexTokenInternal`, entered just past a character read within the buffer,
leaves the cursor within the buffer, given a decoder that stays within the buffer. -/
theorem LexSwitch_within (env : LexEnv) (buf : List Nat)
    (henv : ∀ p cp q, env.convertUTF8Sequence buf p = some (cp, q) →
      p < q ∧ q ≤ buf.length)
    (C CurPtr : Nat) (R : Token) (t : Bool) (L : Lexer) (hL : L.BufferPtr ≤ buf.length)
    (h1 : L.BufferPtr < CurPtr) (h2 : CurPtr ≤ buf.length + 1)
    (h3 : C ≠ 0 → CurPtr ≤ buf.length) :
    StepWithin buf L.BufferPtr (LexSwitch env buf C CurPtr R t L) := by
  have hlo : L.BufferPtr ≤ CurPtr := by omega
  unfold LexSwitch
  refine StepWithin_ite buf _ _ _ _ (fun _ => ?_) (fun hC0 => ?_)
  · refine StepWithin_ite buf _ _ _ _ (fun _ => ?_) (fun he => ?_)
    · intro b tok L1 h
      simp only [LexEndOfFile, Option.some.injEq, Prod.mk.injEq] at h
      obtain ⟨_, _, rfl⟩ := h
      exact FormTokenWithChars_within buf _ L _ _ _ (by omega) (by omega)
    · have hne : CurPtr - 1 ≠ buf.length := by simpa using he
      exact skipWhitespaceThen_within buf L _ CurPtr t _ (fun _ => trivial) hlo (by omega)
  have hle : CurPtr ≤ buf.length := h3 (by simpa using hC0)
  obtain ⟨g1, g2, g3⟩ := getCharAndSize_within buf CurPtr hle
  have hcons : ∀ T : Token, (ConsumeChar buf CurPtr (getCharAndSize buf CurPtr).2 T).1 =
      CurPtr + (getCharAndSize buf CurPtr).2 := ConsumeChar_getCharAndSize buf CurPtr
  have form1 : ∀ (T : Token) (k : TokenKind),
      StepWithin buf L.BufferPtr (formAndReturn L T CurPtr k) :=
    fun T k => formAndReturn_within buf _ L T CurPtr k hlo hle
  have suff : ∀ (T : Token) (c : Nat) (two one : TokenKind), c ≠ 0 →
      StepWithin buf L.BufferPtr (opWithSuffix buf L T CurPtr c two one) :=
    fun T c two one hc => opWithSuffix_within buf L T CurPtr c two one hc hlo hle
  have dbl : ∀ (T : Token) (c : Nat) (d w o : TokenKind), c ≠ 0 →
      StepWithin buf L.BufferPtr (opDoubledOrEqual buf L T CurPtr c d w o) :=
    fun T c d w o hc => opDoubledOrEqual_within buf L T CurPtr c d w o hc hlo hle
  -- carriage return
  refine StepWithin_ite buf _ _ _ _ (fun _ => ?_) (fun _ => ?_)
  · have hg : L.BufferPtr ≤ (if (rd buf CurPtr == 10) = true
          then getAndAdvancedChar buf CurPtr R else (C, CurPtr, R)).2.1 ∧
        (if (rd buf CurPtr == 10) = true
          then getAndAdvancedChar buf CurPtr R else (C, CurPtr, R)).2.1 ≤ buf.length := by
      by_cases h10 : (rd buf CurPtr == 10) = true
      · have hr : rd buf CurPtr = 10 := by simpa using h10
        have hlt := lt_length_of_rd_ne_zero buf CurPtr (by rw [hr]; decide)
        rw [if_pos h10, getAndAdvancedChar_simple buf CurPtr R (by rw [hr]; decide)]
        exact ⟨by show L.BufferPtr ≤ CurPtr + 1; omega, hlt⟩
      · rw [if_neg h10]
        exact ⟨hlo, hle⟩
    exact skipWhitespaceThen_within buf L _ _ t _ (fun _ => trivial) hg.1 hg.2
  -- line feed
  refine StepWithin_ite buf _ _ _ _ (fun _ =>
    skipWhitespaceThen_within buf L _ CurPtr t _ (fun _ => trivial) hlo hle) (fun _ => ?_)
  -- horizontal whitespace
  refine StepWithin_ite buf _ _ _ _ (fun _ => ⟨Nat.le_refl _, hL, hlo, hle⟩) (fun _ => ?_)
  -- digit, identifier, quotes
  refine StepWithin_ite buf _ _ _ _ (fun _ =>
    LexNumericConstant_within buf L _ CurPtr hlo hle) (fun _ => ?_)
  refine StepWithin_ite buf _ _ _ _ (fun _ =>
    LexIdentifier_within buf L _ CurPtr hL hlo hle) (fun _ => ?_)
  refine StepWithin_ite buf _ _ _ _ (fun _ =>
    LexCharConstant_within buf L _ CurPtr _ hlo hle) (fun _ => ?_)
  refine StepWithin_ite buf _ _ _ _ (fun _ =>
    LexStringLiteral_within buf L _ CurPtr _ hlo hle) (fun _ => ?_)
  -- ? [ ] ( ) { }
  refine StepWithin_ite buf _ _ _ _ (fun _ => form1 _ _) (fun _ => ?_)
  refine StepWithin_ite buf _ _ _ _ (fun _ => form1 _ _) (fun _ => ?_)
  refine StepWithin_ite buf _ _ _ _ (fun _ => form1 _ _) (fun _ => ?_)
  refine StepWithin_ite buf _ _ _ _ (fun _ => form1 _ _) (fun _ => ?_)
  refine StepWithin_ite buf _ _ _ _ (fun _ => form1 _ _) (fun _ => ?_)
  refine StepWithin_ite buf _ _ _ _ (fun _ => form1 _ _) (fun _ => ?_)
  refine StepWithin_ite buf _ _ _ _ (fun _ => form1 _ _) (fun _ => ?_)
  -- period
  refine StepWithin_ite buf _ _ _ _ (fun _ => ?_) (fun _ => ?_)
  · refine StepWithin_ite buf _ _ _ _ (fun hd => ?_) (fun _ => ?_)
    · have hne : (getCharAndSize buf CurPtr).1 ≠ 0 := by
        simp only [Bool.and_eq_true, decide_eq_true_eq] at hd
        omega
      show CursorWithin buf L.BufferPtr (LexNumericConstant buf L _
        (ConsumeChar buf CurPtr (getCharAndSize buf CurPtr).2 R).1)
      rw [hcons]
      exact LexNumericConstant_within buf L _ _ (by omega) (g3 hne)
    · refine StepWithin_ite buf _ _ _ _ (fun hd => ?_) (fun _ => ?_)
      · simp only [Bool.and_eq_true, beq_iff_eq] at hd
        have hne : (getCharAndSize buf CurPtr).1 ≠ 0 := by rw [hd.1]; decide
        have hle1 := g3 hne
        obtain ⟨f1, f2, f3⟩ :=
          getCharAndSize_within buf (CurPtr + (getCharAndSize buf CurPtr).2) hle1
        show StepWithin buf L.BufferPtr (formAndReturn L _
          (ConsumeChar buf (ConsumeChar buf CurPtr (getCharAndSize buf CurPtr).2 R).1
            (getCharAndSize buf (CurPtr + (getCharAndSize buf CurPtr).2)).2
            (ConsumeChar buf CurPtr (getCharAndSize buf CurPtr).2 R).2).1 _)
        rw [hcons, ConsumeChar_getCharAndSize]
        exact formAndReturn_within buf _ L _ _ _ (by omega) (f3 (by rw [hd.2]; decide))
      · refine StepWithin_ite buf _ _ _ _ (fun hd => ?_) (fun _ => form1 _ _)
        have hd1 : (getCharAndSize buf CurPtr).1 = 46 := by simpa using hd
        show StepWithin buf L.BufferPtr (formAndReturn L _
          (ConsumeChar buf CurPtr (getCharAndSize buf CurPtr).2 R).1 _)
        rw [hcons]
        exact formAndReturn_within buf _ L _ _ _ (by omega) (g3 (by rw [hd1]; decide))
  -- & * + - ~ !
  refine StepWithin_ite buf _ _ _ _ (fun _ => suff _ _ _ _ (by decide)) (fun _ => ?_)
  refine StepWithin_ite buf _ _ _ _ (fun _ => suff _ _ _ _ (by decide)) (fun _ => ?_)
  refine StepWithin_ite buf _ _ _ _ (fun _ => dbl _ _ _ _ _ (by decide)) (fun _ => ?_)
  refine StepWithin_ite buf _ _ _ _ (fun _ => dbl _ _ _ _ _ (by decide)) (fun _ => ?_)
  refine StepWithin_ite buf _ _ _ _ (fun _ => suff _ _ _ _ (by decide)) (fun _ => ?_)
  refine StepWithin_ite buf _ _ _ _ (fun _ => suff _ _ _ _ (by decide)) (fun _ => ?_)
  -- slash
  refine StepWithin_ite buf _ _ _ _ (fun _ => ?_) (fun _ => ?_)
  · refine StepWithin_ite buf _ _ _ _ (fun _ => ⟨Nat.le_refl _, hL⟩) (fun _ => ?_)
    refine StepWithin_ite buf _ _ _ _ (fun _ => ?_) (fun _ => ?_)
    · obtain ⟨b1, b2, b3⟩ := SkipBlockComment_within buf L
        (ConsumeChar buf CurPtr (getCharAndSize buf CurPtr).2 R).1 hL
      refine StepWithin_ite buf _ _ _ _ (fun hb => ?_) (fun _ => ⟨b2, b3, trivial⟩)
      rw [b1] at hb
      exact absurd hb (by decide)
    · refine StepWithin_ite buf _ _ _ _ (fun hd => ?_) (fun _ => form1 _ _)
      have hd1 : (getCharAndSize buf CurPtr).1 = 61 := by simpa using hd
      show StepWithin buf L.BufferPtr (formAndReturn L _
        (ConsumeChar buf CurPtr (getCharAndSize buf CurPtr).2 R).1 _)
      rw [hcons]
      exact formAndReturn_within buf _ L _ _ _ (by omega) (g3 (by rw [hd1]; decide))
  -- % < > | : ; = ,
  refine StepWithin_ite buf _ _ _ _ (fun _ => suff _ _ _ _ (by decide)) (fun _ => ?_)
  refine StepWithin_ite buf _ _ _ _ (fun _ => suff _ _ _ _ (by decide)) (fun _ => ?_)
  refine StepWithin_ite buf _ _ _ _ (fun _ => suff _ _ _ _ (by decide)) (fun _ => ?_)
  refine StepWithin_ite buf _ _ _ _ (fun _ => suff _ _ _ _ (by decide)) (fun _ => ?_)
  refine StepWithin_ite buf _ _ _ _ (fun _ => form1 _ _) (fun _ => ?_)
  refine StepWithin_ite buf _ _ _ _ (fun _ => form1 _ _) (fun _ => ?_)
  refine StepWithin_ite buf _ _ _ _ (fun _ => suff _ _ _ _ (by decide)) (fun _ => ?_)
  refine StepWithin_ite buf _ _ _ _ (fun _ => form1 _ _) (fun _ => ?_)
  -- default
  refine StepWithin_ite buf _ _ _ _ (fun _ => form1 _ _) (fun _ => ?_)
  cases hdec : env.convertUTF8Sequence buf (CurPtr - 1) with
  | none =>
    exact ⟨by show L.BufferPtr ≤ CurPtr - 1 + 1; omega,
      by show CurPtr - 1 + 1 ≤ buf.length; omega, trivial⟩
  | some r =>
    obtain ⟨cp, q⟩ := r
    obtain ⟨q1, q2⟩ := henv _ _ _ hdec
    intro b tok L1 h
    simp only [CheckUnicodeWhitespace, Bool.false_eq_true, if_false, LexUnicode,
      Option.some.injEq, Prod.mk.injEq] at h
    obtain ⟨_, _, rfl⟩ := h
    exact FormTokenWithChars_within buf _ L _ _ _ (by omega) q2

/-- The code of `LexTokenInternal` from a label to the next `return` or `goto` leaves the
cursor within the buffer. -/
theorem LexTokenInternalStep_within (env : LexEnv) (buf : List Nat)
    (henv : ∀ p cp q, env.convertUTF8Sequence buf p = some (cp, q) →
      p < q ∧ q ≤ buf.length)
    (l : Label) (R : Token) (t : Bool) (L : Lexer) (hL : L.BufferPtr ≤ buf.length)
    (hl : LabelWithin buf L l) :
    StepWithin buf L.BufferPtr (LexTokenInternalStep env buf l R t L) := by
  cases l with
  | LexNextToken =>
    unfold LexTokenInternalStep
    refine StepWithin_ite buf _ _ _ _ (fun hws => ?_) (fun _ => ?_)
    · have hne : rd buf L.BufferPtr ≠ 0 := by
        simp only [Bool.or_eq_true, beq_iff_eq] at hws
        rcases hws with h | h
        · rw [h]; decide
        · rw [h]; decide
      have hlt := lt_length_of_rd_ne_zero buf _ hne
      obtain ⟨a1, a2⟩ := advanceWhile_within (fun C => C == 32 || C == 9) buf (by decide)
        (buf.length + 1 - (L.BufferPtr + 1)) (L.BufferPtr + 1) (by omega)
      have key : ∀ (q : Nat) (T : Token), L.BufferPtr + 1 ≤ q → q ≤ buf.length →
          StepWithin buf L.BufferPtr (LexSwitch env buf (getAndAdvancedChar buf q T).1
            (getAndAdvancedChar buf q T).2.1 (getAndAdvancedChar buf q T).2.2 t
            { L with BufferPtr := q }) := by
        intro q T hq1 hq2
        obtain ⟨g1, g2, g3⟩ := getAndAdvancedChar_within buf q T hq2
        exact StepWithin_mono buf q L.BufferPtr _ (by omega)
          (LexSwitch_within env buf henv _ _ _ t { L with BufferPtr := q } hq2 g1 g2 g3)
      exact key _ _ a1 a2
    · obtain ⟨g1, g2, g3⟩ := getAndAdvancedChar_within buf L.BufferPtr
        { R with NeedsCleaning := false, PtrData := none } hL
      exact LexSwitch_within env buf henv _ _ _ t L hL g1 g2 g3
  | SkipHorizontalWhitespace CurPtr =>
    exact skipWhitespaceThen_within buf L _ CurPtr t _ (fun _ => trivial) hl.1 hl.2
  | SkipIgnoreUnits =>
    unfold LexTokenInternalStep
    refine StepWithin_ite buf _ _ _ _ (fun _ => ⟨Nat.le_refl _, hL⟩) (fun _ => ?_)
    refine StepWithin_ite buf _ _ _ _ (fun _ => ⟨Nat.le_refl _, hL⟩) (fun _ => ?_)
    refine StepWithin_ite buf _ _ _ _ (fun _ => ?_) (fun _ => ?_)
    · obtain ⟨b1, b2, b3⟩ := SkipBlockComment_within buf L (L.BufferPtr + 2) hL
      refine StepWithin_ite buf _ _ _ _ (fun hb => ?_) (fun _ => ⟨b2, b3, trivial⟩)
      rw [b1] at hb
      exact absurd hb (by decide)
    · exact StepWithin_ite buf _ _ _ _
        (fun _ => ⟨Nat.le_refl _, hL, Nat.le_refl _, hL⟩)
        (fun _ => ⟨Nat.le_refl _, hL, trivial⟩)

/-- `LexTokenInternal`, entered at any label with the cursor within the buffer, returns
with the cursor further on and within the buffer. -/
theorem LexTokenInternal_within (env : LexEnv) (buf : List Nat)
    (henv : ∀ p cp q, env.convertUTF8Sequence buf p = some (cp, q) →
      p < q ∧ q ≤ buf.length) :
    ∀ (fuel : Nat) (l : Label) (R : Token) (t : Bool) (L : Lexer),
      L.BufferPtr ≤ buf.length → LabelWithin buf L l →
      CursorWithin buf L.BufferPtr (LexTokenInternal env buf fuel l R t L) := by
  intro fuel
  induction fuel with
  | zero => intro l R t L _ _ b tok L1 h; exact absurd h (by simp [LexTokenInternal])
  | succ n ih =>
    intro l R t L hL hl
    have hs := LexTokenInternalStep_within env buf henv l R t L hL hl
    rw [LexTokenInternal]
    cases hstep : LexTokenInternalStep env buf l R t L with
    | done r =>
      rw [hstep] at hs
      exact hs
    | jump l1 R1 t1 L1 =>
      rw [hstep] at hs
      obtain ⟨s1, s2, s3⟩ := hs
      intro b tok L2 h
      have := ih l1 R1 t1 L1 s2 s3 b tok L2 h
      exact ⟨by omega, this.2⟩
    | lineComment c l1 R1 t1 L1 =>
      intro b tok L2 h
      simp only [SkipLineComment_none] at h
      exact absurd h (by simp)

/-- The decoder of the examples returns a sequence of two bytes that ends within the
buffer. -/
theorem decodeNBSP_within (buf : List Nat) (p cp q : Nat)
    (h : decodeNBSP buf p = some (cp, q)) : p < q ∧ q ≤ buf.length := by
  unfold decodeNBSP at h
  split_ifs at h with hc
  simp only [Option.some.injEq, Prod.mk.injEq] at h
  simp only [Bool.and_eq_true, beq_iff_eq] at hc
  have hlt := lt_length_of_rd_ne_zero buf (p + 1) (by rw [hc.2]; decide)
  omega

/-- C16: the cursor invariant `BufferStart <= BufferPtr <= BufferEnd` (offsets: `0 ≤
BufferPtr ≤ buf.length`) holds after `InitLexer` called with `BufPtr` within the buffer,
a byte-order mark skipped or not; after `SetByteOffset` for every `Offset`, an offset past
the end being clamped to `BufferEnd`; and after every call of `Lex` that starts within the
buffer and returns, where the cursor moreover never moves backwards. The decoder is taken
to return a sequence that is not empty and ends within the buffer, as
`llvm::convertUTF8Sequence` does when it is given `BufferEnd` as the end of the source. -/
theorem cursor_invariant (env : LexEnv) (buf : List Nat)
    (henv : ∀ p cp q, env.convertUTF8Sequence buf p = some (cp, q) →
      p < q ∧ q ≤ buf.length) :
    (∀ (BuffPtr : Nat) (hlem : Bool), BuffPtr ≤ buf.length →
      0 ≤ (InitLexer buf BuffPtr hlem).BufferPtr ∧
      (InitLexer buf BuffPtr hlem).BufferPtr ≤ buf.length) ∧
    (∀ (L : Lexer) (Offset : Nat) (StartOfLine : Bool),
      0 ≤ (SetByteOffset buf L Offset StartOfLine).BufferPtr ∧
      (SetByteOffset buf L Offset StartOfLine).BufferPtr ≤ buf.length ∧
      (buf.length < Offset → (SetByteOffset buf L Offset StartOfLine).BufferPtr = buf.length))
    ∧
    (∀ (fuel : Nat) (L : Lexer) (b : Bool) (tok : Token) (L1 : Lexer),
      L.BufferPtr ≤ buf.length → Lex env buf fuel L = some (b, tok, L1) →
      0 ≤ L1.BufferPtr ∧ L.BufferPtr ≤ L1.BufferPtr ∧ L1.BufferPtr ≤ buf.length) := by
  refine ⟨?_, ?_, ?_⟩
  · intro BuffPtr hlem h
    refine ⟨Nat.zero_le _, ?_⟩
    show (if (BuffPtr == 0) = true then BuffPtr + (if (rd buf 0 == 239 && rd buf 1 == 187 &&
      rd buf 2 == 191 && decide (3 ≤ buf.length)) = true then 3 else 0) else BuffPtr) ≤ _
    split_ifs with h0 hb
    · have h00 : BuffPtr = 0 := by simpa using h0
      simp only [Bool.and_eq_true, decide_eq_true_eq] at hb
      omega
    · omega
    · exact h
  · intro L Offset StartOfLine
    refine ⟨Nat.zero_le _, ?_, ?_⟩
    · show (if Offset > buf.length then buf.length else Offset) ≤ _
      split_ifs <;> omega
    · intro h
      show (if Offset > buf.length then buf.length else Offset) = _
      rw [if_pos h]
  · intro fuel L b tok L1 hL h
    rw [Lex_eq_LexTokenInternal] at h
    have := LexTokenInternal_within env buf henv fuel Label.LexNextToken (LexStartToken L)
      L.IsAtPhysicalStartOfLine (LexStartState L) hL trivial b tok L1 h
    exact ⟨Nat.zero_le _, this.1, this.2⟩

/-- The instance of C16 at the buffer of a byte-order mark, a no-break space and `+`:
`InitLexer` leaves the cursor at 3, `SetByteOffset` clamps the offset 9 to 6, and the first
call of `Lex` returns the token of the no-break space with the cursor at 5. -/
theorem cursor_invariant_witness :
    (∀ p cp q, decodeNBSP [239, 187, 191, 194, 160, 43] p = some (cp, q) →
      p < q ∧ q ≤ [239, 187, 191, 194, 160, 43].length) ∧
    (0 ≤ (InitLexer [239, 187, 191, 194, 160, 43] 0 false).BufferPtr ∧
      (InitLexer [239, 187, 191, 194, 160, 43] 0 false).BufferPtr ≤
        [239, 187, 191, 194, 160, 43].length) ∧
    (SetByteOffset [239, 187, 191, 194, 160, 43]
      (InitLexer [239, 187, 191, 194, 160, 43] 0 false) 9 true).BufferPtr =
        [239, 187, 191, 194, 160, 43].length ∧
    (∃ tok L1, Lex ⟨TokenKind.unknown, decodeNBSP⟩ [239, 187, 191, 194, 160, 43] 1
        (InitLexer [239, 187, 191, 194, 160, 43] 0 false) = some (true, tok, L1) ∧
      (InitLexer [239, 187, 191, 194, 160, 43] 0 false).BufferPtr ≤ L1.BufferPtr ∧
      L1.BufferPtr ≤ [239, 187, 191, 194, 160, 43].length) :=
  ⟨decodeNBSP_within _,
   (cursor_invariant ⟨TokenKind.unknown, decodeNBSP⟩ [239, 187, 191, 194, 160, 43]
     (decodeNBSP_within _)).1 0 false (by decide),
   ((cursor_invariant ⟨TokenKind.unknown, decodeNBSP⟩ [239, 187, 191, 194, 160, 43]
     (decodeNBSP_within _)).2.1 (InitLexer [239, 187, 191, 194, 160, 43] 0 false) 9
       true).2.2 (by decide),
   _, _, rfl,
   ((cursor_invariant ⟨TokenKind.unknown, decodeNBSP⟩ [239, 187, 191, 194, 160, 43]
     (decodeNBSP_within _)).2.2 1 (InitLexer [239, 187, 191, 194, 160, 43] 0 false) true
       _ _ (by decide) rfl).2⟩


/-! ## Casts, compound literals and conditionals -/

/-- The UnexpandedPack bit of a union. -/
@[simp]
theorem hasUnexpandedPack_or (a b : ExprDependence) :
    (a ||| b).hasUnexpandedPack = (a.hasUnexpandedPack || b.hasUnexpandedPack) := rfl

/-- The Instantiation bit of a union. -/
@[simp]
theorem hasInstantiation_or (a b : ExprDependence) :
    (a ||| b).hasInstantiation = (a.hasInstantiation || b.hasInstantiation) := rfl

/-- The Type bit of a union. -/
@[simp]
theorem hasType_or (a b : ExprDependence) :
    (a ||| b).hasType = (a.hasType || b.hasType) := rfl

/-- The Value bit of a union. -/
@[simp]
theorem hasValue_or (a b : ExprDependence) :
    (a ||| b).hasValue = (a.hasValue || b.hasValue) := rfl

/-- The Error bit of a union. -/
@[simp]
theorem hasError_or (a b : ExprDependence) :
    (a ||| b).hasError = (a.hasError || b.hasError) := rfl

/-- The UnexpandedPack bit of an intersection. -/
@[simp]
theorem hasUnexpandedPack_and (a b : ExprDependence) :
    (a &&& b).hasUnexpandedPack = (a.hasUnexpandedPack && b.hasUnexpandedPack) := rfl

/-- The Instantiation bit of an intersection. -/
@[simp]
theorem hasInstantiation_and (a b : ExprDependence) :
    (a &&& b).hasInstantiation = (a.hasInstantiation && b.hasInstantiation) := rfl

/-- The Type bit of an intersection. -/
@[simp]
theorem hasType_and (a b : ExprDependence) :
    (a &&& b).hasType = (a.hasType && b.hasType) := rfl

/-- The Value bit of an intersection. -/
@[simp]
theorem hasValue_and (a b : ExprDependence) :
    (a &&& b).hasValue = (a.hasValue && b.hasValue) := rfl

/-- The Error bit of an intersection. -/
@[simp]
theorem hasError_and (a b : ExprDependence) :
    (a &&& b).hasError = (a.hasError && b.hasError) := rfl

/-- The UnexpandedPack bit of a complement. -/
@[simp]
theorem hasUnexpandedPack_compl (a : ExprDependence) :
    (~~~a).hasUnexpandedPack = !a.hasUnexpandedPack := rfl

/-- The Instantiation bit of a complement. -/
@[simp]
theorem hasInstantiation_compl (a : ExprDependence) :
    (~~~a).hasInstantiation = !a.hasInstantiation := rfl

/-- The Type bit of a complement. -/
@[simp]
theorem hasType_compl (a : ExprDependence) : (~~~a).hasType = !a.hasType := rfl

/-- The Value bit of a complement. -/
@[simp]
theorem hasValue_compl (a : ExprDependence) : (~~~a).hasValue = !a.hasValue := rfl

/-- The Error bit of a complement. -/
@[simp]
theorem hasError_compl (a : ExprDependence) : (~~~a).hasError = !a.hasError := rfl

/-- Two dependences with the same five bits are equal. -/
theorem ExprDependence_ext (a b : ExprDependence)
    (h1 : a.hasUnexpandedPack = b.hasUnexpandedPack)
    (h2 : a.hasInstantiation = b.hasInstantiation) (h3 : a.hasType = b.hasType)
    (h4 : a.hasValue = b.hasValue) (h5 : a.hasError = b.hasError) : a = b := by
  cases a; cases b; simp_all

/-- The union is associative. -/
theorem ExprDependence_or_assoc (a b c : ExprDependence) :
    (a ||| b) ||| c = a ||| (b ||| c) := by
  apply ExprDependence_ext <;> simp [Bool.or_assoc]

/-- The union with no bit on the right is the identity. -/
theorem ExprDependence_or_None (a : ExprDependence) : a ||| ExprDependence.None = a := by
  apply ExprDependence_ext <;> simp [ExprDependence.None]

/-- A union gathered by a loop from the bits `D0` is `D0` united with the union gathered
from no bit. -/
theorem foldl_or_start {α : Type} (g : α → ExprDependence) :
    ∀ (l : List α) (D0 : ExprDependence),
      l.foldl (fun D x => D ||| g x) D0 =
        D0 ||| l.foldl (fun D x => D ||| g x) ExprDependence.None := by
  intro l
  induction l with
  | nil => intro D0; simp [ExprDependence_or_None]
  | cons x l ih =>
    intro D0
    simp only [List.foldl_cons]
    rw [ih (D0 ||| g x), ih (ExprDependence.None ||| g x), ExprDependence_None_or,
      ExprDependence_or_assoc]

/-- C21: for a `CastExpr` with a sub-expression the result is the dependence of the type of
the cast, without its UnexpandedPack bit when the cast is an `ImplicitCastExpr`, united with
the bits of the sub-expression other than Type; so when the type contributes no bit and the
sub-expression is Type|Value, the result has the Value bit and not the Type bit. -/
theorem CastExpr_computeDependence (E : CastExpr) (S : Expr) (hS : E.getSubExpr = some S) :
    E.computeDependence =
      (if E.getStmtClass = StmtClass.ImplicitCastExprClass
        then E.getType.getDependence.toExprDependence &&& ~~~ExprDependence.UnexpandedPack
        else E.getType.getDependence.toExprDependence) |||
      (S.getDependence &&& ~~~ExprDependence.Type_) ∧
    E.computeDependence.hasType = E.getType.getDependence.toExprDependence.hasType ∧
    E.computeDependence.hasValue =
      (E.getType.getDependence.toExprDependence.hasValue || S.getDependence.hasValue) ∧
    (E.getType.getDependence.toExprDependence = ExprDependence.None →
      S.getDependence = ExprDependence.TypeValue →
      E.computeDependence.hasValue = true ∧ E.computeDependence.hasType = false) := by
  have hE : E.computeDependence =
      (if E.getStmtClass = StmtClass.ImplicitCastExprClass
        then E.getType.getDependence.toExprDependence &&& ~~~ExprDependence.UnexpandedPack
        else E.getType.getDependence.toExprDependence) |||
      (S.getDependence &&& ~~~ExprDependence.Type_) := by
    simp only [CastExpr.computeDependence, hS, beq_iff_eq]
  have hT : E.computeDependence.hasType =
      E.getType.getDependence.toExprDependence.hasType := by
    rw [hE]
    split_ifs <;> simp [ExprDependence.UnexpandedPack, ExprDependence.Type_]
  have hV : E.computeDependence.hasValue =
      (E.getType.getDependence.toExprDependence.hasValue || S.getDependence.hasValue) := by
    rw [hE]
    split_ifs <;> simp [ExprDependence.UnexpandedPack, ExprDependence.Type_]
  refine ⟨hE, hT, hV, ?_⟩
  intro hN hTV
  rw [hT, hV, hN, hTV]
  exact ⟨rfl, rfl⟩

/-- The instance of C21 at the explicit cast `(int)x` with `x` of dependence Type|Value:
the type `int` contributes no bit, the result has Value and not Type. -/
theorem CastExpr_computeDependence_witness :
    exampleCast.getType.getDependence.toExprDependence = ExprDependence.None ∧
    exampleCast.computeDependence.hasValue = true ∧
    exampleCast.computeDependence.hasType = false :=
  ⟨rfl, (CastExpr_computeDependence exampleCast ⟨ExprDependence.TypeValue⟩ rfl).2.2.2
    rfl rfl⟩

/-- C22, as the code has it: a cast is type-dependent exactly when its type is dependent,
whether it is an `ImplicitCastExpr` or an explicit cast and whatever its sub-expression: the
Type bit of the result is the Dependent bit of the type. The statement class changes no bit
of the result but UnexpandedPack. -/
theorem CastExpr_type_bit (E : CastExpr) (c : StmtClass) :
    E.computeDependence.hasType = E.getType.isDependentType ∧
    ({ E with getStmtClass := c } : CastExpr).computeDependence.hasType =
      E.computeDependence.hasType ∧
    ({ E with getStmtClass := c } : CastExpr).computeDependence.hasValue =
      E.computeDependence.hasValue ∧
    ({ E with getStmtClass := c } : CastExpr).computeDependence.hasInstantiation =
      E.computeDependence.hasInstantiation ∧
    ({ E with getStmtClass := c } : CastExpr).computeDependence.hasError =
      E.computeDependence.hasError := by
  have key : ∀ F : CastExpr,
      F.computeDependence.hasType = F.getType.isDependentType ∧
      F.computeDependence.hasValue = (F.getType.isDependentType ||
        (match F.getSubExpr with
          | some S => S.getDependence.hasValue
          | none => false)) ∧
      F.computeDependence.hasInstantiation = (F.getType.getDependence.hasInstantiation ||
        (match F.getSubExpr with
          | some S => S.getDependence.hasInstantiation
          | none => false)) ∧
      F.computeDependence.hasError = (F.getType.getDependence.hasError ||
        (match F.getSubExpr with
          | some S => S.getDependence.hasError
          | none => false)) := by
    intro F
    obtain ⟨T, k, S⟩ := F
    cases S <;> cases hk : (k == StmtClass.ImplicitCastExprClass) <;>
      simp [CastExpr.computeDependence, hk, ExprDependence.UnexpandedPack,
        ExprDependence.Type_, TypeDependence.toExprDependence, QualType.isDependentType]
  obtain ⟨a1, a2, a3, a4⟩ := key E
  obtain ⟨b1, b2, b3, b4⟩ := key { E with getStmtClass := c }
  exact ⟨a1, by rw [b1, a1], by rw [b2, a2], by rw [b3, a3], by rw [b4, a4]⟩

/-- The counterexample to C22 as stated: an `ImplicitCastExpr` whose type is dependent and
whose sub-expression has no bit has the Type bit, as the explicit cast with the same type
and sub-expression has. -/
theorem ImplicitCastExpr_of_dependent_type_has_Type :
    (⟨ExprDependence.None⟩ : Expr).getDependence.hasType = false ∧
    (CastExpr.mk exampleDependent StmtClass.ImplicitCastExprClass
      (some ⟨ExprDependence.None⟩)).computeDependence.hasType = true ∧
    (CastExpr.mk exampleDependent StmtClass.CStyleCastExprClass
      (some ⟨ExprDependence.None⟩)).computeDependence.hasType = true := by
  decide

/-- C23: the result for a `CompoundLiteralExpr` has the Value bit whenever the dependence of
its initializer has the Type bit. -/
theorem CompoundLiteralExpr_value_of_type (E : CompoundLiteralExpr)
    (h : E.getInitializer.getDependence.hasType = true) :
    E.computeDependence.hasValue = true := by
  simp [CompoundLiteralExpr.computeDependence, turnTypeToValueDependence, h]

/-- The instance of C23 at a compound literal of type `int` whose initializer has the Type
bit only. -/
theorem CompoundLiteralExpr_value_of_type_witness :
    (CompoundLiteralExpr.mk ⟨exampleInt⟩ ⟨ExprDependence.Type_⟩).computeDependence.hasValue
      = true :=
  CompoundLiteralExpr_value_of_type
    (CompoundLiteralExpr.mk ⟨exampleInt⟩ ⟨ExprDependence.Type_⟩) rfl

/-- C24: for a `ChooseExpr` whose condition is not dependent, the Type and Value bits of the
result are those of the selected branch, the LHS when the condition is true and the RHS
otherwise, and each of the bits Instantiation, UnexpandedPack and Error is set exactly when
it is set in the condition, the LHS or the RHS; when the condition is dependent the result
is Type|Value|Instantiation united with the three sub-expressions. -/
theorem ChooseExpr_computeDependence (E : ChooseExpr) :
    (E.isConditionDependent = false →
      E.computeDependence.hasType =
        (if E.isConditionTrue then E.getLHS else E.getRHS).getDependence.hasType ∧
      E.computeDependence.hasValue =
        (if E.isConditionTrue then E.getLHS else E.getRHS).getDependence.hasValue ∧
      E.computeDependence.hasInstantiation =
        (E.getCond.getDependence.hasInstantiation || E.getLHS.getDependence.hasInstantiation
          || E.getRHS.getDependence.hasInstantiation) ∧
      E.computeDependence.hasUnexpandedPack =
        (E.getCond.getDependence.hasUnexpandedPack ||
          E.getLHS.getDependence.hasUnexpandedPack ||
          E.getRHS.getDependence.hasUnexpandedPack) ∧
      E.computeDependence.hasError =
        (E.getCond.getDependence.hasError || E.getLHS.getDependence.hasError ||
          E.getRHS.getDependence.hasError)) ∧
    (E.isConditionDependent = true →
      E.computeDependence = ExprDependence.TypeValueInstantiation |||
        E.getCond.getDependence ||| E.getLHS.getDependence ||| E.getRHS.getDependence) := by
  obtain ⟨cd, ct, C, L, R⟩ := E
  refine ⟨?_, ?_⟩
  · intro h
    have h1 : cd = false := h
    subst h1
    cases ct <;>
      simp [ChooseExpr.computeDependence, ExprDependence.TypeValue, Bool.or_comm,
        Bool.or_left_comm]
  · intro h
    have h1 : cd = true := h
    subst h1
    simp [ChooseExpr.computeDependence]

/-- The instances of C24 at a condition that is not dependent and true, with a
type-dependent LHS and an RHS that holds an unexpanded pack, and at a dependent
condition. -/
theorem ChooseExpr_computeDependence_witness :
    (exampleChooseKnown.computeDependence.hasType = true ∧
      exampleChooseKnown.computeDependence.hasUnexpandedPack = true) ∧
    exampleChooseDependent.computeDependence =
      ExprDependence.TypeValueInstantiation ||| ExprDependence.Value |||
        ExprDependence.None ||| ExprDependence.Error :=
  ⟨⟨((ChooseExpr_computeDependence exampleChooseKnown).1 rfl).1,
     ((ChooseExpr_computeDependence exampleChooseKnown).1 rfl).2.2.2.1⟩,
   (ChooseExpr_computeDependence exampleChooseDependent).2 rfl⟩

/-! ## Declaration references -/

/-- The bits gathered before the test of the type are those of the qualifier, of the
template arguments, UnexpandedPack for a parameter pack, and the Error bit of the type. -/
theorem DeclRefExpr_depsBeforeTypeTest (E : DeclRefExpr) :
    E.depsBeforeTypeTest =
      E.qualifierBits ||| E.templateArgumentBits |||
        (if E.getDecl.isParameterPack then ExprDependence.UnexpandedPack
          else ExprDependence.None) |||
        (E.getType.getDependence.toExprDependence &&& ExprDependence.Error) := by
  obtain ⟨Q, A, D, T⟩ := E
  have hq : ∀ Q : Option NestedNameSpecifier,
      (match Q with
        | some NNS => ExprDependence.None ||| (NNS.getDependence &&&
            ~~~NestedNameSpecifierDependence.Dependent).toExprDependence
        | none => ExprDependence.None) =
      (match Q with
        | some NNS => (NNS.getDependence &&&
            ~~~NestedNameSpecifierDependence.Dependent).toExprDependence
        | none => ExprDependence.None) := by
    intro Q
    cases Q <;> simp [ExprDependence_None_or]
  simp only [DeclRefExpr.depsBeforeTypeTest, DeclRefExpr.qualifierBits,
    DeclRefExpr.templateArgumentBits, hq]
  congr 1
  cases A with
  | none =>
    simp only [ExprDependence_or_None]
    split_ifs <;> simp [ExprDependence_or_None]
  | some Args =>
    simp only []
    rw [foldl_or_start (fun Arg : TemplateArgumentLoc =>
      Arg.getArgument.getDependence.toExprDependence) Args]
    split_ifs <;> simp [ExprDependence_or_None]

/-- C25: for a `DeclRefExpr` whose type is dependent the result is Type|Value|Instantiation
united with the bits gathered before the test of the type, which are those of the
qualifier, of the template arguments, UnexpandedPack for a parameter pack and the Error bit
of the type; no later rule changes it: the result is the same for every name, class and
context of the declaration and for every language mode. -/
theorem DeclRefExpr_dependent_type (E : DeclRefExpr) (Ctx : ASTContext)
    (h : E.getType.isDependentType = true) :
    E.computeDependence Ctx =
      (E.qualifierBits ||| E.templateArgumentBits |||
        (if E.getDecl.isParameterPack then ExprDependence.UnexpandedPack
          else ExprDependence.None) |||
        (E.getType.getDependence.toExprDependence &&& ExprDependence.Error)) |||
      ExprDependence.TypeValueInstantiation ∧
    ∀ (Name : DeclarationName) (DC : DeclContext) (K : DeclClass) (Ctx1 : ASTContext),
      ({ E with getDecl := ⟨E.getDecl.isParameterPack, Name, DC, K⟩ } :
        DeclRefExpr).computeDependence Ctx1 = E.computeDependence Ctx := by
  have key : ∀ (F : DeclRefExpr) (C : ASTContext), F.getType.isDependentType = true →
      F.computeDependence C = F.depsBeforeTypeTest ||| ExprDependence.TypeValueInstantiation := by
    intro F C hF
    simp only [DeclRefExpr.computeDependence, hF, if_true]
  refine ⟨?_, ?_⟩
  · rw [key E Ctx h, DeclRefExpr_depsBeforeTypeTest]
  · intro Name DC K Ctx1
    rw [key E Ctx h, key { E with getDecl := ⟨E.getDecl.isParameterPack, Name, DC, K⟩ }
      Ctx1 h]
    rfl

/-- The instance of C25 at a reference, of dependent type, to a parameter pack that is a
variable and a static data member of a dependent context: the result is
Type|Value|Instantiation with UnexpandedPack, in both language modes. -/
theorem DeclRefExpr_dependent_type_witness :
    examplePackRef.getType.isDependentType = true ∧
    examplePackRef.computeDependence ⟨⟨true⟩⟩ =
      ExprDependence.UnexpandedPack ||| ExprDependence.TypeValueInstantiation ∧
    examplePackRef.computeDependence ⟨⟨false⟩⟩ =
      ExprDependence.UnexpandedPack ||| ExprDependence.TypeValueInstantiation :=
  ⟨rfl, (DeclRefExpr_dependent_type examplePackRef ⟨⟨true⟩⟩ rfl).1.trans (by decide),
   (DeclRefExpr_dependent_type examplePackRef ⟨⟨false⟩⟩ rfl).1.trans (by decide)⟩

/-- The result for a declaration reference whose type is not dependent and whose name is
not a conversion-function name: the rules of the declaration applied to the bits gathered
before, with the Instantiation bit of an instantiation-dependent type. -/
theorem DeclRefExpr_not_dependent (E : DeclRefExpr) (Ctx : ASTContext)
    (hT : E.getType.isDependentType = false)
    (hN : E.getDecl.getDeclName.getNameKind ≠ NameKind.CXXConversionFunctionName) :
    E.computeDependence Ctx = E.depsOfDecl Ctx
      (if E.getType.isInstantiationDependentType
        then E.depsBeforeTypeTest ||| ExprDependence.Instantiation
        else E.depsBeforeTypeTest) := by
  have hN1 : (E.getDecl.getDeclName.getNameKind == NameKind.CXXConversionFunctionName)
      = false := by simpa using hN
  simp only [DeclRefExpr.computeDependence, hT, hN1, Bool.false_eq_true, if_false]

/-- C26: for a `DeclRefExpr` whose type is not dependent, whose name is not a
conversion-function name and whose declaration is a non-type template parameter, the result
has the Value and Instantiation bits, and it has the Type bit only if the qualifier or a
template argument contributed it; it is the bits gathered so far united with
Value|Instantiation, the same for every context of the declaration and every language
mode. -/
theorem DeclRefExpr_non_type_template_parameter (E : DeclRefExpr) (Ctx : ASTContext)
    (hT : E.getType.isDependentType = false)
    (hN : E.getDecl.getDeclName.getNameKind ≠ NameKind.CXXConversionFunctionName)
    (hK : E.getDecl.getClass = DeclClass.NonTypeTemplateParm) :
    (E.computeDependence Ctx).hasValue = true ∧
    (E.computeDependence Ctx).hasInstantiation = true ∧
    ((E.computeDependence Ctx).hasType = true →
      E.qualifierBits.hasType = true ∨ E.templateArgumentBits.hasType = true) ∧
    E.computeDependence Ctx =
      (if E.getType.isInstantiationDependentType
        then E.depsBeforeTypeTest ||| ExprDependence.Instantiation
        else E.depsBeforeTypeTest) ||| ExprDependence.ValueInstantiation := by
  have hE : E.computeDependence Ctx =
      (if E.getType.isInstantiationDependentType
        then E.depsBeforeTypeTest ||| ExprDependence.Instantiation
        else E.depsBeforeTypeTest) ||| ExprDependence.ValueInstantiation := by
    rw [DeclRefExpr_not_dependent E Ctx hT hN]
    simp only [DeclRefExpr.depsOfDecl, hK]
  refine ⟨?_, ?_, ?_, hE⟩
  · rw [hE]; simp [ExprDependence.ValueInstantiation]
  · rw [hE]; simp [ExprDependence.ValueInstantiation]
  · rw [hE, DeclRefExpr_depsBeforeTypeTest]
    intro h
    split_ifs at h <;>
      simp [ExprDependence.ValueInstantiation, ExprDependence.Instantiation,
        ExprDependence.UnexpandedPack, ExprDependence.None, ExprDependence.Error] at h <;>
      exact h

/-- The instance of C26 at a reference to a non-type template parameter of type `int`,
with one dependent template argument. -/
theorem DeclRefExpr_non_type_template_parameter_witness :
    exampleParmRef.getType.isDependentType = false ∧
    exampleParmRef.getDecl.getClass = DeclClass.NonTypeTemplateParm ∧
    exampleParmRef.computeDependence ⟨⟨true⟩⟩ = ExprDependence.TypeValueInstantiation :=
  ⟨rfl, rfl, ((DeclRefExpr_non_type_template_parameter exampleParmRef ⟨⟨true⟩⟩ rfl
    (by decide) rfl).2.2.2).trans (by decide)⟩

/-- C27: for a `DeclRefExpr` that names a variable of type `const int` (a literal and
integral, const-qualified type that is neither dependent nor instantiation-dependent and
carries no error), with no qualifier and no template arguments, that is not a parameter pack
and not a static data member of a dependent context, and whose initializer is
value-dependent, the result is exactly Value|Instantiation, in C++11 mode and before
alike. -/
theorem DeclRefExpr_const_int_variable (E : DeclRefExpr) (Ctx : ASTContext) (Var : VarDecl)
    (Init : Expr)
    (hQ : E.getQualifier = none) (hA : E.getTemplateArgs = none)
    (hP : E.getDecl.isParameterPack = false)
    (hTD : E.getType.isDependentType = false)
    (hTI : E.getType.isInstantiationDependentType = false)
    (hTE : E.getType.getDependence.hasError = false)
    (hN : E.getDecl.getDeclName.getNameKind ≠ NameKind.CXXConversionFunctionName)
    (hK : E.getDecl.getClass = DeclClass.Var Var)
    (hLit : Var.getType.isLiteralType = true)
    (hInt : Var.getType.isIntegralOrEnumerationType = true)
    (hConst : Var.getType.isConstQualified = true)
    (hInit : Var.getAnyInitializer = some Init)
    (hVD : Init.isValueDependent = true)
    (hS : (Var.isStaticDataMember && E.getDecl.getDeclContext.isDependentContext) = false) :
    E.computeDependence Ctx = ExprDependence.ValueInstantiation ∧
    (E.computeDependence Ctx).hasValue = true ∧
    (E.computeDependence Ctx).hasInstantiation = true ∧
    (E.computeDependence Ctx).hasType = false := by
  have hB : E.depsBeforeTypeTest = ExprDependence.None := by
    rw [DeclRefExpr_depsBeforeTypeTest]
    apply ExprDependence_ext <;>
      simp [DeclRefExpr.qualifierBits, DeclRefExpr.templateArgumentBits, hQ, hA, hP, hTE,
        ExprDependence.None, ExprDependence.Error, TypeDependence.toExprDependence]
  have hE : E.computeDependence Ctx = ExprDependence.ValueInstantiation := by
    rw [DeclRefExpr_not_dependent E Ctx hTD hN, hB]
    simp only [DeclRefExpr.depsOfDecl, hK, hTI, hLit, hInt, hConst, hInit, hVD, hS,
      ite_self, Bool.true_or, Bool.and_self, Bool.false_eq_true, if_true, if_false,
      ExprDependence_None_or]
  rw [hE]
  exact ⟨rfl, rfl, rfl, rfl⟩

/-- The instances of C27 at a reference to `const int n = N;` with `N` value-dependent, in
C++11 mode and before. -/
theorem DeclRefExpr_const_int_variable_witness :
    exampleConstIntRef.computeDependence ⟨⟨true⟩⟩ = ExprDependence.ValueInstantiation ∧
    exampleConstIntRef.computeDependence ⟨⟨false⟩⟩ = ExprDependence.ValueInstantiation :=
  ⟨(DeclRefExpr_const_int_variable exampleConstIntRef ⟨⟨true⟩⟩ exampleConstIntVar
      ⟨ExprDependence.ValueInstantiation⟩
      rfl rfl rfl rfl rfl rfl (by decide) rfl rfl rfl rfl rfl rfl rfl).1,
   (DeclRefExpr_const_int_variable exampleConstIntRef ⟨⟨false⟩⟩ exampleConstIntVar
      ⟨ExprDependence.ValueInstantiation⟩
      rfl rfl rfl rfl rfl rfl (by decide) rfl rfl rfl rfl rfl rfl rfl).1⟩

/-- C28: for a `DeclRefExpr` whose type is not dependent and that names a variable which is
a static data member declared in a dependent context, the result has the Value and
Instantiation bits, and it has the Type bit as well when the type written in the first
declaration of the variable is an incomplete array type. -/
theorem DeclRefExpr_static_data_member (E : DeclRefExpr) (Ctx : ASTContext) (Var : VarDecl)
    (hTD : E.getType.isDependentType = false)
    (hK : E.getDecl.getClass = DeclClass.Var Var)
    (hS : Var.isStaticDataMember = true)
    (hDC : E.getDecl.getDeclContext.isDependentContext = true) :
    (E.computeDependence Ctx).hasValue = true ∧
    (E.computeDependence Ctx).hasInstantiation = true ∧
    (Var.getFirstDecl.getTypeSourceInfo.getType.isIncompleteArrayType = true →
      (E.computeDependence Ctx).hasType = true) := by
  have hD : ∀ Deps : ExprDependence,
      (E.depsOfDecl Ctx Deps).hasValue = true ∧
      (E.depsOfDecl Ctx Deps).hasInstantiation = true ∧
      (Var.getFirstDecl.getTypeSourceInfo.getType.isIncompleteArrayType = true →
        (E.depsOfDecl Ctx Deps).hasType = true) := by
    intro Deps
    simp only [DeclRefExpr.depsOfDecl, hK, hS, hDC, Bool.and_self, if_true]
    by_cases hI : Var.getFirstDecl.getTypeSourceInfo.getType.isIncompleteArrayType = true
    · simp [hI, ExprDependence.ValueInstantiation, ExprDependence.Type_]
    · simp [hI, ExprDependence.ValueInstantiation]
  simp only [DeclRefExpr.computeDependence, hTD, Bool.false_eq_true, if_false]
  split_ifs <;> first
    | exact hD _
    | simp [ExprDependence.TypeValueInstantiation]

/-- The instance of C28 at a reference to a static data member declared `int a[];` in a
class template, the type of the reference being `int[3]`: the result has Value,
Instantiation and Type. -/
theorem DeclRefExpr_static_data_member_witness :
    (exampleMemberRef.computeDependence ⟨⟨true⟩⟩).hasValue = true ∧
    (exampleMemberRef.computeDependence ⟨⟨true⟩⟩).hasInstantiation = true ∧
    (exampleMemberRef.computeDependence ⟨⟨true⟩⟩).hasType = true :=
  ⟨(DeclRefExpr_static_data_member exampleMemberRef ⟨⟨true⟩⟩ exampleMemberVar
      rfl rfl rfl rfl).1,
   (DeclRefExpr_static_data_member exampleMemberRef ⟨⟨true⟩⟩ exampleMemberVar
      rfl rfl rfl rfl).2.1,
   (DeclRefExpr_static_data_member exampleMemberRef ⟨⟨true⟩⟩ exampleMemberVar
      rfl rfl rfl rfl).2.2 rfl⟩

/-! ## Recovery expressions and pack boundaries -/

/-- The bits of a union gathered by a loop over expressions: a bit is set when it is set at
the start or in one of the expressions. -/
theorem foldl_or_bits (l : List Expr) :
    ∀ D0 : ExprDependence,
      (l.foldl (fun D S => D ||| S.getDependence) D0).hasUnexpandedPack =
        (D0.hasUnexpandedPack || l.any fun S => S.getDependence.hasUnexpandedPack) ∧
      (l.foldl (fun D S => D ||| S.getDependence) D0).hasInstantiation =
        (D0.hasInstantiation || l.any fun S => S.getDependence.hasInstantiation) ∧
      (l.foldl (fun D S => D ||| S.getDependence) D0).hasType =
        (D0.hasType || l.any fun S => S.getDependence.hasType) ∧
      (l.foldl (fun D S => D ||| S.getDependence) D0).hasValue =
        (D0.hasValue || l.any fun S => S.getDependence.hasValue) ∧
      (l.foldl (fun D S => D ||| S.getDependence) D0).hasError =
        (D0.hasError || l.any fun S => S.getDependence.hasError) := by
  induction l with
  | nil => intro D0; simp
  | cons S l ih =>
    intro D0
    obtain ⟨h1, h2, h3, h4, h5⟩ := ih (D0 ||| S.getDependence)
    simp [List.foldl_cons, List.any_cons, h1, h2, h3, h4, h5, Bool.or_assoc]

/-- A dependence each of whose bits is a bit of `b` is a subset of `b`. -/
theorem subset_of_bits (a b : ExprDependence)
    (h1 : a.hasUnexpandedPack = true → b.hasUnexpandedPack = true)
    (h2 : a.hasInstantiation = true → b.hasInstantiation = true)
    (h3 : a.hasType = true → b.hasType = true)
    (h4 : a.hasValue = true → b.hasValue = true)
    (h5 : a.hasError = true → b.hasError = true) : a.subset b = true := by
  obtain ⟨a1, a2, a3, a4, a5⟩ := a
  obtain ⟨b1, b2, b3, b4, b5⟩ := b
  simp only [ExprDependence.subset, Bool.and_eq_true, Bool.or_eq_true, Bool.not_eq_true']
  refine ⟨⟨⟨⟨?_, ?_⟩, ?_⟩, ?_⟩, ?_⟩
  · cases a1 <;> simp_all
  · cases a2 <;> simp_all
  · cases a3 <;> simp_all
  · cases a4 <;> simp_all
  · cases a5 <;> simp_all

/-- C29: the result for a `RecoveryExpr` is the dependence of its type united with
Value|Instantiation|Error and with the dependence of every sub-expression: bit by bit, a bit
is set exactly when it is Value, Instantiation or Error, or is set in the type or in a
sub-expression. So for every list of sub-expressions, the empty one included, the result
has Value, Instantiation and Error and every bit of every sub-expression. -/
theorem RecoveryExpr_computeDependence (E : RecoveryExpr) :
    E.computeDependence =
      (E.getType.getDependence.toExprDependence ||| ExprDependence.ValueInstantiation |||
        ExprDependence.Error) ||| unionOfSubExprs (E.subExpressions.map some) ∧
    (E.computeDependence.hasValue = true ∧ E.computeDependence.hasInstantiation = true ∧
      E.computeDependence.hasError = true) ∧
    E.computeDependence.hasType = (E.getType.getDependence.toExprDependence.hasType ||
      E.subExpressions.any fun S => S.getDependence.hasType) ∧
    E.computeDependence.hasUnexpandedPack =
      (E.getType.getDependence.toExprDependence.hasUnexpandedPack ||
        E.subExpressions.any fun S => S.getDependence.hasUnexpandedPack) ∧
    (∀ S ∈ E.subExpressions, S.getDependence.subset E.computeDependence = true) ∧
    E.getType.getDependence.toExprDependence.subset E.computeDependence = true := by
  obtain ⟨h1, h2, h3, h4, h5⟩ := foldl_or_bits E.subExpressions
    (E.getType.getDependence.toExprDependence ||| ExprDependence.ValueInstantiation |||
      ExprDependence.Error)
  have hU : unionOfSubExprs (E.subExpressions.map some) =
      E.subExpressions.foldl (fun D S => D ||| S.getDependence) ExprDependence.None := by
    simp only [unionOfSubExprs, List.foldl_map]
  have e1 : E.computeDependence.hasUnexpandedPack = _ := h1
  have e2 : E.computeDependence.hasInstantiation = _ := h2
  have e3 : E.computeDependence.hasType = _ := h3
  have e4 : E.computeDependence.hasValue = _ := h4
  have e5 : E.computeDependence.hasError = _ := h5
  refine ⟨?_, ⟨?_, ?_, ?_⟩, ?_, ?_, ?_, ?_⟩
  · rw [hU]
    exact foldl_or_start (fun S : Expr => S.getDependence) E.subExpressions _
  · rw [e4]; simp [ExprDependence.ValueInstantiation]
  · rw [e2]; simp [ExprDependence.ValueInstantiation]
  · rw [e5]; simp [ExprDependence.Error]
  · rw [e3]; simp [ExprDependence.ValueInstantiation, ExprDependence.Error]
  · rw [e1]; simp [ExprDependence.ValueInstantiation, ExprDependence.Error]
  · intro S hS
    have hany : ∀ f : Expr → Bool, f S = true → (E.subExpressions.any f) = true :=
      fun f hf => List.any_eq_true.mpr ⟨S, hS, hf⟩
    apply subset_of_bits
    · intro h; rw [e1, hany _ h]; simp
    · intro h; rw [e2, hany _ h]; simp
    · intro h; rw [e3, hany _ h]; simp
    · intro h; rw [e4, hany _ h]; simp
    · intro h; rw [e5, hany _ h]; simp
  · apply subset_of_bits
    · intro h; rw [e1]; simp [h]
    · intro h; rw [e2]; simp [h]
    · intro h; rw [e3]; simp [h]
    · intro h; rw [e4]; simp [h]
    · intro h; rw [e5]; simp [h]

/-- C30: the result for a `StmtExpr` and for a `BlockExpr` never has the UnexpandedPack
bit, whatever the type of the node, the result expression of the statement-expression, the
template depth and the context of the block. -/
theorem StmtExpr_BlockExpr_no_UnexpandedPack (S : StmtExpr) (TemplateDepth : Nat)
    (B : BlockExpr) :
    (S.computeDependence TemplateDepth).hasUnexpandedPack = false ∧
    B.computeDependence.hasUnexpandedPack = false := by
  refine ⟨?_, ?_⟩
  · simp [StmtExpr.computeDependence, ExprDependence.UnexpandedPack]
  · simp [BlockExpr.computeDependence, ExprDependence.UnexpandedPack]

/-- The instances of C29 at a recovery expression of type `int` with no sub-expression and
with one type-dependent sub-expression. -/
theorem RecoveryExpr_computeDependence_witness :
    (RecoveryExpr.mk exampleInt []).computeDependence =
      ExprDependence.ValueInstantiation ||| ExprDependence.Error ∧
    (⟨ExprDependence.TypeValueInstantiation⟩ : Expr).getDependence.subset
      (RecoveryExpr.mk exampleInt
        [⟨ExprDependence.TypeValueInstantiation⟩]).computeDependence = true ∧
    (RecoveryExpr.mk exampleInt
      [⟨ExprDependence.TypeValueInstantiation⟩]).computeDependence.hasError = true :=
  ⟨(RecoveryExpr_computeDependence (RecoveryExpr.mk exampleInt [])).1.trans (by decide),
   (RecoveryExpr_computeDependence (RecoveryExpr.mk exampleInt
      [⟨ExprDependence.TypeValueInstantiation⟩])).2.2.2.2.1
      ⟨ExprDependence.TypeValueInstantiation⟩ (by simp),
   (RecoveryExpr_computeDependence (RecoveryExpr.mk exampleInt
      [⟨ExprDependence.TypeValueInstantiation⟩])).2.1.2.2⟩


/-! ## Traits of an expression and lambdas -/

/-- The bits of the dependence before the alignment rules: no Type bit, the Value bit is
the Type bit of the argument, the other bits are those of the argument. -/
theorem UnaryExprOrTypeTraitExpr_first_bits (A : ExprDependence) :
    (if (A &&& ExprDependence.Type_) != ExprDependence.None
      then (A &&& ~~~ExprDependence.TypeValue) ||| ExprDependence.Value
      else A &&& ~~~ExprDependence.TypeValue) =
    ⟨A.hasUnexpandedPack, A.hasInstantiation, false, A.hasType, A.hasError⟩ := by
  obtain ⟨a1, a2, a3, a4, a5⟩ := A
  cases a3 <;>
    simp [ExprDependence.Type_, ExprDependence.None, ExprDependence.TypeValue,
      ExprDependence.Value, HAnd.hAnd, AndOp.and, ExprDependence.inter, HOr.hOr, OrOp.or,
      ExprDependence.union, Complement.complement, ExprDependence.compl]

/-- The loop over the `aligned` attributes sets Error when an alignment contains an error
and Value and Instantiation when an alignment is dependent; it touches no other bit. -/
theorem alignedAttr_foldl (l : List AlignedAttr) :
    ∀ D : ExprDependence,
      l.foldl alignedAttrStep D =
        ⟨D.hasUnexpandedPack,
         D.hasInstantiation || l.any fun I => I.isAlignmentDependent,
         D.hasType,
         D.hasValue || l.any fun I => I.isAlignmentDependent,
         D.hasError || l.any fun I => I.isAlignmentErrorDependent⟩ := by
  induction l with
  | nil => intro D; cases D; simp
  | cons I l ih =>
    intro D
    obtain ⟨e, d⟩ := I
    simp only [List.foldl_cons, ih, List.any_cons]
    cases e <;> cases d <;>
      simp [alignedAttrStep, ExprDependence.Error, ExprDependence.ValueInstantiation,
        Bool.or_assoc]

/-- The result for a `UnaryExprOrTypeTraitExpr` with an expression argument, bit by bit:
no Type bit; Value is the Type bit of the argument; the other bits are those of the
argument; and for `alignof` of a declaration, unless the result already has Value and
Instantiation, the `aligned` attributes add Value and Instantiation for a dependent
alignment and Error for an alignment that contains an error. -/
theorem UnaryExprOrTypeTraitExpr_of_expr (E : UnaryExprOrTypeTraitExpr)
    (h : E.isArgumentType = false) :
    E.computeDependence =
      if E.getKind.isAlignOf && !(E.getArgumentExpr.getDependence.hasType &&
          E.getArgumentExpr.getDependence.hasInstantiation) then
        match E.referencedDecl with
        | none =>
          ⟨E.getArgumentExpr.getDependence.hasUnexpandedPack,
           E.getArgumentExpr.getDependence.hasInstantiation, false,
           E.getArgumentExpr.getDependence.hasType,
           E.getArgumentExpr.getDependence.hasError⟩
        | some D =>
          ⟨E.getArgumentExpr.getDependence.hasUnexpandedPack,
           E.getArgumentExpr.getDependence.hasInstantiation || D.anyAlignmentDependent,
           false,
           E.getArgumentExpr.getDependence.hasType || D.anyAlignmentDependent,
           E.getArgumentExpr.getDependence.hasError || D.anyAlignmentErrorDependent⟩
      else
        ⟨E.getArgumentExpr.getDependence.hasUnexpandedPack,
         E.getArgumentExpr.getDependence.hasInstantiation, false,
         E.getArgumentExpr.getDependence.hasType,
         E.getArgumentExpr.getDependence.hasError⟩ := by
  obtain ⟨ty, T, ⟨A⟩, NP, K⟩ := E
  have hty : ty = false := h
  subst hty
  simp only [UnaryExprOrTypeTraitExpr.computeDependence, Bool.false_eq_true, if_false,
    UnaryExprOrTypeTraitExpr_first_bits, UnaryExprOrTypeTraitExpr.referencedDecl,
    alignedAttr_foldl, AlignedDecl.anyAlignmentDependent,
    AlignedDecl.anyAlignmentErrorDependent]
  obtain ⟨a1, a2, a3, a4, a5⟩ := A
  cases K <;> cases a3 <;> cases a2 <;>
    simp [UnaryExprOrTypeTrait.isAlignOf, ExprDependence.Value, ExprDependence.None,
      ExprDependence.Instantiation, HAnd.hAnd, AndOp.and, ExprDependence.inter]

/-- C33: for a `UnaryExprOrTypeTraitExpr` with an expression argument the result is never
type-dependent, and for every kind other than `alignof` and preferred `alignof` it is
value-dependent exactly when the argument is type-dependent, with the Instantiation,
UnexpandedPack and Error bits of the argument carried over unchanged. -/
theorem UnaryExprOrTypeTraitExpr_expression_argument (E : UnaryExprOrTypeTraitExpr)
    (h : E.isArgumentType = false) :
    E.computeDependence.hasType = false ∧
      (E.getKind ≠ UnaryExprOrTypeTrait.UETT_AlignOf →
        E.getKind ≠ UnaryExprOrTypeTrait.UETT_PreferredAlignOf →
        E.computeDependence.hasValue = E.getArgumentExpr.getDependence.hasType ∧
        E.computeDependence.hasInstantiation =
          E.getArgumentExpr.getDependence.hasInstantiation ∧
        E.computeDependence.hasUnexpandedPack =
          E.getArgumentExpr.getDependence.hasUnexpandedPack ∧
        E.computeDependence.hasError = E.getArgumentExpr.getDependence.hasError) := by
  rw [UnaryExprOrTypeTraitExpr_of_expr E h]
  refine ⟨?_, fun h1 h2 => ?_⟩
  · split_ifs
    · cases E.referencedDecl <;> rfl
    · rfl
  · have hk : E.getKind.isAlignOf = false := by
      simp [UnaryExprOrTypeTrait.isAlignOf, h1, h2]
    simp [hk]

/-- Witness for C33: `sizeof` of an expression that is type-, value- and
instantiation-dependent is value- and instantiation-dependent and not type-dependent. -/
theorem UnaryExprOrTypeTraitExpr_expression_argument_witness :
    exampleSizeOf.isArgumentType = false ∧
      exampleSizeOf.computeDependence.hasType = false ∧
      (exampleSizeOf.getKind ≠ UnaryExprOrTypeTrait.UETT_AlignOf →
        exampleSizeOf.getKind ≠ UnaryExprOrTypeTrait.UETT_PreferredAlignOf →
        exampleSizeOf.computeDependence.hasValue =
          exampleSizeOf.getArgumentExpr.getDependence.hasType ∧
        exampleSizeOf.computeDependence.hasInstantiation =
          exampleSizeOf.getArgumentExpr.getDependence.hasInstantiation ∧
        exampleSizeOf.computeDependence.hasUnexpandedPack =
          exampleSizeOf.getArgumentExpr.getDependence.hasUnexpandedPack ∧
        exampleSizeOf.computeDependence.hasError =
          exampleSizeOf.getArgumentExpr.getDependence.hasError) :=
  ⟨rfl, UnaryExprOrTypeTraitExpr_expression_argument exampleSizeOf rfl⟩

/-- The bits of a subset, one by one. -/
theorem bits_of_subset (a b : ExprDependence) (h : a.subset b = true) :
    (a.hasUnexpandedPack = true → b.hasUnexpandedPack = true) ∧
    (a.hasInstantiation = true → b.hasInstantiation = true) ∧
    (a.hasType = true → b.hasType = true) ∧
    (a.hasValue = true → b.hasValue = true) ∧
    (a.hasError = true → b.hasError = true) := by
  obtain ⟨a1, a2, a3, a4, a5⟩ := a
  obtain ⟨b1, b2, b3, b4, b5⟩ := b
  simp only [ExprDependence.subset, Bool.and_eq_true, Bool.or_eq_true,
    Bool.not_eq_true'] at h
  obtain ⟨⟨⟨⟨h1, h2⟩, h3⟩, h4⟩, h5⟩ := h
  refine ⟨?_, ?_, ?_, ?_, ?_⟩
  · cases a1 <;> simp_all
  · cases a2 <;> simp_all
  · cases a3 <;> simp_all
  · cases a4 <;> simp_all
  · cases a5 <;> simp_all

/-- C31 (the claim: for a `UnaryExprOrTypeTraitExpr` with an expression argument the result
is monotone in the dependence of the argument, `alignof` and preferred `alignof` included).
The code breaks it for `alignof`: the early return for a result that already has Value and
Instantiation skips the loop over the `aligned` attributes, and with it the Error bit of an
alignment that contains an error. The result is monotone for every other kind, and for
`alignof` when no `aligned` attribute of the referenced declaration has an alignment that
contains an error; for `alignof` of a declaration with such an attribute the argument with
no bit gives a result with Error and the argument with Type|Value|Instantiation gives a
result without it. -/
theorem UnaryExprOrTypeTraitExpr_monotone_except_alignof_error
    (E : UnaryExprOrTypeTraitExpr) (D1 D2 : ExprDependence)
    (h : E.isArgumentType = false) (hsub : D1.subset D2 = true) :
    ((E.getKind.isAlignOf = false ∨
        ∀ D, E.referencedDecl = some D → D.anyAlignmentErrorDependent = false) →
      (E.withArgumentDependence D1).computeDependence.subset
        (E.withArgumentDependence D2).computeDependence = true) ∧
    ExprDependence.None.subset ExprDependence.TypeValueInstantiation = true ∧
    exampleAlignOf.isArgumentType = false ∧
    (exampleAlignOf.withArgumentDependence ExprDependence.None).computeDependence.hasError
      = true ∧
    (exampleAlignOf.withArgumentDependence
      ExprDependence.TypeValueInstantiation).computeDependence.hasError = false ∧
    (exampleAlignOf.withArgumentDependence ExprDependence.None).computeDependence.subset
      (exampleAlignOf.withArgumentDependence
        ExprDependence.TypeValueInstantiation).computeDependence = false := by
  refine ⟨fun hk => ?_, by decide, rfl, by decide, by decide, by decide⟩
  rw [UnaryExprOrTypeTraitExpr_of_expr (E.withArgumentDependence D1) h,
    UnaryExprOrTypeTraitExpr_of_expr (E.withArgumentDependence D2) h]
  obtain ⟨h1, h2, h3, h4, h5⟩ := bits_of_subset D1 D2 hsub
  obtain ⟨ty, T, A, NP, K⟩ := E
  simp only [UnaryExprOrTypeTraitExpr.withArgumentDependence,
    UnaryExprOrTypeTraitExpr.referencedDecl] at hk ⊢
  obtain ⟨a1, a2, a3, a4, a5⟩ := D1
  obtain ⟨b1, b2, b3, b4, b5⟩ := D2
  simp only at h1 h2 h3 h4 h5 ⊢
  rcases hk with hk | hk
  · simp only [hk, Bool.false_and, Bool.false_eq_true, if_false]
    exact subset_of_bits _ _ h1 h2 (fun x => x) h3 h5
  · cases hK : K.isAlignOf
    · simp only [Bool.false_and, Bool.false_eq_true, if_false]
      exact subset_of_bits _ _ h1 h2 (fun x => x) h3 h5
    · generalize hD : (match NP with
        | NoParensExpr.DeclRefExpr DRE => DRE
        | NoParensExpr.MemberExpr ME => ME
        | NoParensExpr.Other => none) = D at hk ⊢
      cases D with
      | none =>
        apply subset_of_bits <;> (split_ifs <;> simp_all)
      | some D =>
        have he := hk D rfl
        apply subset_of_bits <;>
          (cases hd : D.anyAlignmentDependent <;> cases a2 <;> cases a3 <;> cases b2 <;>
            cases b3 <;> simp_all)

/-- Witness for C31: `sizeof` of an expression, whose result grows from no bit to Value when
the argument grows from no bit to Type. -/
theorem UnaryExprOrTypeTraitExpr_monotone_except_alignof_error_witness :
    exampleSizeOf.isArgumentType = false ∧
    ExprDependence.None.subset ExprDependence.Type_ = true ∧
    (((exampleSizeOf.getKind.isAlignOf = false ∨
        ∀ D, exampleSizeOf.referencedDecl = some D → D.anyAlignmentErrorDependent = false) →
      (exampleSizeOf.withArgumentDependence ExprDependence.None).computeDependence.subset
        (exampleSizeOf.withArgumentDependence ExprDependence.Type_).computeDependence
          = true) ∧
    ExprDependence.None.subset ExprDependence.TypeValueInstantiation = true ∧
    exampleAlignOf.isArgumentType = false ∧
    (exampleAlignOf.withArgumentDependence ExprDependence.None).computeDependence.hasError
      = true ∧
    (exampleAlignOf.withArgumentDependence
      ExprDependence.TypeValueInstantiation).computeDependence.hasError = false ∧
    (exampleAlignOf.withArgumentDependence ExprDependence.None).computeDependence.subset
      (exampleAlignOf.withArgumentDependence
        ExprDependence.TypeValueInstantiation).computeDependence = false) :=
  ⟨rfl, by decide,
    UnaryExprOrTypeTraitExpr_monotone_except_alignof_error exampleSizeOf
      ExprDependence.None ExprDependence.Type_ rfl (by decide)⟩

/-- A lambda whose flag is set, of a type with no dependence bit, comes out with the
UnexpandedPack bit: the bit is not stripped. -/
theorem LambdaExpr_computeDependence_keeps_UnexpandedPack :
    (LambdaExpr.mk exampleInt).computeDependence true = ExprDependence.UnexpandedPack ∧
    ((LambdaExpr.mk exampleInt).computeDependence true).hasUnexpandedPack = true := by
  decide

/-- C32 (amended): the result for a `LambdaExpr` is the dependence of its type as an
expression dependence, united with UnexpandedPack when the flag
`ContainsUnexpandedParameterPack` is set. So it has the UnexpandedPack bit exactly when the
flag is set or the type contains an unexpanded pack, and its other bits are those of the
type; it has no UnexpandedPack bit exactly when the flag is clear and the type has none. -/
theorem LambdaExpr_computeDependence (E : LambdaExpr)
    (ContainsUnexpandedParameterPack : Bool) :
    E.computeDependence ContainsUnexpandedParameterPack =
      (if ContainsUnexpandedParameterPack then
        E.getType.getDependence.toExprDependence ||| ExprDependence.UnexpandedPack
      else E.getType.getDependence.toExprDependence) ∧
    (E.computeDependence ContainsUnexpandedParameterPack).hasUnexpandedPack =
      (ContainsUnexpandedParameterPack ||
        E.getType.getDependence.toExprDependence.hasUnexpandedPack) ∧
    (E.computeDependence ContainsUnexpandedParameterPack).hasInstantiation =
      E.getType.getDependence.toExprDependence.hasInstantiation ∧
    (E.computeDependence ContainsUnexpandedParameterPack).hasType =
      E.getType.getDependence.toExprDependence.hasType ∧
    (E.computeDependence ContainsUnexpandedParameterPack).hasValue =
      E.getType.getDependence.toExprDependence.hasValue ∧
    (E.computeDependence ContainsUnexpandedParameterPack).hasError =
      E.getType.getDependence.toExprDependence.hasError := by
  cases ContainsUnexpandedParameterPack <;>
    simp [LambdaExpr.computeDependence, ExprDependence.UnexpandedPack]

/-! ## The integers of the interpreter -/

/-- Twice the half of a power of two. -/
theorem two_pow_pred_add (Bits : Nat) (hB : 0 < Bits) :
    2 ^ (Bits - 1) + 2 ^ (Bits - 1) = 2 ^ Bits := by
  obtain ⟨b, rfl⟩ : ∃ b, Bits = b + 1 := ⟨Bits - 1, by omega⟩
  simp [pow_succ]
  omega

/-- The value of a pattern, by cases: the pattern itself below the sign bit or for an
unsigned type, the pattern less `2 ^ Bits` otherwise. -/
theorem Integral_toInt_cases {Bits : Nat} {Signed : Bool} (A : Integral Bits Signed) :
    (Signed = true ∧ 2 ^ (Bits - 1) ≤ A.V ∧ A.toInt = (A.V : Int) - ((2 ^ Bits : Nat) : Int)) ∨
    ((Signed = false ∨ A.V < 2 ^ (Bits - 1)) ∧ A.toInt = (A.V : Int)) := by
  unfold Integral.toInt
  by_cases h : Signed = true ∧ 2 ^ (Bits - 1) ≤ A.V
  · left
    refine ⟨h.1, h.2, ?_⟩
    simp [h.1, h.2]
  · right
    constructor
    · by_cases hs : Signed = true
      · right
        exact Nat.lt_of_not_le fun hle => h ⟨hs, hle⟩
      · left
        simpa using hs
    · rw [if_neg]
      simpa using h

/-- The value of a pattern of `Bits` bits lies between `Min` and `Max`. -/
theorem Integral_toInt_range {Bits : Nat} {Signed : Bool} (A : Integral Bits Signed)
    (hB : 0 < Bits) (hV : A.V < 2 ^ Bits) :
    Integral.Min Bits Signed ≤ A.toInt ∧ A.toInt ≤ Integral.Max Bits Signed := by
  have h2 := two_pow_pred_add Bits hB
  have hp : (0 : Nat) < 2 ^ (Bits - 1) := Nat.pow_pos (by decide)
  rcases Integral_toInt_cases A with ⟨hs, hle, he⟩ | ⟨hs, he⟩
  · subst hs
    simp only [Integral.Min, Integral.Max, if_true, he]
    have e1 : ((2 : Int) ^ (Bits - 1)) = ((2 ^ (Bits - 1) : Nat) : Int) := by push_cast; rfl
    rw [e1]
    constructor <;> omega
  · rw [he]
    cases Signed with
    | true =>
      have hlt : A.V < 2 ^ (Bits - 1) := by
        rcases hs with hs | hs
        · exact absurd hs (by decide)
        · exact hs
      simp only [Integral.Min, Integral.Max, if_true]
      have e1 : ((2 : Int) ^ (Bits - 1)) = ((2 ^ (Bits - 1) : Nat) : Int) := by push_cast; rfl
      rw [e1]
      constructor <;> omega
    | false =>
      simp only [Integral.Min, Integral.Max, Bool.false_eq_true, if_false]
      have e1 : ((2 : Int) ^ Bits) = ((2 ^ Bits : Nat) : Int) := by push_cast; rfl
      rw [e1]
      constructor <;> omega

/-- C38 (the claim: `V > RHS` is true exactly when the mathematical value of `V` is greater
than `RHS`). The comparison is false for every negative `V`, and it is the mathematical
comparison whenever `T` is not wider than `unsigned`; but the code converts `V` to
`unsigned` before comparing, which drops the high bits of a wider `T`: with `unsigned` of
32 bits, the 64-bit values `2 ^ 32` and `2 ^ 32 + 5` compare as not greater than 0 and not
greater than 7, for the signed and for the unsigned type. -/
theorem Integral_operator_gt {Bits : Nat} {Signed : Bool} (UnsignedBits : Nat)
    (A : Integral Bits Signed) (RHS : Nat) (hV : A.V < 2 ^ Bits) :
    (A.toInt < 0 → A.operator_gt UnsignedBits RHS = false) ∧
    (Bits ≤ UnsignedBits →
      (A.operator_gt UnsignedBits RHS = true ↔ (RHS : Int) < A.toInt)) ∧
    ((Integral.mk (2 ^ 32) : Integral 64 true).toInt = 2 ^ 32 ∧
      (Integral.mk (2 ^ 32) : Integral 64 true).operator_gt 32 0 = false ∧
      (Integral.mk (2 ^ 32 + 5) : Integral 64 false).toInt = 2 ^ 32 + 5 ∧
      (Integral.mk (2 ^ 32 + 5) : Integral 64 false).operator_gt 32 7 = false) := by
  refine ⟨fun hneg => ?_, fun hle => ?_, by decide, by decide, by decide, by decide⟩
  · simp only [Integral.operator_gt, Bool.and_eq_false_imp, decide_eq_true_eq]
    intro h
    omega
  · have hpow : 2 ^ Bits ≤ 2 ^ UnsignedBits := Nat.pow_le_pow_right (by decide) hle
    simp only [Integral.operator_gt, Bool.and_eq_true, decide_eq_true_eq]
    rcases Integral_toInt_cases A with ⟨_, _, he⟩ | ⟨_, he⟩
    · rw [he]
      constructor
      · rintro ⟨h0, _⟩
        omega
      · intro h
        omega
    · rw [he]
      have e1 : ((2 : Int) ^ UnsignedBits) = ((2 ^ UnsignedBits : Nat) : Int) := by
        push_cast; rfl
      have hmod : (A.V : Int) % 2 ^ UnsignedBits = (A.V : Int) := by
        rw [e1]
        exact Int.emod_eq_of_lt (by omega) (by omega)
      rw [hmod]
      simp

/-- Witness for C38: the signed 8-bit value -1 (pattern 255) is not greater than 3, and
the comparison of an 8-bit value is the mathematical one. -/
theorem Integral_operator_gt_witness :
    (255 : Nat) < 2 ^ 8 ∧
    (((Integral.mk 255 : Integral 8 true).toInt < 0 →
      (Integral.mk 255 : Integral 8 true).operator_gt 32 3 = false) ∧
    (8 ≤ 32 →
      ((Integral.mk 255 : Integral 8 true).operator_gt 32 3 = true ↔
        ((3 : Nat) : Int) < (Integral.mk 255 : Integral 8 true).toInt)) ∧
    ((Integral.mk (2 ^ 32) : Integral 64 true).toInt = 2 ^ 32 ∧
      (Integral.mk (2 ^ 32) : Integral 64 true).operator_gt 32 0 = false ∧
      (Integral.mk (2 ^ 32 + 5) : Integral 64 false).toInt = 2 ^ 32 + 5 ∧
      (Integral.mk (2 ^ 32 + 5) : Integral 64 false).operator_gt 32 7 = false)) :=
  ⟨by decide, Integral_operator_gt 32 (Integral.mk 255 : Integral 8 true) 3 (by decide)⟩

/-- The test of one bit through a mask of one bit. -/
theorem and_two_pow_ne_zero (x k : Nat) : ((x &&& 2 ^ k) != 0) = x.testBit k := by
  cases h : x.testBit k with
  | true =>
    have hb : (x &&& 2 ^ k).testBit k = true := by
      rw [Nat.testBit_and, h, Nat.testBit_two_pow_self]; rfl
    have hne : x &&& 2 ^ k ≠ 0 := by
      intro h0
      rw [h0] at hb
      simp at hb
    simpa using hne
  | false =>
    have h0 : x &&& 2 ^ k = 0 := by
      apply Nat.eq_of_testBit_eq
      intro i
      rw [Nat.testBit_and, Nat.testBit_two_pow]
      by_cases hi : k = i
      · subst hi; simp [h]
      · simp [hi]
    simp [h0]

/-- The pattern that `truncate` returns for `1 ≤ TruncBits < Bits`: the low `TruncBits`
bits of `V`, below `Bits - TruncBits` ones when the type is signed and bit `TruncBits - 1`
of `V` is set. -/
theorem Integral_truncate_V {Bits : Nat} {Signed : Bool} (A : Integral Bits Signed)
    (TruncBits : Nat) (h2 : TruncBits < Bits) :
    (A.truncate TruncBits).V =
      2 ^ TruncBits * (if Signed && A.V.testBit (TruncBits - 1)
        then 2 ^ (Bits - TruncBits) - 1 else 0) + A.V % 2 ^ TruncBits := by
  have hlt : 2 ^ TruncBits < 2 ^ Bits := Nat.pow_lt_pow_right (by decide) h2
  have hlt1 : 2 ^ (TruncBits - 1) < 2 ^ Bits :=
    Nat.pow_lt_pow_right (by decide) (by omega)
  have hpos : 0 < 2 ^ TruncBits := Nat.pow_pos (by decide)
  have hsplit : 2 ^ Bits = 2 ^ TruncBits * 2 ^ (Bits - TruncBits) := by
    rw [← pow_add]
    congr 1
    omega
  have hmask : ((1 <<< TruncBits) % 2 ^ Bits + 2 ^ Bits - 1) % 2 ^ Bits
      = 2 ^ TruncBits - 1 := by
    rw [Nat.one_shiftLeft, Nat.mod_eq_of_lt hlt,
      show 2 ^ TruncBits + 2 ^ Bits - 1 = (2 ^ TruncBits - 1) + 2 ^ Bits by omega,
      Nat.add_mod_right, Nat.mod_eq_of_lt (by omega)]
  have hsign : (1 <<< (TruncBits - 1)) % 2 ^ Bits = 2 ^ (TruncBits - 1) := by
    rw [Nat.one_shiftLeft, Nat.mod_eq_of_lt hlt1]
  have hext : 2 ^ Bits - 1 - (2 ^ TruncBits - 1)
      = 2 ^ TruncBits * (2 ^ (Bits - TruncBits) - 1) := by
    rw [Nat.mul_sub, Nat.mul_one, ← hsplit]
    omega
  have hnot : ¬ (TruncBits ≥ Bits) := by omega
  simp only [Integral.truncate, hnot, if_false, hmask, hsign, hext,
    Nat.and_pow_two_sub_one_eq_mod, and_two_pow_ne_zero]
  have hlow : A.V % 2 ^ TruncBits < 2 ^ TruncBits := Nat.mod_lt _ hpos
  split_ifs
  · rw [Nat.mul_add_lt_is_or hlow, Nat.or_comm]
  · simp

/-- A number below `2 ^ (k + 1)` whose bit `k` is clear is below `2 ^ k`. -/
theorem lt_two_pow_of_testBit_false (x k : Nat) (hx : x < 2 ^ (k + 1))
    (hb : x.testBit k = false) : x < 2 ^ k := by
  apply Nat.lt_pow_two_of_testBit
  intro i hi
  by_cases hik : i = k
  · rw [hik]; exact hb
  · apply Nat.testBit_lt_two_pow
    exact Nat.lt_of_lt_of_le hx (Nat.pow_le_pow_right (by decide) (by omega))

/-- C39: `truncate(TruncBits)` returns `V` unchanged when `TruncBits >= Bits`; and when
`1 <= TruncBits < Bits` its result is again a pattern of `Bits` bits, whose low `TruncBits`
bits are those of `V` and whose remaining high bits are all copies of bit `TruncBits - 1`
of `V` when the type is signed and all zero when it is unsigned; so the value of the result
is congruent to the value of `V` modulo `2 ^ TruncBits` and lies in the signed range of
`TruncBits` bits when the type is signed, in the unsigned range when it is unsigned. -/
theorem Integral_truncate {Bits : Nat} {Signed : Bool} (A : Integral Bits Signed)
    (TruncBits : Nat) (hV : A.V < 2 ^ Bits) :
    (TruncBits ≥ Bits → A.truncate TruncBits = A) ∧
    (1 ≤ TruncBits → TruncBits < Bits →
      (A.truncate TruncBits).V < 2 ^ Bits ∧
      (∀ i, i < TruncBits → (A.truncate TruncBits).V.testBit i = A.V.testBit i) ∧
      (∀ i, TruncBits ≤ i → i < Bits →
        (A.truncate TruncBits).V.testBit i = (Signed && A.V.testBit (TruncBits - 1))) ∧
      (A.truncate TruncBits).toInt % 2 ^ TruncBits = A.toInt % 2 ^ TruncBits ∧
      (if Signed then
        -(2 ^ (TruncBits - 1)) ≤ (A.truncate TruncBits).toInt ∧
          (A.truncate TruncBits).toInt < 2 ^ (TruncBits - 1)
      else
        0 ≤ (A.truncate TruncBits).toInt ∧
          (A.truncate TruncBits).toInt < 2 ^ TruncBits)) := by
  refine ⟨fun h => by simp [Integral.truncate, h], fun h1 h2 => ?_⟩
  have hform := Integral_truncate_V A TruncBits h2
  have hpos : 0 < 2 ^ TruncBits := Nat.pow_pos (by decide)
  have hlow : A.V % 2 ^ TruncBits < 2 ^ TruncBits := Nat.mod_lt _ hpos
  have hsplit : 2 ^ Bits = 2 ^ TruncBits * 2 ^ (Bits - TruncBits) := by
    rw [← pow_add]
    congr 1
    omega
  have hQ : 0 < 2 ^ (Bits - TruncBits) := Nat.pow_pos (by decide)
  have hhalfT := two_pow_pred_add TruncBits (by omega)
  have hhalfB := two_pow_pred_add Bits (by omega)
  have hTB : 2 ^ TruncBits ≤ 2 ^ (Bits - 1) := Nat.pow_le_pow_right (by decide) (by omega)
  have hbits : ∀ i, (A.truncate TruncBits).V.testBit i =
      if i < TruncBits then A.V.testBit i
      else (Signed && A.V.testBit (TruncBits - 1)) && decide (i < Bits) := by
    intro i
    rw [hform, Nat.testBit_mul_pow_two_add _ hlow, Nat.testBit_mod_two_pow]
    by_cases hi : i < TruncBits
    · simp [hi]
    · simp only [hi, if_false]
      split_ifs with hs
      · rw [Nat.testBit_two_pow_sub_one, hs]
        simp only [Bool.true_and]
        congr 1
        apply propext
        omega
      · have hs1 : (Signed && A.V.testBit (TruncBits - 1)) = false := by simpa using hs
        simp [hs1]
  -- the value of the result, by the sign that was copied
  have hval : (A.truncate TruncBits).V < 2 ^ Bits ∧
      (A.truncate TruncBits).toInt =
        (A.V % 2 ^ TruncBits : Nat) -
          (if Signed && A.V.testBit (TruncBits - 1) then ((2 ^ TruncBits : Nat) : Int)
            else 0) ∧
      ((Signed && A.V.testBit (TruncBits - 1)) = true →
        2 ^ (TruncBits - 1) ≤ A.V % 2 ^ TruncBits) ∧
      (Signed = true → A.V.testBit (TruncBits - 1) = false →
        A.V % 2 ^ TruncBits < 2 ^ (TruncBits - 1)) := by
    by_cases hs : (Signed && A.V.testBit (TruncBits - 1)) = true
    · have hS : Signed = true := by
        cases Signed
        · simp at hs
        · rfl
      have hbit : A.V.testBit (TruncBits - 1) = true := (Bool.and_eq_true_iff.mp hs).2
      have hV1 : (A.truncate TruncBits).V
          = 2 ^ Bits - 2 ^ TruncBits + A.V % 2 ^ TruncBits := by
        rw [hform, if_pos hs, Nat.mul_sub, Nat.mul_one, ← hsplit]
      have hge : 2 ^ (TruncBits - 1) ≤ A.V % 2 ^ TruncBits := by
        apply Nat.testBit_implies_ge
        rw [Nat.testBit_mod_two_pow, hbit]
        simp
        omega
      refine ⟨by omega, ?_, fun _ => hge, fun _ hf => by rw [hbit] at hf; cases hf⟩
      rcases Integral_toInt_cases (A.truncate TruncBits) with ⟨_, _, he⟩ | ⟨hc, he⟩
      · rw [he, hV1, if_pos hs]
        omega
      · exfalso
        rcases hc with hc | hc
        · rw [hS] at hc; cases hc
        · omega
    · have hV1 : (A.truncate TruncBits).V = A.V % 2 ^ TruncBits := by
        rw [hform, if_neg hs]
        simp
      refine ⟨by omega, ?_, fun h => absurd h hs, fun hS hf => ?_⟩
      · rw [if_neg hs]
        rcases Integral_toInt_cases (A.truncate TruncBits) with ⟨hS, hle, _⟩ | ⟨_, he⟩
        · exfalso
          have hbit : A.V.testBit (TruncBits - 1) = false :=
            Bool.eq_false_iff.mpr fun hb => hs (Bool.and_eq_true_iff.mpr ⟨hS, hb⟩)
          have hlt := lt_two_pow_of_testBit_false (A.V % 2 ^ TruncBits) (TruncBits - 1)
            (by rw [show TruncBits - 1 + 1 = TruncBits by omega]; exact hlow)
            (by rw [Nat.testBit_mod_two_pow, hbit]; simp)
          omega
        · rw [he, hV1]
          simp
      · exact lt_two_pow_of_testBit_false (A.V % 2 ^ TruncBits) (TruncBits - 1)
          (by rw [show TruncBits - 1 + 1 = TruncBits by omega]; exact hlow)
          (by rw [Nat.testBit_mod_two_pow, hf]; simp)
  obtain ⟨hrange, hint, hge, hlt⟩ := hval
  have eT : ((2 : Int) ^ TruncBits) = ((2 ^ TruncBits : Nat) : Int) := by push_cast; rfl
  have eT1 : ((2 : Int) ^ (TruncBits - 1)) = ((2 ^ (TruncBits - 1) : Nat) : Int) := by
    push_cast; rfl
  refine ⟨hrange, fun i hi => by rw [hbits i, if_pos hi], fun i hi1 hi2 => ?_, ?_, ?_⟩
  · rw [hbits i, if_neg (by omega)]
    simp [hi2]
  · -- congruence modulo 2 ^ TruncBits
    have hA : ∃ q : Int, A.toInt = (A.V % 2 ^ TruncBits : Nat) + q * 2 ^ TruncBits := by
      have hdm := Nat.div_add_mod A.V (2 ^ TruncBits)
      rcases Integral_toInt_cases A with ⟨_, _, he⟩ | ⟨_, he⟩
      · refine ⟨(A.V / 2 ^ TruncBits : Nat) - (2 ^ (Bits - TruncBits) : Nat), ?_⟩
        rw [he, hsplit]
        conv_lhs => rw [← hdm]
        push_cast
        ring
      · refine ⟨(A.V / 2 ^ TruncBits : Nat), ?_⟩
        rw [he]
        conv_lhs => rw [← hdm]
        push_cast
        ring
    obtain ⟨q, hq⟩ := hA
    have hR : (A.truncate TruncBits).toInt =
        (A.V % 2 ^ TruncBits : Nat) +
          (if Signed && A.V.testBit (TruncBits - 1) then (-1 : Int) else 0) *
            2 ^ TruncBits := by
      rw [hint]
      split_ifs
      · push_cast
        ring
      · simp
    rw [hq, hR, Int.add_mul_emod_self, Int.add_mul_emod_self]
  · cases Signed with
    | true =>
      simp only [if_true]
      rw [hint, eT1]
      by_cases hb : A.V.testBit (TruncBits - 1) = true
      · have := hge (by simp [hb])
        simp only [hb, Bool.and_self, if_true]
        omega
      · have hb1 : A.V.testBit (TruncBits - 1) = false := by simpa using hb
        have := hlt rfl hb1
        simp only [hb1, Bool.and_false, Bool.false_eq_true, if_false]
        omega
    | false =>
      simp only [Bool.false_eq_true, if_false]
      rw [hint, eT]
      simp only [Bool.false_and, Bool.false_eq_true, if_false]
      omega

/-- Witness for C39: the signed 8-bit value 13 (pattern 00001101) truncated to 3 bits is
the pattern 11111101, the value -3. -/
theorem Integral_truncate_witness :
    (13 : Nat) < 2 ^ 8 ∧
    ((3 ≥ 8 → (Integral.mk 13 : Integral 8 true).truncate 3 = Integral.mk 13) ∧
    (1 ≤ 3 → 3 < 8 →
      ((Integral.mk 13 : Integral 8 true).truncate 3).V < 2 ^ 8 ∧
      (∀ i, i < 3 → ((Integral.mk 13 : Integral 8 true).truncate 3).V.testBit i =
        (13 : Nat).testBit i) ∧
      (∀ i, 3 ≤ i → i < 8 →
        ((Integral.mk 13 : Integral 8 true).truncate 3).V.testBit i =
          (true && (13 : Nat).testBit (3 - 1))) ∧
      ((Integral.mk 13 : Integral 8 true).truncate 3).toInt % 2 ^ 3 =
        (Integral.mk 13 : Integral 8 true).toInt % 2 ^ 3 ∧
      (if true = true then
        -(2 ^ (3 - 1)) ≤ ((Integral.mk 13 : Integral 8 true).truncate 3).toInt ∧
          ((Integral.mk 13 : Integral 8 true).truncate 3).toInt < 2 ^ (3 - 1)
      else
        0 ≤ ((Integral.mk 13 : Integral 8 true).truncate 3).toInt ∧
          ((Integral.mk 13 : Integral 8 true).truncate 3).toInt < 2 ^ 3))) ∧
    ((Integral.mk 13 : Integral 8 true).truncate 3).V = 253 ∧
    ((Integral.mk 13 : Integral 8 true).truncate 3).toInt = -3 :=
  ⟨by decide, Integral_truncate (Integral.mk 13 : Integral 8 true) 3 (by decide),
    by decide, by decide⟩

/-- The value of a signed pattern, by its top bit. -/
theorem Integral_toInt_signed {Bits : Nat} (A : Integral Bits true) :
    (A.V < 2 ^ (Bits - 1) ∧ A.toInt = (A.V : Int)) ∨
    (2 ^ (Bits - 1) ≤ A.V ∧ A.toInt = (A.V : Int) - ((2 ^ Bits : Nat) : Int)) := by
  rcases Integral_toInt_cases A with ⟨_, hle, he⟩ | ⟨hs, he⟩
  · exact Or.inr ⟨hle, he⟩
  · rcases hs with hs | hs
    · cases hs
    · exact Or.inl ⟨hs, he⟩

/-- The value of an unsigned pattern is the pattern. -/
theorem Integral_toInt_unsigned {Bits : Nat} (A : Integral Bits false) :
    A.toInt = (A.V : Int) := by
  simp [Integral.toInt]

/-- The sum of two patterns of `Bits` bits, reduced modulo `2 ^ Bits`. -/
theorem add_mod_two_pow_cases (N a b : Nat) (ha : a < N) (hb : b < N) :
    (a + b < N ∧ (a + b) % N = a + b) ∨ (N ≤ a + b ∧ (a + b) % N = a + b - N) := by
  by_cases h : a + b < N
  · exact Or.inl ⟨h, Nat.mod_eq_of_lt h⟩
  · refine Or.inr ⟨by omega, ?_⟩
    rw [Nat.mod_eq_sub_mod (by omega), Nat.mod_eq_of_lt (by omega)]

/-- What `llvm::AddOverflow` computes on two signed patterns of `Bits` bits: the result is
the sum of the patterns modulo `2 ^ Bits`, the flag is set exactly when the sum of the two
values lies outside the range of the type, and when the flag is clear the value of the
result is that sum. -/
theorem AddOverflow_sum (Bits : Nat) (hB : 0 < Bits) (X Y : Nat)
    (hX : X < 2 ^ Bits) (hY : Y < 2 ^ Bits) :
    (AddOverflow Bits X Y).2 = (X + Y) % 2 ^ Bits ∧
    ((AddOverflow Bits X Y).1 = true ↔
      ((Integral.mk X : Integral Bits true).toInt + (Integral.mk Y : Integral Bits true).toInt
          < Integral.Min Bits true ∨
        Integral.Max Bits true < (Integral.mk X : Integral Bits true).toInt +
          (Integral.mk Y : Integral Bits true).toInt)) ∧
    ((AddOverflow Bits X Y).1 = false →
      (Integral.mk (AddOverflow Bits X Y).2 : Integral Bits true).toInt =
        (Integral.mk X : Integral Bits true).toInt +
          (Integral.mk Y : Integral Bits true).toInt) := by
  have h2 := two_pow_pred_add Bits hB
  have hx := Integral_toInt_signed (Integral.mk X : Integral Bits true)
  have hy := Integral_toInt_signed (Integral.mk Y : Integral Bits true)
  have hr := Integral_toInt_signed (Integral.mk ((X + Y) % 2 ^ Bits) : Integral Bits true)
  have hu := add_mod_two_pow_cases (2 ^ Bits) X Y hX hY
  have e1 : ((2 : Int) ^ (Bits - 1)) = ((2 ^ (Bits - 1) : Nat) : Int) := by push_cast; rfl
  have hres : (AddOverflow Bits X Y).2 = (X + Y) % 2 ^ Bits := by
    unfold AddOverflow
    dsimp only
    split_ifs <;> rfl
  rw [hres]
  unfold AddOverflow
  simp only [Integral.Min, Integral.Max, if_true, e1]
  generalize (Integral.mk X : Integral Bits true).toInt = x at hx ⊢
  generalize (Integral.mk Y : Integral Bits true).toInt = y at hy ⊢
  generalize (Integral.mk ((X + Y) % 2 ^ Bits) : Integral Bits true).toInt = r at hr ⊢
  generalize (X + Y) % 2 ^ Bits = u at hr hu ⊢
  simp only at hx hy hr
  refine ⟨trivial, ?_, ?_⟩
  · split_ifs with c1 c2
    · simp only [Bool.and_eq_true, decide_eq_true_eq] at c1 ⊢
      omega
    · simp only [Bool.and_eq_true, decide_eq_true_eq] at c1 c2 ⊢
      omega
    · simp only [Bool.and_eq_true, decide_eq_true_eq] at c1 c2
      simp only [Bool.false_eq_true, false_iff]
      omega
  · split_ifs with c1 c2
    · simp only [Bool.and_eq_true, decide_eq_true_eq] at c1
      simp only [decide_eq_false_iff_not]
      omega
    · simp only [Bool.and_eq_true, decide_eq_true_eq] at c1 c2
      simp only [decide_eq_false_iff_not]
      omega
    · simp only [Bool.and_eq_true, decide_eq_true_eq] at c1 c2
      intro _
      omega

/-- C40: for a signed `Integral`, `add(A, B, OpBits, R)` returns true exactly when the
mathematical sum `A + B` lies outside `[Min, Max]`, and when it returns false `R` holds
exactly `A + B`; for an unsigned `Integral` it always returns false and `R` holds
`(A + B) mod 2 ^ Bits`. The result does not depend on `OpBits`, and `increment(A, R)` is
`add(A, 1, Bits, R)`. -/
theorem Integral_add {Bits : Nat} {Signed : Bool} (A B : Integral Bits Signed)
    (OpBits : Nat) (hB : 2 ≤ Bits) (hA : A.V < 2 ^ Bits) (hBV : B.V < 2 ^ Bits) :
    (Signed = true →
      ((A.add B OpBits).1 = true ↔
        (A.toInt + B.toInt < Integral.Min Bits Signed ∨
          Integral.Max Bits Signed < A.toInt + B.toInt)) ∧
      ((A.add B OpBits).1 = false → (A.add B OpBits).2.toInt = A.toInt + B.toInt)) ∧
    (Signed = false →
      (A.add B OpBits).1 = false ∧
      (A.add B OpBits).2.toInt = (A.toInt + B.toInt) % 2 ^ Bits) ∧
    (∀ OpBits1, A.add B OpBits1 = A.add B OpBits) ∧
    (A.increment = A.add ⟨1⟩ Bits ∧ (Integral.mk 1 : Integral Bits Signed).toInt = 1) := by
  have h1 : 1 < 2 ^ (Bits - 1) := Nat.one_lt_two_pow (by omega)
  have h2 := two_pow_pred_add Bits (by omega)
  have hone : 1 % 2 ^ Bits = 1 := Nat.mod_eq_of_lt (by omega)
  refine ⟨fun hS => ?_, fun hS => ?_, fun _ => rfl, ?_, ?_⟩
  · subst hS
    obtain ⟨_, hflag, hval⟩ := AddOverflow_sum Bits (by omega) A.V B.V hA hBV
    exact ⟨hflag, hval⟩
  · subst hS
    refine ⟨rfl, ?_⟩
    rw [Integral_toInt_unsigned, Integral_toInt_unsigned, Integral_toInt_unsigned]
    simp only [Integral.add, CheckAddUB, Bool.false_eq_true, if_false]
    push_cast
    rfl
  · simp only [Integral.increment, Integral.bitWidth, hone]
  · rcases Integral_toInt_cases (Integral.mk 1 : Integral Bits Signed)
      with ⟨_, hle, _⟩ | ⟨_, he⟩
    · simp only at hle
      omega
    · rw [he]
      rfl

/-- Witness for C40: the signed 8-bit sum 100 + 100 overflows. -/
theorem Integral_add_witness :
    2 ≤ 8 ∧ (100 : Nat) < 2 ^ 8 ∧
    ((true = true →
      (((Integral.mk 100 : Integral 8 true).add (Integral.mk 100) 8).1 = true ↔
        ((Integral.mk 100 : Integral 8 true).toInt + (Integral.mk 100 : Integral 8 true).toInt
            < Integral.Min 8 true ∨
          Integral.Max 8 true < (Integral.mk 100 : Integral 8 true).toInt +
            (Integral.mk 100 : Integral 8 true).toInt)) ∧
      (((Integral.mk 100 : Integral 8 true).add (Integral.mk 100) 8).1 = false →
        ((Integral.mk 100 : Integral 8 true).add (Integral.mk 100) 8).2.toInt =
          (Integral.mk 100 : Integral 8 true).toInt +
            (Integral.mk 100 : Integral 8 true).toInt)) ∧
    (true = false →
      ((Integral.mk 100 : Integral 8 true).add (Integral.mk 100) 8).1 = false ∧
      ((Integral.mk 100 : Integral 8 true).add (Integral.mk 100) 8).2.toInt =
        ((Integral.mk 100 : Integral 8 true).toInt +
          (Integral.mk 100 : Integral 8 true).toInt) % 2 ^ 8) ∧
    (∀ OpBits1, (Integral.mk 100 : Integral 8 true).add (Integral.mk 100) OpBits1 =
      (Integral.mk 100 : Integral 8 true).add (Integral.mk 100) 8) ∧
    ((Integral.mk 100 : Integral 8 true).increment =
        (Integral.mk 100 : Integral 8 true).add ⟨1⟩ 8 ∧
      (Integral.mk 1 : Integral 8 true).toInt = 1)) ∧
    (Integral.mk 100 : Integral 8 true).add (Integral.mk 100) 8 = (true, ⟨200⟩) ∧
    (Integral.mk 100 : Integral 8 true).add (Integral.mk 27) 8 = (false, ⟨127⟩) ∧
    (Integral.mk 200 : Integral 8 false).add (Integral.mk 100) 8 = (false, ⟨44⟩) :=
  ⟨by decide, by decide,
    Integral_add (Integral.mk 100 : Integral 8 true) (Integral.mk 100) 8 (by decide)
      (by decide) (by decide),
    by decide, by decide, by decide⟩

/-! ## A backslash that no newline follows, and the two slow character primitives -/

/-- What `getEscapedNewLineSize` measures over horizontal whitespace `w` that no newline
follows: the loop leaves through its final `return Size` with the length of `w` added, not
with 0. -/
theorem getEscapedNewLineSizeLoop_no_newline (buf : List Nat) (Ptr : Nat) (tl : List Nat)
    (htl : isWhitespace (tl.headD 0) = false) :
    ∀ (w : List Nat) (n Size : Nat), buf.drop (Ptr + Size) = w ++ tl →
      (∀ x ∈ w, isHorizontalWhitespace x = true) → w.length < n →
      getEscapedNewLineSizeLoop buf Ptr n Size = Size + w.length := by
  intro w
  induction w with
  | nil =>
    intro n Size hd _ hn
    obtain ⟨m, rfl⟩ : ∃ m, n = m + 1 := ⟨n - 1, by simp at hn; omega⟩
    have h0 : rd buf (Ptr + Size) = tl.headD 0 :=
      rd_eq_headD_drop buf _ tl (by simpa using hd)
    have hws : isWhitespace (rd buf (Ptr + Size)) = false := by rw [h0]; exact htl
    simp [getEscapedNewLineSizeLoop, hws]
  | cons x w ih =>
    intro n Size hd hw hn
    obtain ⟨m, rfl⟩ : ∃ m, n = m + 1 := ⟨n - 1, by simp at hn; omega⟩
    obtain ⟨h0, h1, _⟩ := rd_of_drop buf (Ptr + Size) x (w ++ tl) (by simpa using hd)
    obtain ⟨hxw, hx10, hx13⟩ := isHorizontalWhitespace_facts x (hw x (by simp))
    have h1a : buf.drop (Ptr + (Size + 1)) = w ++ tl := by
      rw [← Nat.add_assoc]; exact h1
    have h2 : rd buf (Ptr + (Size + 1)) ≠ 13 := by
      rw [rd_eq_headD_drop buf _ _ h1a]
      cases w with
      | nil =>
        simp only [List.nil_append]
        intro h13
        rw [h13] at htl
        exact absurd htl (by decide)
      | cons y w => exact (isHorizontalWhitespace_facts y (hw y (by simp))).2.2
    have hws : isWhitespace (rd buf (Ptr + Size)) = true := by rw [h0]; exact hxw
    have hx10a : rd buf (Ptr + Size) ≠ 10 := by rw [h0]; exact hx10
    have hstep : getEscapedNewLineSizeLoop buf Ptr (m + 1) Size =
        getEscapedNewLineSizeLoop buf Ptr m (Size + 1) := by
      simp [getEscapedNewLineSizeLoop, hws, h2, hx10a]
    rw [hstep, ih m (Size + 1) h1a (fun y hy => hw y (by simp [hy]))
      (by simp at hn; omega)]
    simp only [List.length_cons]
    omega

/-- C34 (the claim: a backslash followed by horizontal whitespace and then by a character
that is not a newline is an ordinary character, returned with `Size` increased by 1 and
without `NeedsCleaning`). The code breaks it: `getEscapedNewLineSize` leaves its loop with
the length of the whitespace, not with 0, so the backslash and the whitespace are skipped as
if they were an escaped newline. When `Ptr` points at a backslash, one or more
horizontal-whitespace characters `w` and a character that is neither whitespace nor a
backslash, `getCharAndSizeSlow` returns that character, increases `Size` by the length of
`w` plus 2 and sets `NeedsCleaning`, and `getCharAndSizeSlowNoWarn` returns the same
character and size; on backslash, space, `x` the character is `x` and `Size` is 3. -/
theorem getCharAndSizeSlow_backslash_whitespace (buf : List Nat) (Ptr Size : Nat)
    (w tl : List Nat) (Tok : Token)
    (hbuf : buf.drop Ptr = 92 :: (w ++ tl))
    (hw : ∀ x ∈ w, isHorizontalWhitespace x = true) (hne : w ≠ [])
    (hc : isWhitespace (tl.headD 0) = false) (h92 : tl.headD 0 ≠ 92) :
    getCharAndSizeSlow buf Ptr Size (some Tok) =
      (tl.headD 0, Size + w.length + 2, some { Tok with NeedsCleaning := true }) ∧
    getCharAndSizeSlowNoWarn buf Ptr Size = (tl.headD 0, Size + w.length + 2) ∧
    getCharAndSizeSlow [92, 32, 120] 0 0 (some Token.startToken) =
      (120, 3, some { Token.startToken with NeedsCleaning := true }) := by
  obtain ⟨h0, h1, hlt⟩ := rd_of_drop buf Ptr 92 _ hbuf
  have hlen : w.length ≤ buf.length - (Ptr + 1) := by
    have := congrArg List.length h1
    simp only [List.length_drop, List.length_append] at this
    omega
  have hsize : getEscapedNewLineSize buf (Ptr + 1) = w.length := by
    have := getEscapedNewLineSizeLoop_no_newline buf (Ptr + 1) tl hc w
      (buf.length + 1 - (Ptr + 1)) 0 (by simpa using h1) hw (by omega)
    simpa [getEscapedNewLineSize] using this
  have hw1 : isWhitespace (rd buf (Ptr + 1)) = true := by
    rw [rd_eq_headD_drop buf _ _ h1]
    cases w with
    | nil => exact absurd rfl hne
    | cons y w => exact (isHorizontalWhitespace_facts y (hw y (by simp))).1
  have hpos : w.length ≠ 0 := by
    cases w with
    | nil => exact absurd rfl hne
    | cons y w => simp
  have hd2 : buf.drop (Ptr + 1 + w.length) = tl := by
    rw [← List.drop_drop, h1]
    simp
  have hrd : rd buf (Ptr + 1 + w.length) = tl.headD 0 := rd_eq_headD_drop buf _ tl hd2
  have hne92 : (tl.headD 0 == 92) = false := by
    rw [beq_eq_false_iff_ne]; exact h92
  obtain ⟨m, hm⟩ : ∃ m, buf.length + 1 - Ptr = m + 1 := ⟨buf.length - Ptr, by omega⟩
  have hrec : ∀ T : Option Token, getCharAndSizeSlowRec buf m (Ptr + 1 + w.length)
      (Size + 1 + w.length) T = (tl.headD 0, Size + w.length + 2, T) := by
    intro T
    have hS : Size + 1 + w.length + 1 = Size + w.length + 2 := by omega
    cases m with
    | zero => rw [getCharAndSizeSlowRec, hrd, hS]
    | succ k =>
      rw [getCharAndSizeSlowRec]
      simp only [hrd, hne92, Bool.false_eq_true, if_false, hS]
  have hrecN : getCharAndSizeSlowNoWarnRec buf m (Ptr + 1 + w.length)
      (Size + 1 + w.length) = (tl.headD 0, Size + w.length + 2) := by
    have hS : Size + 1 + w.length + 1 = Size + w.length + 2 := by omega
    cases m with
    | zero => rw [getCharAndSizeSlowNoWarnRec, hrd, hS]
    | succ k =>
      rw [getCharAndSizeSlowNoWarnRec]
      simp only [hrd, hne92, Bool.false_eq_true, if_false, hS]
  refine ⟨?_, ?_, by decide⟩
  · rw [getCharAndSizeSlow, hm]
    simp only [getCharAndSizeSlowRec, h0, beq_self_eq_true, if_true, hw1, Bool.not_true,
      Bool.false_eq_true, if_false, hsize, bne_iff_ne, ne_eq, hpos, not_false_eq_true, hrec]
    rfl
  · rw [getCharAndSizeSlowNoWarn, hm]
    simp only [getCharAndSizeSlowNoWarnRec, h0, beq_self_eq_true, if_true, hw1,
      Bool.not_true, Bool.false_eq_true, if_false, hsize, bne_iff_ne, ne_eq, hpos,
      not_false_eq_true, hrecN]

/-- Witness for C34: backslash, space, tab, `x` after a byte `+`. The character returned is
`x`, `Size` grows by 4 and the token is flagged. -/
theorem getCharAndSizeSlow_backslash_whitespace_witness :
    ([43, 92, 32, 9, 120].drop 1 = 92 :: ([32, 9] ++ [120])) ∧
    (getCharAndSizeSlow [43, 92, 32, 9, 120] 1 0 (some Token.startToken) =
      (([120] : List Nat).headD 0, 0 + [32, 9].length + 2,
        some { Token.startToken with NeedsCleaning := true }) ∧
    getCharAndSizeSlowNoWarn [43, 92, 32, 9, 120] 1 0 =
      (([120] : List Nat).headD 0, 0 + [32, 9].length + 2) ∧
    getCharAndSizeSlow [92, 32, 120] 0 0 (some Token.startToken) =
      (120, 3, some { Token.startToken with NeedsCleaning := true })) :=
  ⟨rfl, getCharAndSizeSlow_backslash_whitespace [43, 92, 32, 9, 120] 1 0 [32, 9] [120]
    Token.startToken rfl (by decide) (by decide) (by decide) (by decide)⟩

/-- The recursions of `getCharAndSizeSlow` and `getCharAndSizeSlowNoWarn` return the same
character and the same size at every depth. -/
theorem getCharAndSizeSlowRec_eq_NoWarnRec (buf : List Nat) :
    ∀ (n Ptr Size : Nat) (Tok : Option Token),
      (getCharAndSizeSlowRec buf n Ptr Size Tok).1 =
        (getCharAndSizeSlowNoWarnRec buf n Ptr Size).1 ∧
      (getCharAndSizeSlowRec buf n Ptr Size Tok).2.1 =
        (getCharAndSizeSlowNoWarnRec buf n Ptr Size).2 := by
  intro n
  induction n with
  | zero => intro Ptr Size Tok; exact ⟨rfl, rfl⟩
  | succ n ih =>
    intro Ptr Size Tok
    rw [getCharAndSizeSlowRec, getCharAndSizeSlowNoWarnRec]
    dsimp only
    split_ifs
    · exact ⟨rfl, rfl⟩
    · exact ih _ _ _
    · exact ⟨rfl, rfl⟩
    · exact ⟨rfl, rfl⟩

/-- The depth that `getCharAndSizeSlow` gives its recursion is enough: any greater depth
returns the same result. -/
theorem getCharAndSizeSlowRec_depth (buf : List Nat) :
    ∀ (n m Ptr Size : Nat) (Tok : Option Token),
      buf.length + 1 - Ptr ≤ n → buf.length + 1 - Ptr ≤ m →
      getCharAndSizeSlowRec buf n Ptr Size Tok = getCharAndSizeSlowRec buf m Ptr Size Tok := by
  intro n
  induction n with
  | zero =>
    intro m Ptr Size Tok hn _
    have hrd : rd buf Ptr = 0 := rd_of_length_le buf Ptr (by omega)
    cases m with
    | zero => rfl
    | succ m => simp [getCharAndSizeSlowRec, hrd]
  | succ n ih =>
    intro m Ptr Size Tok hn hm
    cases m with
    | zero =>
      have hrd : rd buf Ptr = 0 := rd_of_length_le buf Ptr (by omega)
      simp [getCharAndSizeSlowRec, hrd]
    | succ m =>
      rw [getCharAndSizeSlowRec, getCharAndSizeSlowRec]
      dsimp only
      split_ifs
      · rfl
      · exact ih _ _ _ _ (by omega) (by omega)
      · rfl
      · rfl

/-- C35: `getCharAndSizeSlow` and `getCharAndSizeSlowNoWarn` match: for every buffer, every
position `Ptr`, every initial `Size` and every token (or none), the two functions return
the same character and leave the same value in `Size`. -/
theorem getCharAndSizeSlow_matches_NoWarn (buf : List Nat) (Ptr Size : Nat)
    (Tok : Option Token) :
    (getCharAndSizeSlow buf Ptr Size Tok).1 = (getCharAndSizeSlowNoWarn buf Ptr Size).1 ∧
    (getCharAndSizeSlow buf Ptr Size Tok).2.1 = (getCharAndSizeSlowNoWarn buf Ptr Size).2 :=
  getCharAndSizeSlowRec_eq_NoWarnRec buf _ Ptr Size Tok

/-! ## The size of an escaped newline -/

/-- What `getEscapedNewLineSize` measures over horizontal whitespace `w` and a line feed:
the length of `w` plus 2 when a carriage return follows the line feed, plus 1
otherwise. -/
theorem getEscapedNewLineSizeLoop_line_feed (buf : List Nat) (Ptr : Nat) (tl : List Nat) :
    ∀ (w : List Nat) (n Size : Nat), buf.drop (Ptr + Size) = w ++ 10 :: tl →
      (∀ x ∈ w, isHorizontalWhitespace x = true) → w.length < n →
      getEscapedNewLineSizeLoop buf Ptr n Size =
        Size + w.length + (if tl.headD 0 = 13 then 2 else 1) := by
  intro w
  induction w with
  | nil =>
    intro n Size hd _ hn
    obtain ⟨m, rfl⟩ : ∃ m, n = m + 1 := ⟨n - 1, by simp at hn; omega⟩
    obtain ⟨h0, h1, _⟩ := rd_of_drop buf (Ptr + Size) 10 tl (by simpa using hd)
    have h2 : rd buf (Ptr + (Size + 1)) = tl.headD 0 :=
      rd_eq_headD_drop buf _ tl (by rw [← Nat.add_assoc]; exact h1)
    have h3 : rd buf (Ptr + (Size + 1) - 1) = 10 := by
      rw [show Ptr + (Size + 1) - 1 = Ptr + Size by omega]; exact h0
    have hw : isWhitespace (rd buf (Ptr + Size)) = true := by rw [h0]; decide
    obtain ⟨c, hc⟩ : ∃ c, c = tl.headD 0 := ⟨_, rfl⟩
    rw [← hc] at h2 ⊢
    simp only [getEscapedNewLineSizeLoop, hw, if_true, h3, h2, List.length_nil]
    by_cases h13 : c = 13
    · simp [h13]
    · by_cases hten : c = 10
      · simp [hten]
      · simp [hten, h13]
  | cons x w ih =>
    intro n Size hd hw hn
    obtain ⟨m, rfl⟩ : ∃ m, n = m + 1 := ⟨n - 1, by simp at hn; omega⟩
    obtain ⟨h0, h1, _⟩ := rd_of_drop buf (Ptr + Size) x (w ++ 10 :: tl) (by simpa using hd)
    obtain ⟨hxw, hx10, hx13⟩ := isHorizontalWhitespace_facts x (hw x (by simp))
    have h1a : buf.drop (Ptr + (Size + 1)) = w ++ 10 :: tl := by
      rw [← Nat.add_assoc]; exact h1
    have h2 : rd buf (Ptr + (Size + 1)) ≠ 13 := by
      rw [rd_eq_headD_drop buf _ _ h1a]
      cases w with
      | nil => simp
      | cons y w => exact (isHorizontalWhitespace_facts y (hw y (by simp))).2.2
    have hws : isWhitespace (rd buf (Ptr + Size)) = true := by rw [h0]; exact hxw
    have hx10a : rd buf (Ptr + Size) ≠ 10 := by rw [h0]; exact hx10
    have hstep : getEscapedNewLineSizeLoop buf Ptr (m + 1) Size =
        getEscapedNewLineSizeLoop buf Ptr m (Size + 1) := by
      simp [getEscapedNewLineSizeLoop, hws, h2, hx10a]
    rw [hstep, ih m (Size + 1) h1a (fun y hy => hw y (by simp [hy]))
      (by simp at hn; omega)]
    simp only [List.length_cons]
    omega

/-- What `getEscapedNewLineSize` measures over one or more horizontal-whitespace
characters `w` and a carriage return: the length of `w` plus 1, whatever follows the
carriage return. The test for a carriage return reads `Ptr[Size]`, one byte ahead, so it
fires at the last byte of `w`, and the step that follows takes the carriage return for the
second byte of a newline. -/
theorem getEscapedNewLineSizeLoop_carriage_return (buf : List Nat) (Ptr : Nat)
    (tl : List Nat) :
    ∀ (w : List Nat) (n Size : Nat), buf.drop (Ptr + Size) = w ++ 13 :: tl →
      (∀ x ∈ w, isHorizontalWhitespace x = true) → w ≠ [] → w.length ≤ n →
      getEscapedNewLineSizeLoop buf Ptr n Size = Size + w.length + 1 := by
  intro w
  induction w with
  | nil => intro n Size _ _ hne; exact absurd rfl hne
  | cons x w ih =>
    intro n Size hd hw _ hn
    obtain ⟨m, rfl⟩ : ∃ m, n = m + 1 := ⟨n - 1, by simp at hn; omega⟩
    obtain ⟨h0, h1, _⟩ := rd_of_drop buf (Ptr + Size) x (w ++ 13 :: tl) (by simpa using hd)
    obtain ⟨hxw, hx10, hx13⟩ := isHorizontalWhitespace_facts x (hw x (by simp))
    have h1a : buf.drop (Ptr + (Size + 1)) = w ++ 13 :: tl := by
      rw [← Nat.add_assoc]; exact h1
    have hws : isWhitespace (rd buf (Ptr + Size)) = true := by rw [h0]; exact hxw
    have hx10a : rd buf (Ptr + Size) ≠ 10 := by rw [h0]; exact hx10
    cases w with
    | nil =>
      have h2 : rd buf (Ptr + (Size + 1)) = 13 :=
        (rd_of_drop buf _ 13 tl (by simpa using h1a)).1
      have h3 : rd buf (Ptr + (Size + 1) - 1) = x := by
        rw [show Ptr + (Size + 1) - 1 = Ptr + Size by omega]; exact h0
      simp only [getEscapedNewLineSizeLoop, hws, if_true, h3, h2, List.length_cons,
        List.length_nil]
      simp [hx13]
    | cons y w =>
      have h2 : rd buf (Ptr + (Size + 1)) ≠ 13 := by
        rw [rd_eq_headD_drop buf _ _ h1a]
        exact (isHorizontalWhitespace_facts y (hw y (by simp))).2.2
      have hstep : getEscapedNewLineSizeLoop buf Ptr (m + 1) Size =
          getEscapedNewLineSizeLoop buf Ptr m (Size + 1) := by
        simp [getEscapedNewLineSizeLoop, hws, h2, hx10a]
      rw [hstep, ih m (Size + 1) h1a (fun z hz => hw z (by simp [hz])) (by simp)
        (by simp at hn ⊢; omega)]
      simp only [List.length_cons]
      omega

/-- C36 (the claim: over `h` horizontal-whitespace characters and a newline character
`getEscapedNewLineSize` returns `h` plus 2 when the other newline character follows, plus 1
otherwise; 3 on space, carriage return, line feed). The code keeps it when the newline
character is a line feed and breaks it when it is a carriage return after one or more
whitespace characters: the result is then `h + 1` whatever follows, 2 on space, carriage
return, line feed. Without whitespace before it a carriage return is stepped over as if it
were horizontal whitespace: carriage return, line feed, carriage return gives 3, and
carriage return, space, line feed gives 3. -/
theorem getEscapedNewLineSize_newline (buf : List Nat) (Ptr : Nat) (w tl : List Nat)
    (nl : Nat) (hbuf : buf.drop Ptr = w ++ nl :: tl)
    (hw : ∀ x ∈ w, isHorizontalWhitespace x = true)
    (hnl : nl = 10 ∨ (nl = 13 ∧ w ≠ [])) :
    getEscapedNewLineSize buf Ptr =
      (if nl = 10 then w.length + (if tl.headD 0 = 13 then 2 else 1) else w.length + 1) ∧
    getEscapedNewLineSize [32, 13, 10] 0 = 2 ∧
    getEscapedNewLineSize [13, 10, 13] 0 = 3 ∧
    getEscapedNewLineSize [13, 32, 10] 0 = 3 := by
  refine ⟨?_, by decide, by decide, by decide⟩
  have hlen : w.length + 1 ≤ buf.length - Ptr := by
    have := congrArg List.length hbuf
    simp only [List.length_drop, List.length_append, List.length_cons] at this
    omega
  rcases hnl with rfl | ⟨rfl, hne⟩
  · have := getEscapedNewLineSizeLoop_line_feed buf Ptr tl w (buf.length + 1 - Ptr) 0
      (by simpa using hbuf) hw (by omega)
    simpa [getEscapedNewLineSize] using this
  · have := getEscapedNewLineSizeLoop_carriage_return buf Ptr tl w (buf.length + 1 - Ptr) 0
      (by simpa using hbuf) hw hne (by omega)
    simpa [getEscapedNewLineSize] using this

/-- Witness for C36: two spaces, carriage return, line feed after a backslash; the size is
3 where the claim has 4. -/
theorem getEscapedNewLineSize_newline_witness :
    ([92, 32, 32, 13, 10, 97].drop 1 = [32, 32] ++ 13 :: [10, 97]) ∧
    (getEscapedNewLineSize [92, 32, 32, 13, 10, 97] 1 =
      (if 13 = 10 then [32, 32].length + (if ([10, 97] : List Nat).headD 0 = 13 then 2 else 1)
        else [32, 32].length + 1) ∧
    getEscapedNewLineSize [32, 13, 10] 0 = 2 ∧
    getEscapedNewLineSize [13, 10, 13] 0 = 3 ∧
    getEscapedNewLineSize [13, 32, 10] 0 = 3) :=
  ⟨rfl, getEscapedNewLineSize_newline [92, 32, 32, 13, 10, 97] 1 [32, 32] [10, 97] 13 rfl
    (by decide) (Or.inr ⟨rfl, by decide⟩)⟩

/-! ## The kind of a lone `&`, `|` or `~` -/

/-- C37 (the claim: on every path to the final `FormTokenWithChars(Result, CurPtr, Kind)`
the variable `Kind` has been assigned, so the kind of the token is determined by the input
bytes alone, also for a lone `&`, `|` and `~`). The code breaks it: the cases `&`, `|` and
`~` assign `Kind` only inside the `if` for `&&`, `||` and `~=`. When the byte at the cursor
is `&`, `|` or `~` and the next byte is neither the one that completes the two-byte
operator nor a backslash, `Lex` returns true with a token of one byte whose kind is the
value `Kind` held before any assignment, `KindInit`, whatever that value is. -/
theorem Lex_lone_amp_pipe_tilde (env : LexEnv) (buf : List Nat) (L : Lexer) (fuel : Nat)
    (c s : Nat) (hc : (c, s) ∈ [(38, 38), (124, 124), (126, 61)])
    (h0 : rd buf L.BufferPtr = c) (h1 : rd buf (L.BufferPtr + 1) ≠ s)
    (h92 : rd buf (L.BufferPtr + 1) ≠ 92) :
    ∃ tok L', Lex env buf (fuel + 1) L = some (true, tok, L') ∧
      tok.Kind = env.KindInit ∧ tok.Loc = some L.BufferPtr ∧ tok.Length = 1 ∧
      L'.BufferPtr = L.BufferPtr + 1 := by
  have hsw : LexSwitch env buf (rd buf L.BufferPtr) (L.BufferPtr + 1)
      { LexStartToken L with NeedsCleaning := false, PtrData := none }
      L.IsAtPhysicalStartOfLine (LexStartState L) =
      formAndReturn (LexStartState L)
        { LexStartToken L with NeedsCleaning := false, PtrData := none }
        (L.BufferPtr + 1) env.KindInit := by
    simp only [List.mem_cons, Prod.mk.injEq, List.not_mem_nil, or_false] at hc
    rcases hc with ⟨rfl, rfl⟩ | ⟨rfl, rfl⟩ | ⟨rfl, rfl⟩
    · rw [h0]
      simp only [LexSwitch, isDigit, isLetter]
      exact opWithSuffix_one buf _ _ (L.BufferPtr + 1) 38 _ _ h1 h92
    · rw [h0]
      simp only [LexSwitch, isDigit, isLetter]
      exact opWithSuffix_one buf _ _ (L.BufferPtr + 1) 124 _ _ h1 h92
    · rw [h0]
      simp only [LexSwitch, isDigit, isLetter]
      exact opWithSuffix_one buf _ _ (L.BufferPtr + 1) 61 _ _ h1 h92
  have hne : rd buf L.BufferPtr ≠ 32 ∧ rd buf L.BufferPtr ≠ 9 ∧ rd buf L.BufferPtr ≠ 92 := by
    simp only [List.mem_cons, Prod.mk.injEq, List.not_mem_nil, or_false] at hc
    rw [h0]
    rcases hc with ⟨rfl, _⟩ | ⟨rfl, _⟩ | ⟨rfl, _⟩ <;> decide
  refine ⟨_, _, Lex_of_switch_done env buf fuel L _ hne.1 hne.2.1 hne.2.2 hsw, rfl, rfl, ?_,
    rfl⟩
  show L.BufferPtr + 1 - L.BufferPtr = 1
  omega

/-- Witness for C37: on the bytes `&`, space the kind of the token is `unknown` when that
is what `Kind` held, and `eof` when `Kind` held `eof`: the same bytes, two kinds. -/
theorem Lex_lone_amp_pipe_tilde_witness :
    (∃ tok L', Lex ⟨TokenKind.unknown, fun _ _ => none⟩ [38, 32] (0 + 1)
        ⟨0, true, true, false, false⟩ = some (true, tok, L') ∧
      tok.Kind = TokenKind.unknown ∧ tok.Loc = some 0 ∧ tok.Length = 1 ∧
      L'.BufferPtr = 0 + 1) ∧
    (∃ tok L', Lex ⟨TokenKind.eof, fun _ _ => none⟩ [38, 32] (0 + 1)
        ⟨0, true, true, false, false⟩ = some (true, tok, L') ∧
      tok.Kind = TokenKind.eof ∧ tok.Loc = some 0 ∧ tok.Length = 1 ∧
      L'.BufferPtr = 0 + 1) :=
  ⟨Lex_lone_amp_pipe_tilde ⟨TokenKind.unknown, fun _ _ => none⟩ [38, 32]
      ⟨0, true, true, false, false⟩ 0 38 38 (by decide) (by decide) (by decide) (by decide),
   Lex_lone_amp_pipe_tilde ⟨TokenKind.eof, fun _ _ => none⟩ [38, 32]
      ⟨0, true, true, false, false⟩ 0 38 38 (by decide) (by decide) (by decide) (by decide)⟩

/-! ## The period -/

end Latino
